import Mathlib

/-! # Bug-report service: request handling and persistence contract

A shallow embedding of the Go service under `bug-report/` (packages `models`, `storage`,
`handlers`) together with the properties the specification states about it.

Layout of the embedding:

* `GoString`: Go strings and byte slices, which are bytes and need not be UTF-8;
* `Json`: JSON documents, with the text layer of `encoding/json` (`Json.parse`, `Json.render`);
* `Time`: values of `time.Time`, with `time.Parse` and `Time.MarshalJSON` in the RFC 3339 layout;
* `LogEntry`, `DeviceInfo`, `UserInfo`, `BugReport`: package `models`, with the encoders and
  decoders that the struct tags of `models/report.go` determine;
* `AzureStorage`: package `storage`, over an explicit container state;
* `ReportHandler`, `InspectorHandler`: package `handlers`, as functions from a request to a
  response, a list of effects and the next container state.

A Go slice is `Option (List _)` where the code distinguishes `nil` from an empty slice through
JSON (`null` against `[]`).  What the handlers take from outside (the clock, the token generator,
the order of ranging over a Go map, which calls of the blob service fail) is an explicit argument
or a field of the state.  The standard library is modelled as of Go 1.20 and later.
-/

namespace Scenextras

/-! ## Decimal digits -/

/-- Whether the character is an ASCII decimal digit. -/
def isDigit (c : Char) : Bool := 48 ≤ c.toNat && c.toNat ≤ 57

/-- The decimal digit character of a number below ten. -/
def digitChar (d : Nat) : Char := Char.ofNat (48 + d)

/-- Splits the longest prefix of decimal digits off the input. -/
def spanDigits : List Char → List Char × List Char
  | [] => ([], [])
  | c :: cs => if isDigit c then ((c :: (spanDigits cs).1), (spanDigits cs).2) else ([], c :: cs)

/-- The number a sequence of decimal digits denotes. -/
def digitsVal (ds : List Char) : Nat := ds.foldl (fun a c => 10 * a + (c.toNat - 48)) 0


/-! ## Go strings

A Go `string` (and a `[]byte`) is a sequence of bytes; nothing makes it UTF-8.  It is modelled by
what ranging over it yields, which is also how `encoding/json` reads it: the runes of its
well-formed UTF-8 sequences and, each on its own, the bytes that belong to none.  Every sequence of
bytes has exactly one such reading.  Error values, log lines and the names of templates are
`String`. -/

/-- One step of ranging over a Go string: a rune, or a byte that is not part of a well-formed
UTF-8 sequence. -/
inductive GoChar where
  | rune (c : Char)
  | byte (b : UInt8)
deriving DecidableEq

/-- A Go `string` or `[]byte`. -/
abbrev GoString := List GoChar

/-- The Go string of a text, which is valid UTF-8. -/
def go (s : String) : GoString := s.data.map GoChar.rune

instance : Coe String GoString := ⟨go⟩

/-- The character U+FFFD, `utf8.RuneError`. -/
def replacementChar : Char := Char.ofNat 65533

/-- The rune that `utf8.DecodeRune` gives: U+FFFD for a byte outside a well-formed sequence. -/
def GoChar.decoded : GoChar → Char
  | GoChar.rune c => c
  | GoChar.byte _ => replacementChar

/-- Whether the step is a rune. -/
def GoChar.isRune : GoChar → Bool
  | GoChar.rune _ => true
  | GoChar.byte _ => false

/-- The runes a decoder reads from a Go string, U+FFFD standing for each invalid byte. -/
def GoString.text (s : GoString) : List Char := s.map GoChar.decoded

/-- The Go string of a sequence of runes. -/
def GoString.ofChars (cs : List Char) : GoString := cs.map GoChar.rune

/-- The function `utf8.ValidString`. -/
def GoString.valid (s : GoString) : Bool := s.all GoChar.isRune

/-- What a Go string is after `json.Marshal` and `json.Unmarshal`: each invalid byte has become
the rune U+FFFD. -/
def GoString.readBack (s : GoString) : GoString := GoString.ofChars (GoString.text s)

/-! ## JSON documents and their text

The text layer of `encoding/json`: documents, the indented rendering of `json.MarshalIndent`, and
the parser behind `json.Unmarshal`.  A document also stands for the Go value a
`map[string]interface{}` holds: its strings are Go strings, and a number keeps its decimal literal
as mantissa and exponent (the value is `mant * 10 ^ exp`), a literal beyond the range of `float64`
standing for an infinite value. -/

/-- A JSON document. -/
inductive Json where
  | null
  | bool (b : Bool)
  | num (mant : Int) (exp : Int)
  | str (s : GoString)
  | arr (xs : List Json)
  | obj (kvs : List (GoString × Json))
deriving Inhabited

namespace Json

/-- Whether the character is JSON white space. -/
def isWs (c : Char) : Bool := c = ' ' || c = '\t' || c = '\n' || c = '\r'

/-- Drops leading white space. -/
def skipWs : List Char → List Char
  | [] => []
  | c :: cs => if isWs c then skipWs cs else c :: cs

/-- The value of a hexadecimal digit. -/
def hexVal (c : Char) : Option Nat :=
  if 48 ≤ c.toNat ∧ c.toNat ≤ 57 then some (c.toNat - 48)
  else if 97 ≤ c.toNat ∧ c.toNat ≤ 102 then some (c.toNat - 87)
  else if 65 ≤ c.toNat ∧ c.toNat ≤ 70 then some (c.toNat - 55)
  else none

/-- The lower-case hexadecimal digit of a number below sixteen. -/
def hexDigit (n : Nat) : Char := if n < 10 then Char.ofNat (48 + n) else Char.ofNat (87 + n)

/-- Four hexadecimal digits of a number below 65536. -/
def hex4 (n : Nat) : List Char :=
  [hexDigit (n / 4096 % 16), hexDigit (n / 256 % 16), hexDigit (n / 16 % 16), hexDigit (n % 16)]

/-- The number four hexadecimal digits denote. -/
def hex4Val (a b c d : Char) : Option Nat :=
  match hexVal a, hexVal b, hexVal c, hexVal d with
  | some x, some y, some z, some w => some (x * 4096 + y * 256 + z * 16 + w)
  | _, _, _, _ => none

/-- The escaping of one character by the encoder (HTML escaping on, as `json.Marshal` has it). -/
def escapeChar (c : Char) : List Char :=
  if c = '"' then ['\\', '"']
  else if c = '\\' then ['\\', '\\']
  else if c = '\n' then ['\\', 'n']
  else if c = '\r' then ['\\', 'r']
  else if c = '\t' then ['\\', 't']
  else if c.toNat < 32 ∨ c = '<' ∨ c = '>' ∨ c = '&' ∨ c.toNat = 8232 ∨ c.toNat = 8233 then
    '\\' :: 'u' :: hex4 c.toNat
  else [c]

/-- What the encoder writes for one step of a Go string: the escaping of a rune, and the escape
of U+FFFD for an invalid byte. -/
def escapeGo : GoChar → List Char
  | GoChar.rune c => escapeChar c
  | GoChar.byte _ => ['\\', 'u', 'f', 'f', 'f', 'd']

/-- A string literal. -/
def renderString (s : GoString) : List Char :=
  '"' :: (s.flatMap escapeGo ++ ['"'])

/-- The character a one-letter escape stands for. -/
def unescape (c : Char) : Option Char :=
  if c = '"' then some '"'
  else if c = '\\' then some '\\'
  else if c = '/' then some '/'
  else if c = 'b' then some (Char.ofNat 8)
  else if c = 'f' then some (Char.ofNat 12)
  else if c = 'n' then some '\n'
  else if c = 'r' then some '\r'
  else if c = 't' then some '\t'
  else none

/-- Puts a character in front of a parsed string. -/
def consChar (c : Char) : Option (List Char × List Char) → Option (List Char × List Char)
  | some (s, r) => some (c :: s, r)
  | none => none

/-- Parses a string literal after its opening quote: the characters and the rest of the input.
An unpaired surrogate escape reads as U+FFFD. -/
def parseStringBody : Nat → List Char → Option (List Char × List Char)
  | 0, _ => none
  | _ + 1, [] => none
  | fuel + 1, c :: cs =>
    if c = '"' then some ([], cs)
    else if c = '\\' then
      match cs with
      | [] => none
      | e :: rest =>
        if e = 'u' then
          match rest with
          | a :: b :: c2 :: d :: rest2 =>
            match hex4Val a b c2 d with
            | none => none
            | some n =>
              if 55296 ≤ n ∧ n < 56320 then
                match rest2 with
                | '\\' :: 'u' :: a2 :: b2 :: c3 :: d2 :: rest3 =>
                  match hex4Val a2 b2 c3 d2 with
                  | none => none
                  | some m =>
                    if 56320 ≤ m ∧ m < 57344 then
                      consChar (Char.ofNat (65536 + (n - 55296) * 1024 + (m - 56320)))
                        (parseStringBody fuel rest3)
                    else consChar replacementChar (parseStringBody fuel rest2)
                | _ => consChar replacementChar (parseStringBody fuel rest2)
              else if 56320 ≤ n ∧ n < 57344 then
                consChar replacementChar (parseStringBody fuel rest2)
              else consChar (Char.ofNat n) (parseStringBody fuel rest2)
          | _ => none
        else
          match unescape e with
          | some u => consChar u (parseStringBody fuel rest)
          | none => none
    else if c.toNat < 32 then none
    else consChar c (parseStringBody fuel cs)

/-- The fraction of a number literal: its digits, none when there is no fraction. -/
def parseFrac : List Char → Option (List Char × List Char)
  | [] => some ([], [])
  | c :: r =>
    if c = '.' then (if (spanDigits r).1 = [] then none else some (spanDigits r))
    else some ([], c :: r)

/-- The digits of an exponent, with its sign. -/
def parseExpDigits (neg : Bool) (r : List Char) : Option (Int × List Char) :=
  if (spanDigits r).1 = [] then none
  else some (if neg then -(digitsVal (spanDigits r).1 : Int) else (digitsVal (spanDigits r).1 : Int),
    (spanDigits r).2)

/-- The exponent of a number literal, zero when there is none. -/
def parseExp : List Char → Option (Int × List Char)
  | [] => some (0, [])
  | c :: r =>
    if c = 'e' ∨ c = 'E' then
      match r with
      | [] => none
      | s :: r2 =>
        if s = '-' then parseExpDigits true r2
        else if s = '+' then parseExpDigits false r2
        else parseExpDigits false (s :: r2)
    else some (0, c :: r)

/-- A number literal after its sign. -/
def parseUnsigned (neg : Bool) (cs : List Char) : Option (Json × List Char) :=
  if (spanDigits cs).1 = [] then none
  else if (spanDigits cs).1.head? = some '0' ∧ 1 < (spanDigits cs).1.length then none
  else
    match parseFrac (spanDigits cs).2 with
    | none => none
    | some (fp, cs3) =>
      match parseExp cs3 with
      | none => none
      | some (e, cs4) =>
        some (Json.num
          (if neg then -(digitsVal ((spanDigits cs).1 ++ fp) : Int)
            else (digitsVal ((spanDigits cs).1 ++ fp) : Int))
          (e - (fp.length : Int)), cs4)

/-- A number literal. -/
def parseNumber : List Char → Option (Json × List Char)
  | [] => none
  | c :: r => if c = '-' then parseUnsigned true r else parseUnsigned false (c :: r)

/-- The decimal digits of a number, most significant first, in front of `acc`. -/
def natDigits : Nat → Nat → List Char → List Char
  | 0, _, acc => acc
  | fuel + 1, n, acc =>
    if n / 10 = 0 then digitChar (n % 10) :: acc
    else natDigits fuel (n / 10) (digitChar (n % 10) :: acc)

/-- The decimal literal of a natural number. -/
def renderNat (n : Nat) : List Char := natDigits (n + 1) n []

/-- The decimal literal of an integer. -/
def renderInt : Int → List Char
  | Int.ofNat n => renderNat n
  | Int.negSucc n => '-' :: renderNat (n + 1)

/-- The literal of a number: the mantissa, and the exponent unless it is zero. -/
def renderNum (m e : Int) : List Char :=
  renderInt m ++ (if e = 0 then [] else 'e' :: renderInt e)

/-- A line break and the indentation of a nesting depth, two spaces a level. -/
def indent (d : Nat) : List Char := '\n' :: List.replicate (2 * d) ' '

mutual
/-- The indented text of a document at a nesting depth. -/
def render (d : Nat) : Json → List Char
  | .null => ['n', 'u', 'l', 'l']
  | .bool true => ['t', 'r', 'u', 'e']
  | .bool false => ['f', 'a', 'l', 's', 'e']
  | .num m e => renderNum m e
  | .str s => renderString s
  | .arr [] => ['[', ']']
  | .arr (x :: xs) =>
    '[' :: (indent (d + 1) ++ (render (d + 1) x ++ (renderElems (d + 1) xs ++ (indent d ++ [']']))))
  | .obj [] => ['\x7b', '\x7d']
  | .obj ((k, v) :: ms) =>
    '\x7b' :: (indent (d + 1) ++ (renderString k ++ (':' :: ' ' :: (render (d + 1) v ++
      (renderMembers (d + 1) ms ++ (indent d ++ ['\x7d']))))))
/-- The text of the elements of an array after the first. -/
def renderElems (d : Nat) : List Json → List Char
  | [] => []
  | x :: xs => ',' :: (indent d ++ (render d x ++ renderElems d xs))
/-- The text of the members of an object after the first. -/
def renderMembers (d : Nat) : List (GoString × Json) → List Char
  | [] => []
  | (k, v) :: ms =>
    ',' :: (indent d ++ (renderString k ++ (':' :: ' ' :: (render d v ++ renderMembers d ms))))
end

/-- Applies a function to the parsed value, keeping the rest of the input. -/
def mapFst {α β γ : Type} (f : α → γ) : Option (α × β) → Option (γ × β)
  | some (a, b) => some (f a, b)
  | none => none

/-- The rest of a literal name (`null`, `true`, `false`) after its first letter. -/
def parseLiteral (lit : List Char) (v : Json) (cs : List Char) : Option (Json × List Char) :=
  if lit.isPrefixOf cs then some (v, cs.drop lit.length) else none

/-- The constant `maxNestingDepth` of the scanner: how many arrays and objects may be open at
once. -/
def maxNestingDepth : Nat := 10000

mutual
/-- Parses one value while `depth` arrays and objects are open: the document and the rest of the
input.  Opening one more than `maxNestingDepth` is the error "exceeded max depth". -/
def parseValue : Nat → Nat → List Char → Option (Json × List Char)
  | 0, _, _ => none
  | fuel + 1, depth, cs =>
    match skipWs cs with
    | [] => none
    | c :: r =>
      if c = 'n' then parseLiteral ['u', 'l', 'l'] Json.null r
      else if c = 't' then parseLiteral ['r', 'u', 'e'] (Json.bool true) r
      else if c = 'f' then parseLiteral ['a', 'l', 's', 'e'] (Json.bool false) r
      else if c = '"' then
        mapFst (fun s => Json.str (GoString.ofChars s)) (parseStringBody fuel r)
      else if c = '[' then
        if maxNestingDepth ≤ depth then none
        else
          match skipWs r with
          | [] => none
          | c2 :: r2 =>
            if c2 = ']' then some (Json.arr [], r2)
            else mapFst Json.arr (parseElems fuel (depth + 1) (c2 :: r2))
      else if c = '\x7b' then
        if maxNestingDepth ≤ depth then none
        else
          match skipWs r with
          | [] => none
          | c2 :: r2 =>
            if c2 = '\x7d' then some (Json.obj [], r2)
            else mapFst Json.obj (parseMembers fuel (depth + 1) (c2 :: r2))
      else parseNumber (c :: r)
/-- Parses the elements of an array up to its closing bracket. -/
def parseElems : Nat → Nat → List Char → Option (List Json × List Char)
  | 0, _, _ => none
  | fuel + 1, depth, cs =>
    match parseValue fuel depth cs with
    | none => none
    | some (v, r) =>
      match skipWs r with
      | [] => none
      | c :: r2 =>
        if c = ',' then mapFst (fun vs => v :: vs) (parseElems fuel depth r2)
        else if c = ']' then some ([v], r2)
        else none
/-- Parses the members of an object up to its closing brace. -/
def parseMembers : Nat → Nat → List Char → Option (List (GoString × Json) × List Char)
  | 0, _, _ => none
  | fuel + 1, depth, cs =>
    match skipWs cs with
    | [] => none
    | q :: r =>
      if q = '"' then
        match parseStringBody fuel r with
        | none => none
        | some (k, r2) =>
          match skipWs r2 with
          | [] => none
          | c :: r3 =>
            if c = ':' then
              match parseValue fuel depth r3 with
              | none => none
              | some (v, r4) =>
                match skipWs r4 with
                | [] => none
                | c2 :: r5 =>
                  if c2 = ',' then
                    mapFst (fun ms => (GoString.ofChars k, v) :: ms) (parseMembers fuel depth r5)
                  else if c2 = '\x7d' then some ([(GoString.ofChars k, v)], r5)
                  else none
            else none
      else none
end

/-- Parses the bytes of a text that holds one document and white space around it. -/
def parse (data : GoString) : Option Json :=
  match parseValue ((GoString.text data).length + 1) 0 (GoString.text data) with
  | some (v, r) => if skipWs r = [] then some v else none
  | none => none

mutual
/-- A bound on the fuel the parser needs for the text of a document. -/
def size : Json → Nat
  | .str s => s.length + 2
  | .arr xs => sizeElems xs + 1
  | .obj ms => sizeMembers ms + 1
  | _ => 1
/-- The bound for the elements of an array. -/
def sizeElems : List Json → Nat
  | [] => 0
  | x :: xs => size x + sizeElems xs + 1
/-- The bound for the members of an object. -/
def sizeMembers : List (GoString × Json) → Nat
  | [] => 0
  | (k, v) :: ms => k.length + 2 + size v + sizeMembers ms + 1
end

mutual
/-- How deep the arrays and objects of a document nest. -/
def depth : Json → Nat
  | .arr xs => depthElems xs + 1
  | .obj ms => depthMembers ms + 1
  | _ => 0
/-- The deepest nesting among the elements of an array. -/
def depthElems : List Json → Nat
  | [] => 0
  | x :: xs => max (depth x) (depthElems xs)
/-- The deepest nesting among the members of an object. -/
def depthMembers : List (GoString × Json) → Nat
  | [] => 0
  | (_, v) :: ms => max (depth v) (depthMembers ms)
end

/-- The least magnitude that `strconv.ParseFloat(_, 64)` rounds to infinity, `2^1024 - 2^970`:
half way from the largest `float64` to `2^1024`. -/
def floatLimit : Nat := 179769313486231580793728971405303415079934132710037826936173778980444968292764750946649017977587207096330286416692887910946555547851940402630657488671505820681908902000708383676273854845817711531764475730270069855571366959622842914819860834936475292719074168444365510704342711559699508093042880177904174497792

/-- Whether the number `mant * 10 ^ exp` is within the range of `float64`. -/
def finiteNum (mant exp : Int) : Bool :=
  if 0 ≤ exp then decide (mant.natAbs * 10 ^ exp.toNat < floatLimit)
  else decide (mant.natAbs < floatLimit * 10 ^ (-exp).toNat)

mutual
/-- Whether every number of a document is within the range of `float64`: for a Go value, whether
its floats are finite. -/
def finite : Json → Bool
  | .num m e => finiteNum m e
  | .arr xs => finiteElems xs
  | .obj ms => finiteMembers ms
  | _ => true
/-- Whether the elements of an array are finite. -/
def finiteElems : List Json → Bool
  | [] => true
  | x :: xs => finite x && finiteElems xs
/-- Whether the values of the members of an object are finite. -/
def finiteMembers : List (GoString × Json) → Bool
  | [] => true
  | (_, v) :: ms => finite v && finiteMembers ms
end

mutual
/-- The document read from the text of a document: its strings have become valid UTF-8. -/
def readBack : Json → Json
  | .null => .null
  | .bool b => .bool b
  | .num m e => .num m e
  | .str s => .str (GoString.readBack s)
  | .arr xs => .arr (readBackElems xs)
  | .obj ms => .obj (readBackMembers ms)
/-- The elements read from the text of an array. -/
def readBackElems : List Json → List Json
  | [] => []
  | x :: xs => readBack x :: readBackElems xs
/-- The members read from the text of an object. -/
def readBackMembers : List (GoString × Json) → List (GoString × Json)
  | [] => []
  | (k, v) :: ms => (GoString.readBack k, readBack v) :: readBackMembers ms
end

mutual
/-- Whether every string of a document is valid UTF-8. -/
def valid : Json → Bool
  | .str s => GoString.valid s
  | .arr xs => validElems xs
  | .obj ms => validMembers ms
  | _ => true
/-- Whether the strings of the elements of an array are valid UTF-8. -/
def validElems : List Json → Bool
  | [] => true
  | x :: xs => valid x && validElems xs
/-- Whether the keys and the strings of the members of an object are valid UTF-8. -/
def validMembers : List (GoString × Json) → Bool
  | [] => true
  | (k, v) :: ms => GoString.valid k && (valid v && validMembers ms)
end

end Json

/-! ## Date-times

The part of package `time` the service uses: `time.Parse` and `Time.Format` in the RFC 3339
layout, `Time.MarshalJSON`, and the comparison of instants. -/

/-- Whether a year of the Gregorian calendar is a leap year. -/
def isLeap (y : Int) : Bool := y % 4 = 0 && (y % 100 != 0 || y % 400 = 0)

/-- The number of days of a month. -/
def daysIn (y : Int) (m : Nat) : Nat :=
  if m = 2 then (if isLeap y then 29 else 28)
  else if m = 4 ∨ m = 6 ∨ m = 9 ∨ m = 11 then 30 else 31

/-- The calendar fields of a date-time: a day of the calendar and a time of day. -/
def Time.Valid (year : Int) (month day hour minute second nano : Nat) : Prop :=
  1 ≤ month ∧ month ≤ 12 ∧ 1 ≤ day ∧ day ≤ daysIn year month ∧
  hour < 24 ∧ minute < 60 ∧ second < 60 ∧ nano < 1000000000

instance (y : Int) (mo d h mi s n : Nat) : Decidable (Time.Valid y mo d h mi s n) := by
  unfold Time.Valid; infer_instance

/-- A value of `time.Time`: the calendar fields of its instant as its location reads them, and
the offset of the location from UTC at that instant, in seconds east.  Any year and any offset
can occur (`time.Date`, `time.FixedZone`); `time.Parse` yields only some of them.  The monotonic
clock reading and the name of the location are not modelled. -/
structure Time where
  year : Int
  month : Nat
  day : Nat
  hour : Nat
  minute : Nat
  second : Nat
  nano : Nat
  offset : Int
  valid : Time.Valid year month day hour minute second nano
deriving DecidableEq

namespace Time

/-- The zero value of `time.Time`, January 1 of year 1, 00:00 UTC. -/
def zero : Time := ⟨1, 1, 1, 0, 0, 0, 0, 0, by decide⟩

instance : Inhabited Time := ⟨zero⟩

/-- The number of days from 1970-01-01 to a date of the proleptic Gregorian calendar. -/
def daysFromCivil (y : Int) (m d : Nat) : Int :=
  let y2 : Int := if m ≤ 2 then y - 1 else y
  let era : Int := y2 / 400
  let yoe : Int := y2 - era * 400
  let mp : Int := if m ≤ 2 then (m : Int) + 9 else (m : Int) - 3
  let doy : Int := (153 * mp + 2) / 5 + (d : Int) - 1
  let doe : Int := yoe * 365 + yoe / 4 - yoe / 100 + doy
  era * 146097 + doe - 719468

/-- The instant of a date-time, in nanoseconds since 1970-01-01T00:00:00Z. -/
def unixNano (t : Time) : Int :=
  ((daysFromCivil t.year t.month t.day * 86400 + (t.hour : Int) * 3600 + (t.minute : Int) * 60
    + (t.second : Int) - t.offset) * 1000000000) + (t.nano : Int)

/-- The method `Time.After`: whether the instant of `t` is after that of `u`. -/
def After (t u : Time) : Bool := decide (u.unixNano < t.unixNano)

/-- Two decimal digits. -/
def pad2 (n : Nat) : List Char := [digitChar (n / 10 % 10), digitChar (n % 10)]

/-- Four decimal digits. -/
def pad4 (n : Nat) : List Char :=
  [digitChar (n / 1000 % 10), digitChar (n / 100 % 10), digitChar (n / 10 % 10), digitChar (n % 10)]

/-- Nine decimal digits. -/
def pad9 (n : Nat) : List Char :=
  [digitChar (n / 100000000 % 10), digitChar (n / 10000000 % 10), digitChar (n / 1000000 % 10),
   digitChar (n / 100000 % 10), digitChar (n / 10000 % 10), digitChar (n / 1000 % 10),
   digitChar (n / 100 % 10), digitChar (n / 10 % 10), digitChar (n % 10)]

/-- The function `appendInt`: the decimal form of an integer, zero-padded to a width, after a
minus sign when it is negative. -/
def appendInt (x : Int) (width : Nat) : List Char :=
  (if x < 0 then ['-'] else []) ++
    (if width = 2 ∧ x.natAbs < 100 then pad2 x.natAbs
    else if width = 4 ∧ x.natAbs < 10000 then pad4 x.natAbs
    else List.replicate (width - (Json.renderNat x.natAbs).length) '0' ++ Json.renderNat x.natAbs)

/-- Drops the trailing zeros of a sequence of digits. -/
def trimZeros : List Char → List Char
  | [] => []
  | c :: cs => if trimZeros cs = [] ∧ c = '0' then [] else c :: trimZeros cs

/-- The fractional second of `RFC3339Nano`: nothing for zero, else the digits without trailing
zeros. -/
def formatFrac (nano : Nat) : List Char :=
  if nano = 0 then [] else '.' :: trimZeros (pad9 nano)

/-- The zone of the RFC 3339 layout: `Z` for the offset zero, else the sign, the hours and the
minutes of the offset, its seconds cut off. -/
def formatZone (offset : Int) : List Char :=
  if offset = 0 then ['Z']
  else (if Int.tdiv offset 60 < 0 then '-' else '+') ::
    (appendInt (((Int.tdiv offset 60).natAbs / 60 : Nat) : Int) 2 ++
      (':' :: appendInt (((Int.tdiv offset 60).natAbs % 60 : Nat) : Int) 2))

/-- The date and the time of day, down to the second. -/
def formatDateTime (t : Time) : List Char :=
  appendInt t.year 4 ++ ('-' :: (appendInt t.month 2 ++ ('-' :: (appendInt t.day 2 ++
    ('T' :: (appendInt t.hour 2 ++ (':' :: (appendInt t.minute 2 ++
    (':' :: appendInt t.second 2)))))))))

/-- Rendering in the layout `time.RFC3339Nano`. -/
def formatNano (t : Time) : GoString :=
  GoString.ofChars (formatDateTime t ++ (formatFrac t.nano ++ formatZone t.offset))

/-- Rendering in the layout `time.RFC3339` (no fractional seconds), `t.Format(time.RFC3339)`. -/
def format (t : Time) : GoString :=
  GoString.ofChars (formatDateTime t ++ formatZone t.offset)

/-- The error of `Time.MarshalJSON`, if any.  The method renders in `RFC3339Nano` and refuses
the text unless its year is four digits wide and the hour of its zone is below 24. -/
def marshalErr (t : Time) : Option String :=
  if t.year < 0 ∨ 9999 < t.year then some "Time.MarshalJSON: year outside of range [0,9999]"
  else if t.offset ≠ 0 ∧ 24 ≤ (Int.tdiv t.offset 60).natAbs / 60 then
    some "Time.MarshalJSON: timezone hour outside of range [0,23]"
  else none

/-- The method `Time.MarshalJSON`, without the quotes around the text. -/
def MarshalJSON (t : Time) : Except String GoString :=
  match t.marshalErr with
  | some e => Except.error e
  | none => Except.ok t.formatNano

/-- The number two digits denote. -/
def num2 (a b : Char) : Option Nat :=
  if isDigit a ∧ isDigit b then some ((a.toNat - 48) * 10 + (b.toNat - 48)) else none

/-- The number four digits denote. -/
def num4 (a b c d : Char) : Option Nat :=
  if isDigit a ∧ isDigit b ∧ isDigit c ∧ isDigit d then
    some ((a.toNat - 48) * 1000 + (b.toNat - 48) * 100 + (c.toNat - 48) * 10 + (d.toNat - 48))
  else none

/-- The function `getnum`: a number of two digits, or of one digit unless `fixed`. -/
def getnum (fixed : Bool) : List Char → Option (Nat × List Char)
  | [] => none
  | [a] => if isDigit a ∧ fixed = false then some (a.toNat - 48, []) else none
  | a :: b :: r =>
    if isDigit a then
      (if isDigit b then some ((a.toNat - 48) * 10 + (b.toNat - 48), r)
      else if fixed then none else some (a.toNat - 48, b :: r))
    else none

/-- A character of the layout that stands for itself. -/
def expect (c : Char) : List Char → Option (List Char)
  | [] => none
  | x :: r => if x = c then some r else none

/-- The fractional second after the seconds, which the RFC 3339 layout does not name: a period
or a comma with digits after it, of which the first nine count.  Without one the input is left
as it is. -/
def parseFrac : List Char → Nat × List Char
  | c :: d :: r =>
    if (c = '.' ∨ c = ',') ∧ isDigit d then
      (digitsVal (((spanDigits (d :: r)).1 ++ List.replicate 9 '0').take 9), (spanDigits (d :: r)).2)
    else (0, c :: d :: r)
  | r => (0, r)

/-- The zone `Z07:00`, in seconds: `Z`, or a sign, two digits, a colon and two digits, the hours
at most 24 and the minutes at most 60. -/
def parseZone : List Char → Option (Int × List Char)
  | [] => none
  | z :: r =>
    if z = 'Z' then some (0, r)
    else
      match r with
      | h1 :: h2 :: c :: m1 :: m2 :: rest =>
        if c = ':' then
          match num2 h1 h2, num2 m1 m2 with
          | some h, some m =>
            if h ≤ 24 ∧ m ≤ 60 ∧ (z = '+' ∨ z = '-') then
              some (if z = '-' then -(((h * 60 + m) * 60 : Nat) : Int)
                else (((h * 60 + m) * 60 : Nat) : Int), rest)
            else none
          | _, _ => none
        else none
      | _ => none

/-- The date-time a text denotes under the layout `2006-01-02T15:04:05Z07:00`: a year of four
digits, a month and a day of two, an hour of one or two, minutes and seconds of two, a fractional
second if there is one, and the zone; every field within its range, the day within the month, and
nothing after the zone. -/
def parseChars : List Char → Option Time
  | y1 :: y2 :: y3 :: y4 :: r0 =>
    match num4 y1 y2 y3 y4 with
    | none => none
    | some y =>
      match (expect '-' r0).bind (getnum true) with
      | none => none
      | some (mo, r1) =>
        match (expect '-' r1).bind (getnum true) with
        | none => none
        | some (d, r2) =>
          match (expect 'T' r2).bind (getnum false) with
          | none => none
          | some (h, r3) =>
            match (expect ':' r3).bind (getnum true) with
            | none => none
            | some (mi, r4) =>
              match (expect ':' r4).bind (getnum true) with
              | none => none
              | some (s, r5) =>
                match parseZone (parseFrac r5).2 with
                | some (o, []) =>
                  if hv : Time.Valid (y : Int) mo d h mi s (parseFrac r5).1 then
                    some ⟨(y : Int), mo, d, h, mi, s, (parseFrac r5).1, o, hv⟩
                  else none
                | _ => none
  | _ => none

/-- Parsing of a date-time, as `time.Parse(time.RFC3339, s)`: the value, or none for an error. -/
def parse (s : GoString) : Option Time := parseChars (GoString.text s)

/-- What `Time.UnmarshalJSON` reads from the text `Time.MarshalJSON` writes: the same reading
of the clock, in a zone whose offset is the whole minutes of the original one. -/
def readBack (t : Time) : Time := { t with offset := Int.tdiv t.offset 60 * 60 }

end Time

/-! ## Package `models` -/

/-- The type `models.LogEntry`.  `Context` is a `map[string]interface{}`: `none` is the nil map,
and a map is kept as a list of members, in the order of the JSON object it was decoded from (Go
keeps the last value of a repeated key and marshals the keys sorted; that normalisation is left
out).  Its values are the Go values that JSON documents decode to. -/
structure LogEntry where
  Level : GoString
  Message : GoString
  Timestamp : GoString
  Context : Option (List (GoString × Json))

/-- The type `models.DeviceInfo`. -/
structure DeviceInfo where
  Platform : GoString
  OS : GoString
  OSVersion : GoString
  AppVersion : GoString
  BuildNumber : GoString
  DeviceModel : GoString
  Manufacturer : GoString

/-- The type `models.UserInfo`. -/
structure UserInfo where
  UserID : GoString
  Username : GoString
  Email : GoString

/-- The type `models.BugReport`.  The slices are `none` for a nil slice; `UserInfo` is the
pointer `*UserInfo`, `none` when nil. -/
structure BugReport where
  ID : GoString
  Title : GoString
  Description : GoString
  StepsToReproduce : GoString
  CurrentRoute : GoString
  NavigationHistory : Option (List GoString)
  Logs : Option (List LogEntry)
  DeviceInfo : DeviceInfo
  UserInfo : Option UserInfo
  Timestamp : Time
  TraceID : GoString
  ScreenshotURL : GoString

/-- The type `models.LogWardEntry`. -/
structure LogWardEntry where
  Time : GoString
  Service : GoString
  Level : GoString
  Message : GoString
  Channel : GoString
  Context : List (GoString × Json)
  TraceID : GoString

/-- The zero value of `LogEntry`. -/
def LogEntry.zero : LogEntry := ⟨[], [], [], none⟩

/-- The zero value of `DeviceInfo`. -/
def DeviceInfo.zero : DeviceInfo := ⟨[], [], [], [], [], [], []⟩

/-- The zero value of `UserInfo`. -/
def UserInfo.zero : UserInfo := ⟨[], [], []⟩

/-- The zero value of `BugReport`. -/
def BugReport.zero : BugReport :=
  ⟨[], [], [], [], [], none, none, DeviceInfo.zero, none, Time.zero, [], []⟩

/-! ### Encoding, as `json.Marshal` does from the struct tags

`json.Marshal` fails when it meets a value it cannot encode: in a report, a `time.Time` that
`Time.MarshalJSON` refuses, or a float in a context map that is not finite.  The encoding is given
as the error, if any (`marshalErr`), and the document written when there is none (`toJson`). -/

/-- A string field tagged `omitempty`: left out when empty. -/
def omitEmpty (key : String) (value : GoString) : List (GoString × Json) :=
  if value = [] then [] else [(go key, Json.str value)]

/-- A map field tagged `omitempty`: left out when nil or without entries. -/
def omitEmptyMap (key : String) : Option (List (GoString × Json)) → List (GoString × Json)
  | none => []
  | some [] => []
  | some (m :: ms) => [(go key, Json.obj (m :: ms))]

/-- A slice: `null` when nil, an array otherwise. -/
def sliceJson {α : Type} (f : α → Json) : Option (List α) → Json
  | none => Json.null
  | some xs => Json.arr (xs.map f)

/-- Encoding of `LogEntry`. -/
def LogEntry.toJson (l : LogEntry) : Json :=
  Json.obj ([(go "level", Json.str l.Level), (go "message", Json.str l.Message),
    (go "timestamp", Json.str l.Timestamp)] ++ omitEmptyMap "context" l.Context)

/-- Encoding of `DeviceInfo`. -/
def DeviceInfo.toJson (d : DeviceInfo) : Json :=
  Json.obj ([(go "platform", Json.str d.Platform), (go "os", Json.str d.OS),
    (go "osVersion", Json.str d.OSVersion), (go "appVersion", Json.str d.AppVersion),
    (go "buildNumber", Json.str d.BuildNumber)] ++ (omitEmpty "deviceModel" d.DeviceModel ++
    omitEmpty "manufacturer" d.Manufacturer))

/-- Encoding of `UserInfo`. -/
def UserInfo.toJson (u : UserInfo) : Json :=
  Json.obj (omitEmpty "userId" u.UserID ++ (omitEmpty "username" u.Username ++
    omitEmpty "email" u.Email))

/-- A pointer field tagged `omitempty`: left out when nil. -/
def omitNil {α : Type} (key : String) (f : α → Json) : Option α → List (GoString × Json)
  | none => []
  | some a => [(go key, f a)]

/-- Encoding of `BugReport`, fields in declaration order; the timestamp is the text of
`Time.MarshalJSON`. -/
def BugReport.toJson (r : BugReport) : Json :=
  Json.obj ([(go "id", Json.str r.ID), (go "title", Json.str r.Title),
    (go "description", Json.str r.Description)] ++ (omitEmpty "stepsToReproduce" r.StepsToReproduce ++
    ([(go "currentRoute", Json.str r.CurrentRoute),
      (go "navigationHistory", sliceJson Json.str r.NavigationHistory),
      (go "logs", sliceJson LogEntry.toJson r.Logs),
      (go "deviceInfo", r.DeviceInfo.toJson)] ++ (omitNil "userInfo" UserInfo.toJson r.UserInfo ++
    ([(go "timestamp", Json.str r.Timestamp.formatNano)] ++ (omitEmpty "traceId" r.TraceID ++
    omitEmpty "screenshotUrl" r.ScreenshotURL))))))

/-- Whether the floats of the context of a log entry are finite. -/
def LogEntry.finite (l : LogEntry) : Bool := Json.finiteMembers (l.Context.getD [])

/-- The error of `json.Marshal` on a slice of log entries, if any: a float that is not finite. -/
def logsMarshalErr (logs : Option (List LogEntry)) : Option String :=
  if (logs.getD []).all LogEntry.finite then none else some "json: unsupported value"

/-- The error of `json.Marshal` on a report, if any: that of its logs, or that of
`Time.MarshalJSON` on its timestamp. -/
def BugReport.marshalErr (r : BugReport) : Option String :=
  match logsMarshalErr r.Logs with
  | some e => some e
  | none =>
    match r.Timestamp.marshalErr with
    | some e => some ("json: error calling MarshalJSON for type time.Time: " ++ e)
    | none => none

/-- The function `json.MarshalIndent(v, "", "  ")` on a value whose encoding has the error `err`
or else gives the document `j`. -/
def MarshalIndent (err : Option String) (j : Json) : Except String GoString :=
  match err with
  | some e => Except.error e
  | none => Except.ok (GoString.ofChars (Json.render 0 j))

/-! ### Decoding, as `json.Unmarshal` does into a value of each type -/

/-- Case folding of object keys: ASCII letters, and the two runes that fold to ASCII letters. -/
def foldRune (c : Char) : Char :=
  if 97 ≤ c.toNat ∧ c.toNat ≤ 122 then Char.ofNat (c.toNat - 32)
  else if c.toNat = 383 then 'S'
  else if c.toNat = 8490 then 'K'
  else c

/-- Whether an object key addresses the field with the given JSON name (case-insensitively). -/
def keyMatches (name : String) (key : GoString) : Bool :=
  decide ((GoString.text key).map foldRune = name.data.map foldRune)

/-- A decoder takes the value already held and the document, and gives the new value. -/
abbrev Decoder (α : Type) := α → Json → Except String α

/-- Decoding into a `string`: `null` leaves it as it is. -/
def decodeString : Decoder GoString
  | cur, Json.null => Except.ok cur
  | _, Json.str s => Except.ok s
  | _, _ => Except.error "json: cannot unmarshal into Go value of type string"

/-- Decoding into a `time.Time` (`Time.UnmarshalJSON`, which parses as `time.Parse` does): `null`
leaves it as it is. The library parses the bytes between the quotes as they stand in the text,
here the string is parsed after its escapes are resolved: the two agree on every literal without
a backslash, which is every literal `Time.MarshalJSON` writes. -/
def decodeTime : Decoder Time
  | cur, Json.null => Except.ok cur
  | _, Json.str s =>
    match Time.parse s with
    | some t => Except.ok t
    | none => Except.error "parsing time"
  | _, _ => Except.error "Time.UnmarshalJSON: input is not a JSON string"

/-- Decoding of array elements, each into the element already at that index or a zero value. -/
def decodeElems {α : Type} (zero : α) (dec : Decoder α) : List α → List Json → Except String (List α)
  | _, [] => Except.ok []
  | [], x :: xs =>
    match dec zero x with
    | Except.error e => Except.error e
    | Except.ok a =>
      match decodeElems zero dec [] xs with
      | Except.error e => Except.error e
      | Except.ok as => Except.ok (a :: as)
  | c :: cs, x :: xs =>
    match dec c x with
    | Except.error e => Except.error e
    | Except.ok a =>
      match decodeElems zero dec cs xs with
      | Except.error e => Except.error e
      | Except.ok as => Except.ok (a :: as)

/-- Decoding into a slice: `null` gives the nil slice. -/
def decodeSlice {α : Type} (zero : α) (dec : Decoder α) : Decoder (Option (List α))
  | _, Json.null => Except.ok none
  | cur, Json.arr xs =>
    match decodeElems zero dec (cur.getD []) xs with
    | Except.error e => Except.error e
    | Except.ok as => Except.ok (some as)
  | _, _ => Except.error "json: cannot unmarshal into Go value of slice type"

/-- Decoding of object members in order, each through the field setter. -/
def decodeMembers {σ : Type} (setField : σ → GoString → Json → Except String σ) :
    σ → List (GoString × Json) → Except String σ
  | cur, [] => Except.ok cur
  | cur, (k, v) :: ms =>
    match setField cur k v with
    | Except.error e => Except.error e
    | Except.ok next => decodeMembers setField next ms

/-- Decoding into a struct: `null` leaves it as it is, unknown keys are skipped. -/
def decodeStruct {σ : Type} (setField : σ → GoString → Json → Except String σ) : Decoder σ
  | cur, Json.null => Except.ok cur
  | cur, Json.obj ms => decodeMembers setField cur ms
  | _, _ => Except.error "json: cannot unmarshal into Go value of struct type"

/-- Decoding into a pointer: `null` gives nil, anything else decodes into the pointee. -/
def decodePtr {α : Type} (zero : α) (dec : Decoder α) : Decoder (Option α)
  | _, Json.null => Except.ok none
  | cur, j =>
    match dec (cur.getD zero) j with
    | Except.error e => Except.error e
    | Except.ok a => Except.ok (some a)

/-- Decoding into a `map[string]interface{}`: `null` gives the nil map, an object adds its
members to the map.  A number among the values becomes a `float64`, and one outside its range is
an error. -/
def decodeMap : Decoder (Option (List (GoString × Json)))
  | _, Json.null => Except.ok none
  | cur, Json.obj ms =>
    if Json.finiteMembers ms then Except.ok (some (cur.getD [] ++ ms))
    else Except.error "json: cannot unmarshal number into Go value of type float64"
  | _, _ => Except.error "json: cannot unmarshal into Go value of type map[string]interface"

/-- Sets a decoded value into a struct. -/
def setWith {σ α : Type} (r : Except String α) (put : α → σ) : Except String σ :=
  match r with
  | Except.error e => Except.error e
  | Except.ok a => Except.ok (put a)

/-- The field of `LogEntry` an object member goes to. -/
def LogEntry.setField (l : LogEntry) (k : GoString) (v : Json) : Except String LogEntry :=
  if keyMatches "level" k then setWith (decodeString l.Level v) (fun s => { l with Level := s })
  else if keyMatches "message" k then
    setWith (decodeString l.Message v) (fun s => { l with Message := s })
  else if keyMatches "timestamp" k then
    setWith (decodeString l.Timestamp v) (fun s => { l with Timestamp := s })
  else if keyMatches "context" k then
    setWith (decodeMap l.Context v) (fun m => { l with Context := m })
  else Except.ok l

/-- Decoder of `LogEntry`. -/
def LogEntry.decode : Decoder LogEntry := decodeStruct LogEntry.setField

/-- The field of `DeviceInfo` an object member goes to. -/
def DeviceInfo.setField (d : DeviceInfo) (k : GoString) (v : Json) : Except String DeviceInfo :=
  if keyMatches "platform" k then
    setWith (decodeString d.Platform v) (fun s => { d with Platform := s })
  else if keyMatches "os" k then setWith (decodeString d.OS v) (fun s => { d with OS := s })
  else if keyMatches "osVersion" k then
    setWith (decodeString d.OSVersion v) (fun s => { d with OSVersion := s })
  else if keyMatches "appVersion" k then
    setWith (decodeString d.AppVersion v) (fun s => { d with AppVersion := s })
  else if keyMatches "buildNumber" k then
    setWith (decodeString d.BuildNumber v) (fun s => { d with BuildNumber := s })
  else if keyMatches "deviceModel" k then
    setWith (decodeString d.DeviceModel v) (fun s => { d with DeviceModel := s })
  else if keyMatches "manufacturer" k then
    setWith (decodeString d.Manufacturer v) (fun s => { d with Manufacturer := s })
  else Except.ok d

/-- Decoder of `DeviceInfo`. -/
def DeviceInfo.decode : Decoder DeviceInfo := decodeStruct DeviceInfo.setField

/-- The field of `UserInfo` an object member goes to. -/
def UserInfo.setField (u : UserInfo) (k : GoString) (v : Json) : Except String UserInfo :=
  if keyMatches "userId" k then setWith (decodeString u.UserID v) (fun s => { u with UserID := s })
  else if keyMatches "username" k then
    setWith (decodeString u.Username v) (fun s => { u with Username := s })
  else if keyMatches "email" k then
    setWith (decodeString u.Email v) (fun s => { u with Email := s })
  else Except.ok u

/-- Decoder of `UserInfo`. -/
def UserInfo.decode : Decoder UserInfo := decodeStruct UserInfo.setField

/-- The field of `BugReport` an object member goes to. -/
def BugReport.setField (r : BugReport) (k : GoString) (v : Json) : Except String BugReport :=
  if keyMatches "id" k then setWith (decodeString r.ID v) (fun s => { r with ID := s })
  else if keyMatches "title" k then setWith (decodeString r.Title v) (fun s => { r with Title := s })
  else if keyMatches "description" k then
    setWith (decodeString r.Description v) (fun s => { r with Description := s })
  else if keyMatches "stepsToReproduce" k then
    setWith (decodeString r.StepsToReproduce v) (fun s => { r with StepsToReproduce := s })
  else if keyMatches "currentRoute" k then
    setWith (decodeString r.CurrentRoute v) (fun s => { r with CurrentRoute := s })
  else if keyMatches "navigationHistory" k then
    setWith (decodeSlice [] decodeString r.NavigationHistory v)
      (fun s => { r with NavigationHistory := s })
  else if keyMatches "logs" k then
    setWith (decodeSlice LogEntry.zero LogEntry.decode r.Logs v) (fun s => { r with Logs := s })
  else if keyMatches "deviceInfo" k then
    setWith (DeviceInfo.decode r.DeviceInfo v) (fun s => { r with DeviceInfo := s })
  else if keyMatches "userInfo" k then
    setWith (decodePtr UserInfo.zero UserInfo.decode r.UserInfo v)
      (fun s => { r with UserInfo := s })
  else if keyMatches "timestamp" k then
    setWith (decodeTime r.Timestamp v) (fun s => { r with Timestamp := s })
  else if keyMatches "traceId" k then
    setWith (decodeString r.TraceID v) (fun s => { r with TraceID := s })
  else if keyMatches "screenshotUrl" k then
    setWith (decodeString r.ScreenshotURL v) (fun s => { r with ScreenshotURL := s })
  else Except.ok r

/-- Decoder of `BugReport`. -/
def BugReport.decode : Decoder BugReport := decodeStruct BugReport.setField

/-- The function `json.Unmarshal(data, &v)`, for `v` holding `cur` and decoded by `dec`: a
syntax error, or the error of the first value that does not fit, or the decoded value. -/
def Unmarshal {α : Type} (dec : Decoder α) (data : GoString) (cur : α) : Except String α :=
  match Json.parse data with
  | none => Except.error "invalid JSON"
  | some j => dec cur j

/-! ## Package `storage` -/

/-- A blob of the container: its bytes and content type. -/
structure Blob where
  data : GoString
  contentType : String

/-- The `azblob.Client` together with the container it addresses: the blobs by name, and which
calls of the service fail (the backend is an external collaborator; a `some e` makes the call at
that path return the error `e`). -/
structure Client where
  url : String
  blobs : List (GoString × Blob)
  uploadErr : GoString → Option String
  downloadErr : GoString → Option String
  listErr : Option String

/-- The type `storage.AzureStorage`. -/
structure AzureStorage where
  client : Client
  containerName : String

/-- The function `strings.HasSuffix`. -/
def HasSuffix (s suffix : GoString) : Bool := suffix.isSuffixOf s

/-- The function `strings.TrimSuffix`. -/
def TrimSuffix (s suffix : GoString) : GoString :=
  if HasSuffix s suffix then s.take (s.length - suffix.length) else s

/-- The function `strings.TrimPrefix`. -/
def TrimPrefix (s pre : String) : String :=
  if pre.data.isPrefixOf s.data then String.mk (s.data.drop pre.data.length) else s

namespace AzureStorage

/-- The container after a blob is written under a name, replacing one of that name. -/
def putBlob (path : GoString) (b : Blob) (blobs : List (GoString × Blob)) :
    List (GoString × Blob) :=
  (path, b) :: blobs.filter (fun e => e.1 != path)

/-- The method `uploadBlob`: the error if any, and the storage afterwards. -/
def uploadBlob (s : AzureStorage) (path data : GoString) (contentType : String) :
    Option String × AzureStorage :=
  match s.client.uploadErr path with
  | some e => (some e, s)
  | none => (none, { s with client := { s.client with
      blobs := putBlob path ⟨data, contentType⟩ s.client.blobs } })

/-- The method `downloadBlob`. -/
def downloadBlob (s : AzureStorage) (path : GoString) : Except String GoString :=
  match s.client.downloadErr path with
  | some e => Except.error e
  | none =>
    match s.client.blobs.lookup path with
    | none => Except.error "BlobNotFound"
    | some b => Except.ok b.data

/-- The method `SaveReport`: metadata.json, then logs.json; an error of `json.MarshalIndent` is
returned before the upload it precedes. -/
def SaveReport (s : AzureStorage) (report : BugReport) : Option String × AzureStorage :=
  let metadataPath := report.ID ++ go "/metadata.json"
  match MarshalIndent report.marshalErr report.toJson with
  | Except.error e => (some ("failed to marshal metadata: " ++ e), s)
  | Except.ok metadataJSON =>
    match s.uploadBlob metadataPath metadataJSON "application/json" with
    | (some e, s1) => (some ("failed to upload metadata: " ++ e), s1)
    | (none, s1) =>
      let logsPath := report.ID ++ go "/logs.json"
      match MarshalIndent (logsMarshalErr report.Logs) (sliceJson LogEntry.toJson report.Logs) with
      | Except.error e => (some ("failed to marshal logs: " ++ e), s1)
      | Except.ok logsJSON =>
        match s1.uploadBlob logsPath logsJSON "application/json" with
        | (some e, s2) => (some ("failed to upload logs: " ++ e), s2)
        | (none, s2) => (none, s2)

/-- The method `getStorageAccountName`. -/
def getStorageAccountName (s : AzureStorage) : String :=
  TrimPrefix (String.mk (s.client.url.data.takeWhile (fun c => c != '.'))) "https://"

/-- The method `SaveScreenshot`: the URL or the error, and the storage afterwards. -/
def SaveScreenshot (s : AzureStorage) (reportID data : GoString) :
    Except String GoString × AzureStorage :=
  let path := reportID ++ go "/screenshot.png"
  match s.uploadBlob path data "image/png" with
  | (some e, s1) => (Except.error ("failed to upload screenshot: " ++ e), s1)
  | (none, s1) =>
    (Except.ok (go ("https://" ++ s.getStorageAccountName ++ ".blob.core.windows.net/" ++
      s.containerName ++ "/") ++ path), s1)

/-- The method `GetReport`. -/
def GetReport (s : AzureStorage) (reportID : GoString) : Except String BugReport :=
  let metadataPath := reportID ++ go "/metadata.json"
  match s.downloadBlob metadataPath with
  | Except.error e => Except.error ("failed to download metadata: " ++ e)
  | Except.ok data =>
    match Unmarshal BugReport.decode data BugReport.zero with
    | Except.error e => Except.error ("failed to unmarshal metadata: " ++ e)
    | Except.ok report => Except.ok report

/-- The keys of the map `reportIDs` after the paging loop: the identifiers of the blobs named
`<id>/metadata.json`, each once. -/
def reportIDs (s : AzureStorage) : List GoString :=
  ((s.client.blobs.map Prod.fst).filterMap (fun name =>
    if HasSuffix name (go "/metadata.json") then some (TrimSuffix name (go "/metadata.json"))
    else none)).dedup

/-- The loop `for reportID := range reportIDs`: reports that cannot be got are skipped. -/
def fetchEach (s : AzureStorage) : List GoString → List BugReport
  | [] => []
  | reportID :: rest =>
    match s.GetReport reportID with
    | Except.error _ => fetchEach s rest
    | Except.ok report => report :: fetchEach s rest

/-- The method `ListReports`.  `mapRange` is the order in which the Go runtime ranges over the
keys of the map, which the language leaves unspecified. -/
def ListReports (s : AzureStorage) (mapRange : List GoString → List GoString) :
    Except String (List BugReport) :=
  match s.client.listErr with
  | some e => Except.error ("failed to list blobs: " ++ e)
  | none => Except.ok (fetchEach s (mapRange s.reportIDs))

end AzureStorage

/-! ## Package `handlers` -/

/-- A value of a `gin.H` map. -/
inductive Field where
  | bool (b : Bool)
  | str (s : GoString)
  | int (n : Nat)
  | report (r : BugReport)
  | reports (rs : List BugReport)

/-- The type `gin.H`, as the entries written in the source. -/
abbrev H := List (String × Field)

/-- A response written by a handler: `c.JSON(code, gin.H{..})`, `c.JSON(code, report)` or
`c.HTML(code, name, gin.H{..})`. -/
inductive Response where
  | JSON (code : Nat) (obj : H)
  | JSONReport (code : Nat) (report : BugReport)
  | HTML (code : Nat) (name : String) (obj : H)

/-- The status code of a response. -/
def Response.code : Response → Nat
  | Response.JSON c _ => c
  | Response.JSONReport c _ => c
  | Response.HTML c _ _ => c

/-- The entries of the `gin.H` of a response (none for a bare report). -/
def Response.obj : Response → H
  | Response.JSON _ o => o
  | Response.JSONReport _ _ => []
  | Response.HTML _ _ o => o

/-- What a read handler does with a request: it writes a response, or the goroutine panics on
the nil `*AzureStorage` (its methods read `s.client`). -/
inductive Outcome where
  | response (r : Response)
  | panic (msg : String)

/-- What a handler does besides responding. -/
inductive Effect where
  | SaveScreenshot (reportID data : GoString)
  | SaveReport (report : BugReport)
  | forwardToLogWard (report : BugReport)
  | post (url authorization : String) (entry : LogWardEntry)
  | print (line : String)
  | printReport (label : String) (report : BugReport)

/-- The submission, after `ParseMultipartForm`: `form` is `none` when parsing fails, else the
form values; `screenshot` is `none` when `FormFile` fails, `some none` when the part is there and
`io.ReadAll` fails, `some (some data)` otherwise. -/
structure Request where
  form : Option (List (GoString × GoString))
  screenshot : Option (Option GoString)

/-- What the handler reads from its surroundings: the two readings of `time.Now()` (for the
timestamp and for a raw log entry) and the string of `uuid.New()`. -/
structure Env where
  now : Time
  logNow : Time
  uuid : String

/-- The method `c.PostForm`: the first value of the key, or the empty string. -/
def PostForm (form : List (GoString × GoString)) (key : GoString) : GoString :=
  (form.lookup key).getD []

/-- The type `handlers.ReportHandler`. -/
structure ReportHandler where
  storage : Option AzureStorage
  logwardAPIKey : String

/-- The type `handlers.InspectorHandler`. -/
structure InspectorHandler where
  storage : Option AzureStorage

/-- What `SubmitReport` leaves: the response, the effects in order, and the storage. -/
structure Submitted where
  response : Response
  effects : List Effect
  storage : Option AzureStorage

/-- The `gin.H` of a failure. -/
def failure (msg : GoString) : H := [("success", Field.bool false), ("error", Field.str msg)]

namespace ReportHandler

/-- The logs of a submission (report.go, lines 80 to 92): a JSON array, or raw text. -/
def parseLogs (env : Env) (logsJSON : GoString) : Option (List LogEntry) :=
  if logsJSON != [] then
    match Unmarshal (decodeSlice LogEntry.zero LogEntry.decode) logsJSON none with
    | Except.error _ =>
      some [{ Timestamp := env.logNow.format, Level := go "info", Message := logsJSON,
              Context := none }]
    | Except.ok logs => logs
  else none

/-- The report of a submission (report.go, lines 43 to 132), or the response that rejects it. -/
def buildReport (env : Env) (form : List (GoString × GoString)) : Except Response BugReport :=
  let title := PostForm form "title"
  let description := PostForm form "description"
  let stepsToReproduce := PostForm form "stepsToReproduce"
  let currentRoute := PostForm form "currentRoute"
  let navigationHistoryJSON := PostForm form "navigationHistory"
  let logsJSON := PostForm form "logs"
  let deviceInfoJSON := PostForm form "deviceInfo"
  let userInfoJSON := PostForm form "userInfo"
  let timestampStr := PostForm form "timestamp"
  let traceID := PostForm form "traceId"
  if title = [] ∨ description = [] ∨ currentRoute = [] then
    Except.error (Response.JSON 400
      (failure "Missing required fields: title, description, currentRoute"))
  else
    let timestamp := match Time.parse timestampStr with
      | some t => t
      | none => env.now
    match Unmarshal (decodeSlice [] decodeString) navigationHistoryJSON none with
    | Except.error _ => Except.error (Response.JSON 400 (failure "Invalid navigationHistory JSON"))
    | Except.ok navigationHistory =>
      let logs := parseLogs env logsJSON
      match Unmarshal DeviceInfo.decode deviceInfoJSON DeviceInfo.zero with
      | Except.error _ => Except.error (Response.JSON 400 (failure "Invalid deviceInfo JSON"))
      | Except.ok deviceInfo =>
        let userInfo : Except String (Option UserInfo) :=
          if userInfoJSON != [] then Unmarshal (decodePtr UserInfo.zero UserInfo.decode) userInfoJSON none
          else Except.ok none
        match userInfo with
        | Except.error _ => Except.error (Response.JSON 400 (failure "Invalid userInfo JSON"))
        | Except.ok userInfo =>
          Except.ok {
            ID := go ("br_" ++ env.uuid)
            Title := title
            Description := description
            StepsToReproduce := stepsToReproduce
            CurrentRoute := currentRoute
            NavigationHistory := navigationHistory
            Logs := logs
            DeviceInfo := deviceInfo
            UserInfo := userInfo
            Timestamp := timestamp
            TraceID := traceID
            ScreenshotURL := [] }

/-- The method `forwardToLogWard`: the request it sends, when a key is configured. -/
def forwardToLogWard (h : ReportHandler) (report : BugReport) : List Effect :=
  if h.logwardAPIKey = "" then []
  else
    [Effect.post "https://logging.scenextras.com/api/v1/ingest" ("Bearer " ++ h.logwardAPIKey)
      { Time := report.Timestamp.format
        Service := go "bug-report-api"
        Level := go "info"
        Message := go "Bug report submitted: " ++ report.Title
        Channel := go "bug-report"
        Context := [(go "report_id", Json.str report.ID), (go "title", Json.str report.Title),
          (go "current_route", Json.str report.CurrentRoute),
          (go "platform", Json.str report.DeviceInfo.Platform),
          (go "app_version", Json.str report.DeviceInfo.AppVersion),
          (go "has_screenshot", Json.bool (report.ScreenshotURL != [])),
          (go "navigation_history", sliceJson Json.str report.NavigationHistory)]
        TraceID := report.TraceID }]

/-- The screenshot of a submission (report.go, lines 134 to 150): the report, with its
`ScreenshotURL` when the upload succeeds, the effects and the storage afterwards. -/
def uploadScreenshot (storage : Option AzureStorage) (req : Request) (report : BugReport) :
    BugReport × List Effect × Option AzureStorage :=
  match req.screenshot with
  | some (some screenshotData) =>
    match storage with
    | some s =>
      match s.SaveScreenshot report.ID screenshotData with
      | (Except.error e, s1) =>
        (report, [Effect.SaveScreenshot report.ID screenshotData,
          Effect.print ("Warning: failed to upload screenshot: " ++ e)], some s1)
      | (Except.ok screenshotURL, s1) =>
        ({ report with ScreenshotURL := screenshotURL },
          [Effect.SaveScreenshot report.ID screenshotData], some s1)
    | none => (report, [], none)
  | _ => (report, [], storage)

/-- The method `SubmitReport`, POST /api/reports. -/
def SubmitReport (h : ReportHandler) (env : Env) (req : Request) : Submitted :=
  match req.form with
  | none => ⟨Response.JSON 400 (failure "Failed to parse multipart form"), [], h.storage⟩
  | some form =>
    match buildReport env form with
    | Except.error rejection => ⟨rejection, [], h.storage⟩
    | Except.ok built =>
      match uploadScreenshot h.storage req built with
      | (report, effects, some s) =>
        match s.SaveReport report with
        | (some _, s1) =>
          ⟨Response.JSON 500 (failure "Failed to save report"),
            effects ++ [Effect.SaveReport report], some s1⟩
        | (none, s1) =>
          ⟨Response.JSON 200 [("success", Field.bool true), ("reportId", Field.str report.ID)],
            effects ++ (Effect.SaveReport report :: Effect.forwardToLogWard report ::
              forwardToLogWard h report), some s1⟩
      | (report, effects, none) =>
        ⟨Response.JSON 200 [("success", Field.bool true), ("reportId", Field.str report.ID)],
          effects ++ (Effect.printReport "Bug report received (no storage): " report ::
            Effect.forwardToLogWard report :: forwardToLogWard h report), none⟩

/-- The method `GetReport`, GET /api/reports/:id. -/
def GetReport (h : ReportHandler) (reportID : GoString) : Outcome :=
  match h.storage with
  | none => Outcome.panic "invalid memory address or nil pointer dereference"
  | some s =>
    match s.GetReport reportID with
    | Except.error _ => Outcome.response (Response.JSON 404 (failure "Report not found"))
    | Except.ok report => Outcome.response (Response.JSONReport 200 report)

/-- The method `ListReports`, GET /api/reports. -/
def ListReports (h : ReportHandler) (mapRange : List GoString → List GoString) : Outcome :=
  match h.storage with
  | none => Outcome.panic "invalid memory address or nil pointer dereference"
  | some s =>
    match s.ListReports mapRange with
    | Except.error _ => Outcome.response (Response.JSON 500 (failure "Failed to list reports"))
    | Except.ok reports =>
      Outcome.response (Response.JSON 200 [("success", Field.bool true),
        ("reports", Field.reports reports), ("count", Field.int reports.length)])

end ReportHandler

/-- Insertion of an element before the first one that is not less than it. -/
def insertBy {α : Type} (less : α → α → Bool) (a : α) : List α → List α
  | [] => [a]
  | b :: bs => if less b a then b :: insertBy less a bs else a :: b :: bs

/-- The function `sort.Slice`, as an insertion sort by `less` (the library sorts in place by
some comparison sort; the order of elements neither of which is less is its choice). -/
def sortSlice {α : Type} (less : α → α → Bool) : List α → List α
  | [] => []
  | a :: as => insertBy less a (sortSlice less as)

namespace InspectorHandler

/-- The method `Index`, GET /. -/
def Index (h : InspectorHandler) (mapRange : List GoString → List GoString) : Outcome :=
  match h.storage with
  | none => Outcome.panic "invalid memory address or nil pointer dereference"
  | some s =>
    match s.ListReports mapRange with
    | Except.error _ =>
      Outcome.response (Response.HTML 500 "error.html" [("error", Field.str "Failed to load reports")])
    | Except.ok reports =>
      let sorted := sortSlice (fun a b => a.Timestamp.After b.Timestamp) reports
      Outcome.response (Response.HTML 200 "index.html"
        [("reports", Field.reports sorted), ("count", Field.int sorted.length)])

/-- The method `Detail`, GET /reports/:id. -/
def Detail (h : InspectorHandler) (reportID : GoString) : Outcome :=
  match h.storage with
  | none => Outcome.panic "invalid memory address or nil pointer dereference"
  | some s =>
    match s.GetReport reportID with
    | Except.error _ =>
      Outcome.response (Response.HTML 404 "error.html" [("error", Field.str "Report not found")])
    | Except.ok report =>
      Outcome.response (Response.HTML 200 "detail.html" [("report", Field.report report)])

end InspectorHandler

/-! ## Vocabulary of the properties, and sample data -/

/-- Whether an effect is a call of `forwardToLogWard` or the request it sends. -/
def Effect.isForward : Effect → Bool
  | Effect.forwardToLogWard _ => true
  | Effect.post _ _ _ => true
  | _ => false

/-- Whether an effect is a store operation. -/
def Effect.isStoreOp : Effect → Bool
  | Effect.SaveScreenshot _ _ => true
  | Effect.SaveReport _ => true
  | _ => false

/-- The required fields of a form, all of them non-empty. -/
def requiredPresent (form : List (GoString × GoString)) : Prop :=
  PostForm form "title" ≠ [] ∧ PostForm form "description" ≠ [] ∧ PostForm form "currentRoute" ≠ []

instance (form : List (GoString × GoString)) : Decidable (requiredPresent form) := by
  unfold requiredPresent; infer_instance

/-- A container without blobs in which every call succeeds. -/
def sampleStorage : AzureStorage :=
  ⟨⟨"https://acct.blob.core.windows.net/", [], fun _ => none, fun _ => none, none⟩, "bug-reports"⟩

/-- A handler over the sample container, with a logging key. -/
def sampleHandler : ReportHandler := ⟨some sampleStorage, "key"⟩

/-- Readings of the clock and the token generator. -/
def sampleEnv : Env := ⟨Time.zero, Time.zero, "0b5c"⟩

/-- A submission whose title is empty. -/
def untitledRequest : Request :=
  ⟨some [("title", ""), ("description", "D"), ("currentRoute", "/r"),
    ("navigationHistory", "[]"), ("deviceInfo", "null")], some (some "PNG")⟩

/-- A container in which every upload fails. -/
def brokenStorage : AzureStorage :=
  ⟨⟨"https://acct.blob.core.windows.net/", [], fun _ => some "503 ServerBusy", fun _ => none, none⟩,
    "bug-reports"⟩

/-- A handler over the failing container, with a logging key. -/
def brokenHandler : ReportHandler := ⟨some brokenStorage, "key"⟩

/-- The form of a complete submission whose logs are raw text. -/
def sampleForm : List (GoString × GoString) :=
  [("title", "Crash"), ("description", "D"), ("currentRoute", "/r"),
    ("navigationHistory", "[\"/a\",\"/r\"]"), ("logs", "this is not json"),
    ("deviceInfo", "\x7b\"platform\":\"iOS\",\"appVersion\":\"1.0\"\x7d"),
    ("timestamp", "2024-01-20T10:00:00Z")]

/-- A complete submission with a screenshot. -/
def sampleRequest : Request := ⟨some sampleForm, some (some "PNG")⟩

/-- The report `buildReport` makes of the complete submission. -/
def sampleBuilt : BugReport :=
  { ID := "br_0b5c"
    Title := "Crash"
    Description := "D"
    StepsToReproduce := ""
    CurrentRoute := "/r"
    NavigationHistory := some ["/a", "/r"]
    Logs := some [⟨"info", "this is not json", "0001-01-01T00:00:00Z", none⟩]
    DeviceInfo := ⟨"iOS", "", "", "1.0", "", "", ""⟩
    UserInfo := none
    Timestamp := ⟨2024, 1, 20, 10, 0, 0, 0, 0, by decide⟩
    TraceID := ""
    ScreenshotURL := "" }

/-- An inspector over the sample container. -/
def sampleInspector : InspectorHandler := ⟨some sampleStorage⟩

/-- Stored metadata of a report, as far as a listing needs it. -/
def metadataOf (id timestamp : String) : Blob :=
  ⟨go ("\x7b\"id\": \"" ++ id ++ "\", \"timestamp\": \"" ++ timestamp ++ "\"\x7d"),
    "application/json"⟩

/-- A container with two reports, the older one enumerated first. -/
def twoReports : AzureStorage :=
  ⟨⟨"https://acct.blob.core.windows.net/",
    [("br_a/metadata.json", metadataOf "br_a" "2024-01-01T00:00:00Z"),
     ("br_a/logs.json", ⟨"null", "application/json"⟩),
     ("br_b/metadata.json", metadataOf "br_b" "2024-01-02T00:00:00Z"),
     ("br_b/logs.json", ⟨"null", "application/json"⟩)],
    fun _ => none, fun _ => none, none⟩, "bug-reports"⟩

/-- The report decoded from `metadataOf`. -/
def listed (id : String) (day : Nat) (h : Time.Valid 2024 1 day 0 0 0 0) : BugReport :=
  { BugReport.zero with ID := go id, Timestamp := ⟨2024, 1, day, 0, 0, 0, 0, 0, h⟩ }

/-- A container with three reports, the metadata of the second one corrupted. -/
def threeReports : AzureStorage :=
  ⟨⟨"https://acct.blob.core.windows.net/",
    [("br_a/metadata.json", metadataOf "br_a" "2024-01-01T00:00:00Z"),
     ("br_b/metadata.json", ⟨"\x7b\"id\": \"br_b\", \"timest", "application/json"⟩),
     ("br_b/screenshot.png", ⟨"PNG", "image/png"⟩),
     ("br_c/metadata.json", metadataOf "br_c" "2024-01-03T00:00:00Z")],
    fun _ => none, fun _ => none, none⟩, "bug-reports"⟩

/-- A form without the values of one key. -/
def dropField (key : GoString) (form : List (GoString × GoString)) : List (GoString × GoString) :=
  form.filter (fun e => e.1 != key)

/-- The log entry that stands for raw log text. -/
def rawEntry (env : Env) (raw : GoString) : LogEntry :=
  { Level := go "info", Message := raw, Timestamp := env.logNow.format, Context := none }

/-- The form of a complete submission whose logs are an array of two entries. -/
def arrayForm : List (GoString × GoString) :=
  [("title", "Crash"), ("description", "D"), ("currentRoute", "/r"),
    ("navigationHistory", "[\"/a\",\"/r\"]"),
    ("logs", go ("[\x7b\"level\":\"error\",\"message\":\"boom\",\"timestamp\":\"t1\"," ++
      "\"context\":\x7b\"code\":500\x7d\x7d, \x7b\"level\":\"warn\",\"message\":\"slow\"," ++
      "\"timestamp\":\"t2\"\x7d]")),
    ("deviceInfo", "\x7b\"platform\":\"iOS\",\"appVersion\":\"1.0\"\x7d"),
    ("timestamp", "2024-01-20T10:00:00Z")]

/-- The form of a complete submission whose logs are a JSON object. -/
def objectLogsForm : List (GoString × GoString) :=
  [("title", "Crash"), ("description", "D"), ("currentRoute", "/r"),
    ("navigationHistory", "[]"), ("logs", "\x7b\"level\":\"error\"\x7d"),
    ("deviceInfo", "null")]

/-- The documents of the array in `arrayForm`. -/
def arrayDocs : List Json :=
  [Json.obj [("level", Json.str "error"), ("message", Json.str "boom"),
      ("timestamp", Json.str "t1"), ("context", Json.obj [("code", Json.num 500 0)])],
    Json.obj [("level", Json.str "warn"), ("message", Json.str "slow"),
      ("timestamp", Json.str "t2")]]

/-- The log entries of the array in `arrayForm`. -/
def arrayEntries : List LogEntry :=
  [⟨"error", "boom", "t1", some [("code", Json.num 500 0)]⟩, ⟨"warn", "slow", "t2", none⟩]

/-- Whether the input cannot continue a number literal: it is empty, or starts with a character
that is neither a digit nor `.`, `e` or `E`. -/
def numEnd : List Char → Bool
  | [] => true
  | c :: _ => !(isDigit c || c = '.' || c = 'e' || c = 'E')

/-- A log entry after `json.Marshal` and `json.Unmarshal` of its strings: each invalid byte has
become U+FFFD. -/
def LogEntry.readBack (l : LogEntry) : LogEntry :=
  { Level := GoString.readBack l.Level, Message := GoString.readBack l.Message,
    Timestamp := GoString.readBack l.Timestamp, Context := l.Context.map Json.readBackMembers }

/-- A log entry as it reads back from storage: an empty context map is written under
`omitempty` like a nil one, and reads back nil. -/
def LogEntry.stored (l : LogEntry) : LogEntry :=
  match l.Context with
  | some [] => { l with Context := none }
  | _ => l

/-- A `DeviceInfo` after `json.Marshal` and `json.Unmarshal` of its strings. -/
def DeviceInfo.readBack (d : DeviceInfo) : DeviceInfo :=
  ⟨GoString.readBack d.Platform, GoString.readBack d.OS, GoString.readBack d.OSVersion,
    GoString.readBack d.AppVersion, GoString.readBack d.BuildNumber,
    GoString.readBack d.DeviceModel, GoString.readBack d.Manufacturer⟩

/-- A `UserInfo` after `json.Marshal` and `json.Unmarshal` of its strings. -/
def UserInfo.readBack (u : UserInfo) : UserInfo :=
  ⟨GoString.readBack u.UserID, GoString.readBack u.Username, GoString.readBack u.Email⟩

/-- A report after `json.Marshal` and `json.Unmarshal` of its strings. -/
def BugReport.readBack (r : BugReport) : BugReport :=
  { ID := GoString.readBack r.ID
    Title := GoString.readBack r.Title
    Description := GoString.readBack r.Description
    StepsToReproduce := GoString.readBack r.StepsToReproduce
    CurrentRoute := GoString.readBack r.CurrentRoute
    NavigationHistory := r.NavigationHistory.map (fun xs => xs.map GoString.readBack)
    Logs := r.Logs.map (fun ls => ls.map LogEntry.readBack)
    DeviceInfo := r.DeviceInfo.readBack
    UserInfo := r.UserInfo.map UserInfo.readBack
    Timestamp := r.Timestamp
    TraceID := GoString.readBack r.TraceID
    ScreenshotURL := GoString.readBack r.ScreenshotURL }

/-- A report as it reads back from storage, its strings apart: the empty context maps of its
log entries have become nil, and the zone of its timestamp has lost the seconds of its offset. -/
def BugReport.stored (r : BugReport) : BugReport :=
  { r with Logs := r.Logs.map (fun ls => ls.map LogEntry.stored),
           Timestamp := r.Timestamp.readBack }

/-- Whether the strings of a log entry, those of its context among them, are valid UTF-8. -/
def LogEntry.valid (l : LogEntry) : Bool :=
  GoString.valid l.Level && GoString.valid l.Message && GoString.valid l.Timestamp &&
    Json.validMembers (l.Context.getD [])

/-- Whether the strings of a `DeviceInfo` are valid UTF-8. -/
def DeviceInfo.valid (d : DeviceInfo) : Bool :=
  GoString.valid d.Platform && GoString.valid d.OS && GoString.valid d.OSVersion &&
    GoString.valid d.AppVersion && GoString.valid d.BuildNumber &&
    GoString.valid d.DeviceModel && GoString.valid d.Manufacturer

/-- Whether the strings of a `UserInfo` are valid UTF-8. -/
def UserInfo.valid (u : UserInfo) : Bool :=
  GoString.valid u.UserID && GoString.valid u.Username && GoString.valid u.Email

/-- Whether every string of a report is valid UTF-8. -/
def BugReport.valid (r : BugReport) : Bool :=
  GoString.valid r.ID && GoString.valid r.Title && GoString.valid r.Description &&
    GoString.valid r.StepsToReproduce && GoString.valid r.CurrentRoute &&
    (r.NavigationHistory.getD []).all GoString.valid && (r.Logs.getD []).all LogEntry.valid &&
    r.DeviceInfo.valid && (match r.UserInfo with | some u => u.valid | none => true) &&
    GoString.valid r.TraceID && GoString.valid r.ScreenshotURL

/-- A report with every field populated. -/
def fullReport : BugReport :=
  { ID := "br_test123"
    Title := "Test Bug"
    Description := "Test <description>"
    StepsToReproduce := "1. open\n2. tap"
    CurrentRoute := "/test"
    NavigationHistory := some ["/home", "/test"]
    Logs := some [⟨"error", "Test error", "2024-01-20T10:00:00Z",
      some [("code", Json.num 500 0), ("tags", Json.arr [Json.str "a", Json.null])]⟩]
    DeviceInfo := ⟨"iOS", "iOS", "17.2", "1.0.0", "42", "iPhone", ""⟩
    UserInfo := some ⟨"u1", "", "u@example.com"⟩
    Timestamp := ⟨2024, 1, 20, 10, 0, 0, 120000000, -19800, by decide⟩
    TraceID := "trace123"
    ScreenshotURL := "https://acct.blob.core.windows.net/bug-reports/br_test123/screenshot.png" }

/-- Whether the userInfo field of a form is empty or decodes as a `UserInfo`. -/
def userInfoAccepted (form : List (GoString × GoString)) : Prop :=
  PostForm form "userInfo" = [] ∨
    ∃ u, Unmarshal (decodePtr UserInfo.zero UserInfo.decode) (PostForm form "userInfo") none =
      Except.ok u

/-- The timestamp of a submission (report.go, lines 65 to 68): the client's if `time.Parse`
takes it, else the reading of the clock. -/
def timestampOf (env : Env) (form : List (GoString × GoString)) : Time :=
  match Time.parse (PostForm form "timestamp") with
  | some t => t
  | none => env.now

/-- The form of a submission that is complete but for a userInfo that is not JSON. -/
def badUserForm : List (GoString × GoString) :=
  [("title", "Crash"), ("description", "D"), ("currentRoute", "/r"),
    ("navigationHistory", "[]"), ("deviceInfo", "\x7b\"platform\":\"iOS\"\x7d"),
    ("userInfo", "anonymous")]

/-- A container in which every upload succeeds and every download fails. -/
def unreadableStorage : AzureStorage :=
  ⟨⟨"https://acct.blob.core.windows.net/", [], fun _ => none, fun _ => some "timeout", none⟩,
    "bug-reports"⟩

/-- The report an effect carries, if any. -/
def Effect.report? : Effect → Option BugReport
  | Effect.SaveReport r => some r
  | Effect.forwardToLogWard r => some r
  | Effect.printReport _ r => some r
  | _ => none

/-- A handler without storage, as `main` constructs it when no connection string is set. -/
def unconfiguredHandler : ReportHandler := ⟨none, "key"⟩

/-- The full report with a timestamp in a zone 24 hours east, as `time.Parse` yields it from
`2024-01-20T10:00:00+24:00`. -/
def zoneReport : BugReport :=
  { fullReport with Timestamp := ⟨2024, 1, 20, 10, 0, 0, 0, 86400, by decide⟩ }

/-- The full report with a title that ends in the byte 0xE9, which is not UTF-8. -/
def latin1Report : BugReport :=
  { fullReport with Title := go "Caf" ++ [GoChar.byte 233] }

/-- The full report with a timestamp in a zone 19 minutes and 32 seconds east. -/
def secondsZoneReport : BugReport :=
  { fullReport with Timestamp := ⟨2024, 1, 20, 10, 0, 0, 0, 1172, by decide⟩ }

/-- The full report with an infinite float in the context of its log entry. -/
def infiniteReport : BugReport :=
  { fullReport with Logs := some [⟨"error", "Test error", "2024-01-20T10:00:00Z",
      some [("x", Json.num 1 400)]⟩] }

/-- The complete submission with a timestamp in a zone 24 hours east. -/
def zoneForm : List (GoString × GoString) :=
  [("title", "Crash"), ("description", "D"), ("currentRoute", "/r"),
    ("navigationHistory", "[\"/a\",\"/r\"]"), ("logs", "this is not json"),
    ("deviceInfo", "\x7b\"platform\":\"iOS\",\"appVersion\":\"1.0\"\x7d"),
    ("timestamp", "2024-01-20T10:00:00+24:00")]

/-- The complete submission with a title that ends in the byte 0xE9, which is not UTF-8. -/
def latin1Form : List (GoString × GoString) :=
  [("title", go "Caf" ++ [GoChar.byte 233]), ("description", "D"), ("currentRoute", "/r"),
    ("navigationHistory", "[\"/a\",\"/r\"]"), ("logs", "this is not json"),
    ("deviceInfo", "\x7b\"platform\":\"iOS\",\"appVersion\":\"1.0\"\x7d"),
    ("timestamp", "2024-01-20T10:00:00Z")]

/-- The form of a complete submission whose logs are an array with a number beyond the range of
`float64` in a context. -/
def hugeNumberForm : List (GoString × GoString) :=
  [("title", "Crash"), ("description", "D"), ("currentRoute", "/r"),
    ("navigationHistory", "[]"),
    ("logs", go ("[\x7b\"level\":\"error\",\"message\":\"boom\",\"timestamp\":\"t1\"," ++
      "\"context\":\x7b\"x\":1e400\x7d\x7d]")),
    ("deviceInfo", "null")]

/-- Arrays nested `n` deep around `null`. -/
def nest : Nat → Json
  | 0 => Json.null
  | n + 1 => Json.arr [nest n]

/-- The full report with one more value in the context of its log entry. -/
def reportWith (v : Json) : BugReport :=
  { fullReport with Logs := some [⟨"error", "Test error", "2024-01-20T10:00:00Z",
      some [("k", v)]⟩] }

/-- The full report with a context value nested 9997 deep, so that its document nests 10001
deep. -/
def deepReport : BugReport := reportWith (nest 9997)

/-! # Properties -/

theorem buildReport_missing (env : Env) (form : List (GoString × GoString))
    (h : ¬ requiredPresent form) :
    ReportHandler.buildReport env form = Except.error (Response.JSON 400
      (failure "Missing required fields: title, description, currentRoute")) := by
  have h2 : PostForm form "title" = [] ∨ PostForm form "description" = [] ∨
      PostForm form "currentRoute" = [] := by
    unfold requiredPresent at h
    by_contra hc
    push_neg at hc
    exact h hc
  unfold ReportHandler.buildReport
  simp only [h2, if_true]

/-- C1: a submission in which title, description or currentRoute is empty or missing (also when
the multipart form does not parse at all) is answered 400 with `success: false`, and the handler
performs nothing else: no effect, and the storage is the one it had, configured or not. -/
theorem submit_missing_required_rejected (h : ReportHandler) (env : Env) (req : Request)
    (hmiss : ∀ form, req.form = some form → ¬ requiredPresent form) :
    ∃ msg, ReportHandler.SubmitReport h env req =
      ⟨Response.JSON 400 [("success", Field.bool false), ("error", Field.str msg)], [],
        h.storage⟩ := by
  unfold ReportHandler.SubmitReport
  cases hf : req.form with
  | none => exact ⟨_, rfl⟩
  | some form =>
    simp only [buildReport_missing env form (hmiss form hf)]
    exact ⟨_, rfl⟩

theorem submit_missing_required_rejected_witness :
    (∀ form, untitledRequest.form = some form → ¬ requiredPresent form) ∧
    ∃ msg, ReportHandler.SubmitReport sampleHandler sampleEnv untitledRequest =
      ⟨Response.JSON 400 [("success", Field.bool false), ("error", Field.str msg)], [],
        sampleHandler.storage⟩ :=
  have hm : ∀ form, untitledRequest.form = some form → ¬ requiredPresent form := by
    intro form hf
    have : form = ([("title", ""), ("description", "D"), ("currentRoute", "/r"),
        ("navigationHistory", "[]"), ("deviceInfo", "null")] : List (GoString × GoString)) := by
      simpa [untitledRequest] using hf.symm
    subst this
    decide
  ⟨hm, submit_missing_required_rejected sampleHandler sampleEnv untitledRequest hm⟩

theorem uploadScreenshot_no_forward (storage : Option AzureStorage) (req : Request)
    (built : BugReport) :
    ∀ x ∈ (ReportHandler.uploadScreenshot storage req built).2.1, x.isForward = false := by
  unfold ReportHandler.uploadScreenshot
  rcases req.screenshot with _ | _ | data
  · simp
  · simp
  · cases storage with
    | none => simp
    | some s =>
      simp only
      rcases hs : s.SaveScreenshot built.ID data with ⟨_ | url, s1⟩ <;>
        simp [Effect.isForward]

/-- C9: when a store is configured, the submission passes validation (`buildReport` gives a
report) and `SaveReport` returns an error for the report as it stands after the screenshot step,
the response is 500 with `success: false` and an error text, no `reportId` entry, and neither
`forwardToLogWard` is called nor its request sent. -/
theorem submit_save_failure_is_fatal (h : ReportHandler) (env : Env) (req : Request)
    (form : List (GoString × GoString)) (built report : BugReport) (effects : List Effect)
    (s s1 s2 : AzureStorage) (e : String)
    (hstore : h.storage = some s) (hform : req.form = some form)
    (hbuilt : ReportHandler.buildReport env form = Except.ok built)
    (hshot : ReportHandler.uploadScreenshot (some s) req built = (report, effects, some s1))
    (hsave : s1.SaveReport report = (some e, s2)) :
    (ReportHandler.SubmitReport h env req).response =
        Response.JSON 500 [("success", Field.bool false), ("error", Field.str "Failed to save report")] ∧
      (∀ v, ("reportId", v) ∉ (ReportHandler.SubmitReport h env req).response.obj) ∧
      ∀ x ∈ (ReportHandler.SubmitReport h env req).effects, x.isForward = false := by
  have hfx := uploadScreenshot_no_forward (some s) req built
  rw [hshot] at hfx
  have hrun : ReportHandler.SubmitReport h env req =
      ⟨Response.JSON 500 (failure "Failed to save report"),
        effects ++ [Effect.SaveReport report], some s2⟩ := by
    unfold ReportHandler.SubmitReport
    simp only [hform, hbuilt, hstore, hshot, hsave]
  rw [hrun]
  refine ⟨rfl, ?_, ?_⟩
  · intro v hv
    simp [Response.obj, failure] at hv
  · intro x hx
    simp only [List.mem_append, List.mem_singleton] at hx
    rcases hx with hx | hx
    · exact hfx x hx
    · subst hx; rfl

theorem submit_save_failure_is_fatal_witness :
    (ReportHandler.SubmitReport brokenHandler sampleEnv sampleRequest).response =
        Response.JSON 500 [("success", Field.bool false), ("error", Field.str "Failed to save report")] ∧
      (∀ v, ("reportId", v) ∉
        (ReportHandler.SubmitReport brokenHandler sampleEnv sampleRequest).response.obj) ∧
      ∀ x ∈ (ReportHandler.SubmitReport brokenHandler sampleEnv sampleRequest).effects,
        x.isForward = false :=
  submit_save_failure_is_fatal brokenHandler sampleEnv sampleRequest sampleForm sampleBuilt
    sampleBuilt [Effect.SaveScreenshot "br_0b5c" "PNG",
      Effect.print "Warning: failed to upload screenshot: failed to upload screenshot: 503 ServerBusy"]
    brokenStorage brokenStorage brokenStorage "failed to upload metadata: 503 ServerBusy"
    rfl rfl rfl rfl rfl

theorem getReport_absent (s : AzureStorage) (reportID : GoString)
    (habsent : s.client.blobs.lookup (reportID ++ go "/metadata.json") = none) :
    ∃ e, s.GetReport reportID = Except.error e := by
  unfold AzureStorage.GetReport AzureStorage.downloadBlob
  cases hd : s.client.downloadErr (reportID ++ go "/metadata.json") with
  | some e => simp only [hd]; exact ⟨_, rfl⟩
  | none => simp only [hd, habsent]; exact ⟨_, rfl⟩

/-- C10: for a report id without a blob `<id>/metadata.json` in the store, the JSON detail
endpoint answers 404 with `success: false` and the HTML detail endpoint renders `error.html`
with status 404; neither carries a report. -/
theorem detail_of_absent_report_is_404 (s : AzureStorage) (key : String) (reportID : GoString)
    (habsent : s.client.blobs.lookup (reportID ++ go "/metadata.json") = none) :
    ReportHandler.GetReport ⟨some s, key⟩ reportID =
        Outcome.response (Response.JSON 404
          [("success", Field.bool false), ("error", Field.str "Report not found")]) ∧
      InspectorHandler.Detail ⟨some s⟩ reportID =
        Outcome.response (Response.HTML 404 "error.html"
          [("error", Field.str "Report not found")]) := by
  obtain ⟨e, he⟩ := getReport_absent s reportID habsent
  constructor
  · simp only [ReportHandler.GetReport, he]; rfl
  · simp only [InspectorHandler.Detail, he]

theorem detail_of_absent_report_is_404_witness :
    ReportHandler.GetReport ⟨some sampleStorage, "key"⟩ "br_missing" =
        Outcome.response (Response.JSON 404
          [("success", Field.bool false), ("error", Field.str "Report not found")]) ∧
      InspectorHandler.Detail ⟨some sampleStorage⟩ "br_missing" =
        Outcome.response (Response.HTML 404 "error.html"
          [("error", Field.str "Report not found")]) :=
  detail_of_absent_report_is_404 sampleStorage "key" "br_missing" rfl

theorem insertBy_perm {α : Type} (less : α → α → Bool) (a : α) (l : List α) :
    (insertBy less a l).Perm (a :: l) := by
  induction l with
  | nil => exact List.Perm.refl _
  | cons b bs ih =>
    unfold insertBy
    by_cases hb : less b a = true
    · simp only [hb, if_true]
      exact (List.Perm.cons b ih).trans (List.Perm.swap a b bs)
    · simp only [hb]
      exact List.Perm.refl _

theorem sortSlice_perm {α : Type} (less : α → α → Bool) (l : List α) :
    (sortSlice less l).Perm l := by
  induction l with
  | nil => exact List.Perm.refl _
  | cons a as ih =>
    unfold sortSlice
    exact (insertBy_perm less a _).trans (List.Perm.cons a ih)

theorem insertBy_pairwise {α : Type} (less : α → α → Bool)
    (asym : ∀ a b, less a b = true → less b a = false)
    (ntrans : ∀ a b c, less b a = false → less c b = false → less c a = false)
    (a : α) (l : List α) (hl : l.Pairwise (fun x y => less y x = false)) :
    (insertBy less a l).Pairwise (fun x y => less y x = false) := by
  induction l with
  | nil => simp [insertBy]
  | cons b bs ih =>
    rw [List.pairwise_cons] at hl
    unfold insertBy
    by_cases hb : less b a = true
    · simp only [hb, if_true]
      rw [List.pairwise_cons]
      refine ⟨?_, ih hl.2⟩
      intro y hy
      rcases (List.Perm.mem_iff (insertBy_perm less a bs)).mp hy with hy2 | hy2
      · exact asym b a hb
      · exact hl.1 y (by assumption)
    · have hb2 : less b a = false := by simpa using hb
      simp only [hb2, Bool.false_eq_true, if_false]
      rw [List.pairwise_cons]
      refine ⟨?_, List.pairwise_cons.mpr hl⟩
      intro y hy
      rcases List.mem_cons.mp hy with hy2 | hy2
      · subst hy2; exact hb2
      · exact ntrans a b y hb2 (hl.1 y hy2)

theorem sortSlice_pairwise {α : Type} (less : α → α → Bool)
    (asym : ∀ a b, less a b = true → less b a = false)
    (ntrans : ∀ a b c, less b a = false → less c b = false → less c a = false)
    (l : List α) : (sortSlice less l).Pairwise (fun x y => less y x = false) := by
  induction l with
  | nil => simp [sortSlice]
  | cons a as ih =>
    unfold sortSlice
    exact insertBy_pairwise less asym ntrans a _ ih

theorem sortSlice_newest_first (l : List BugReport) :
    (sortSlice (fun a b => a.Timestamp.After b.Timestamp) l).Pairwise
      (fun x y => y.Timestamp.unixNano ≤ x.Timestamp.unixNano) := by
  have h := sortSlice_pairwise (fun (a b : BugReport) => a.Timestamp.After b.Timestamp)
    (by intro a b hab; simp only [Time.After, decide_eq_true_eq, decide_eq_false_iff_not] at *; omega)
    (by intro a b c h1 h2; simp only [Time.After, decide_eq_false_iff_not] at *; omega) l
  refine h.imp ?_
  intro x y hxy
  simp only [Time.After, decide_eq_false_iff_not] at hxy
  omega

/-- C7: for every list of reports the store returns, the HTML list view renders `index.html`
with a permutation of that list in which no report is earlier than one that follows it (newest
first), and with a count equal to the number of reports the store returned. -/
theorem index_renders_newest_first (s : AzureStorage) (mapRange : List GoString → List GoString)
    (reports : List BugReport) (hlist : s.ListReports mapRange = Except.ok reports) :
    ∃ shown, InspectorHandler.Index ⟨some s⟩ mapRange =
        Outcome.response (Response.HTML 200 "index.html"
          [("reports", Field.reports shown), ("count", Field.int reports.length)]) ∧
      shown.Perm reports ∧
      shown.Pairwise (fun x y => y.Timestamp.unixNano ≤ x.Timestamp.unixNano) := by
  refine ⟨sortSlice (fun a b => a.Timestamp.After b.Timestamp) reports, ?_,
    sortSlice_perm _ reports, sortSlice_newest_first reports⟩
  simp only [InspectorHandler.Index, hlist, (sortSlice_perm _ reports).length_eq]

theorem index_renders_newest_first_witness :
    ∃ shown, InspectorHandler.Index ⟨some twoReports⟩ id =
        Outcome.response (Response.HTML 200 "index.html"
          [("reports", Field.reports shown), ("count", Field.int
            [listed "br_a" 1 (by decide), listed "br_b" 2 (by decide)].length)]) ∧
      shown.Perm [listed "br_a" 1 (by decide), listed "br_b" 2 (by decide)] ∧
      shown.Pairwise (fun x y => y.Timestamp.unixNano ≤ x.Timestamp.unixNano) :=
  index_renders_newest_first twoReports id
    [listed "br_a" 1 (by decide), listed "br_b" 2 (by decide)] rfl

/-- C6 (the code at the failing input): over a container that enumerates an older report before
a newer one, the JSON list endpoint answers 200 with the reports in the order of enumeration,
the older one first, while the HTML view of the same container shows the newer one first. -/
theorem list_endpoint_keeps_enumeration_order :
    ReportHandler.ListReports ⟨some twoReports, ""⟩ id =
        Outcome.response (Response.JSON 200 [("success", Field.bool true),
          ("reports", Field.reports [listed "br_a" 1 (by decide), listed "br_b" 2 (by decide)]),
          ("count", Field.int 2)]) ∧
      (listed "br_a" 1 (by decide)).Timestamp.unixNano <
        (listed "br_b" 2 (by decide)).Timestamp.unixNano ∧
      InspectorHandler.Index ⟨some twoReports⟩ id =
        Outcome.response (Response.HTML 200 "index.html"
          [("reports", Field.reports [listed "br_b" 2 (by decide), listed "br_a" 1 (by decide)]),
           ("count", Field.int 2)]) :=
  ⟨rfl, by decide, rfl⟩

theorem hasSuffix_iff (s suffix : GoString) :
    HasSuffix s suffix = true ↔ ∃ t : GoString, s = t ++ suffix := by
  unfold HasSuffix
  rw [List.isSuffixOf_iff_suffix]
  constructor
  · rintro ⟨t, ht⟩
    exact ⟨t, ht.symm⟩
  · rintro ⟨t, ht⟩
    exact ⟨t, ht.symm⟩

theorem trimSuffix_append (t suffix : GoString) : TrimSuffix (t ++ suffix) suffix = t := by
  have h : HasSuffix (t ++ suffix) suffix = true := (hasSuffix_iff _ _).mpr ⟨t, rfl⟩
  unfold TrimSuffix
  simp only [h, if_true]
  simp

theorem mem_reportIDs (s : AzureStorage) (reportID : GoString) :
    reportID ∈ s.reportIDs ↔
      (reportID ++ go "/metadata.json") ∈ s.client.blobs.map Prod.fst := by
  unfold AzureStorage.reportIDs
  rw [List.mem_dedup, List.mem_filterMap]
  constructor
  · rintro ⟨name, hname, hf⟩
    by_cases hs : HasSuffix name (go "/metadata.json") = true
    · simp only [hs, if_true, Option.some.injEq] at hf
      obtain ⟨t, ht⟩ := (hasSuffix_iff _ _).mp hs
      subst ht
      rw [trimSuffix_append] at hf
      subst hf
      exact hname
    · simp [hs] at hf
  · intro h
    refine ⟨_, h, ?_⟩
    have hs : HasSuffix (reportID ++ go "/metadata.json") (go "/metadata.json") = true :=
      (hasSuffix_iff _ _).mpr ⟨reportID, rfl⟩
    simp only [hs, if_true, trimSuffix_append]

theorem fetchEach_eq_filterMap (s : AzureStorage) (ids : List GoString) :
    s.fetchEach ids = ids.filterMap (fun reportID => (s.GetReport reportID).toOption) := by
  induction ids with
  | nil => rfl
  | cons reportID rest ih =>
    unfold AzureStorage.fetchEach
    cases hg : s.GetReport reportID with
    | error e => simp [List.filterMap_cons, hg, Except.toOption, ih]
    | ok r => simp [List.filterMap_cons, hg, Except.toOption, ih]

/-- C8: when the enumeration of the blobs succeeds, `ListReports` returns no error; the
identifiers it visits are exactly those with a blob named `<id>/metadata.json`, each once; and
what it returns is, up to the order of visiting, one report for each of them whose `GetReport`
succeeds, the others being skipped. -/
theorem listReports_skips_unreadable (s : AzureStorage) (mapRange : List GoString → List GoString)
    (hlist : s.client.listErr = none)
    (hrange : (mapRange s.reportIDs).Perm s.reportIDs) :
    ∃ reports, s.ListReports mapRange = Except.ok reports ∧
      reports.Perm (s.reportIDs.filterMap (fun reportID => (s.GetReport reportID).toOption)) ∧
      s.reportIDs.Nodup ∧
      ∀ reportID, reportID ∈ s.reportIDs ↔
        (reportID ++ go "/metadata.json") ∈ s.client.blobs.map Prod.fst := by
  refine ⟨s.fetchEach (mapRange s.reportIDs), ?_, ?_, ?_, mem_reportIDs s⟩
  · simp only [AzureStorage.ListReports, hlist]
  · rw [fetchEach_eq_filterMap]
    exact hrange.filterMap _
  · exact List.nodup_dedup _

theorem listReports_skips_unreadable_witness :
    threeReports.ListReports List.reverse =
        Except.ok [listed "br_c" 3 (by decide), listed "br_a" 1 (by decide)] ∧
      ∃ reports, threeReports.ListReports List.reverse = Except.ok reports ∧
        reports.Perm (threeReports.reportIDs.filterMap
          (fun reportID => (threeReports.GetReport reportID).toOption)) ∧
        threeReports.reportIDs.Nodup ∧
        ∀ reportID, reportID ∈ threeReports.reportIDs ↔
          (reportID ++ go "/metadata.json") ∈ threeReports.client.blobs.map Prod.fst :=
  ⟨rfl, listReports_skips_unreadable threeReports List.reverse rfl (List.reverse_perm _)⟩

theorem postForm_dropField (form : List (GoString × GoString)) (key other : GoString)
    (h : other ≠ key) : PostForm (dropField key form) other = PostForm form other := by
  unfold PostForm dropField
  congr 1
  induction form with
  | nil => rfl
  | cons e es ih =>
    obtain ⟨k, v⟩ := e
    by_cases hk : k = key
    · subst hk
      have h1 : (other == k) = false := by simpa using h
      simp [List.filter_cons, List.lookup_cons, h1, ih]
    · have h2 : (k != key) = true := by simpa using hk
      simp only [List.filter_cons, h2, if_true, List.lookup_cons]
      cases hok : (other == k) with
      | true => rfl
      | false => exact ih

theorem postForm_dropField_self (form : List (GoString × GoString)) (key : GoString) :
    PostForm (dropField key form) key = [] := by
  unfold PostForm dropField
  have : (form.filter (fun e => e.1 != key)).lookup key = none := by
    induction form with
    | nil => rfl
    | cons e es ih =>
      obtain ⟨k, v⟩ := e
      by_cases hk : k = key
      · subst hk
        simp [List.filter_cons, ih]
      · have h2 : (k != key) = true := by simpa using hk
        have h3 : (key == k) = false := by simpa using fun h => hk h.symm
        simp only [List.filter_cons, h2, if_true, List.lookup_cons, h3, ih]
  rw [this]; rfl

/-- The logs field decides nothing but the `Logs` of the report: the submission fares as it
would without the field. -/
theorem buildReport_logs_independent (env : Env) (form : List (GoString × GoString)) :
    ReportHandler.buildReport env form =
      (ReportHandler.buildReport env (dropField "logs" form)).map
        (fun r => { r with Logs := ReportHandler.parseLogs env (PostForm form "logs") }) := by
  unfold ReportHandler.buildReport
  simp only [postForm_dropField form "logs" "title" (by decide),
    postForm_dropField form "logs" "description" (by decide),
    postForm_dropField form "logs" "stepsToReproduce" (by decide),
    postForm_dropField form "logs" "currentRoute" (by decide),
    postForm_dropField form "logs" "navigationHistory" (by decide),
    postForm_dropField form "logs" "deviceInfo" (by decide),
    postForm_dropField form "logs" "userInfo" (by decide),
    postForm_dropField form "logs" "timestamp" (by decide),
    postForm_dropField form "logs" "traceId" (by decide),
    postForm_dropField_self form "logs"]
  split
  · rfl
  · split
    · rfl
    · split
      · rfl
      · split
        · rfl
        · rfl

theorem decodeElems_length {α : Type} (zero : α) (dec : Decoder α) :
    ∀ (cur : List α) (docs : List Json) (out : List α),
      decodeElems zero dec cur docs = Except.ok out → out.length = docs.length := by
  intro cur docs
  induction docs generalizing cur with
  | nil =>
    intro out h
    cases cur <;> simp [decodeElems] at h <;> subst h <;> rfl
  | cons x xs ih =>
    intro out h
    cases cur with
    | nil =>
      unfold decodeElems at h
      cases hx : dec zero x with
      | error e => simp [hx] at h
      | ok a =>
        cases hr : decodeElems zero dec [] xs with
        | error e => simp [hx, hr] at h
        | ok as =>
          simp only [hx, hr, Except.ok.injEq] at h
          subst h
          simp [ih [] as hr]
    | cons c cs =>
      unfold decodeElems at h
      cases hx : dec c x with
      | error e => simp [hx] at h
      | ok a =>
        cases hr : decodeElems zero dec cs xs with
        | error e => simp [hx, hr] at h
        | ok as =>
          simp only [hx, hr, Except.ok.injEq] at h
          subst h
          simp [ih cs as hr]

theorem decodeElems_get {α : Type} (zero : α) (dec : Decoder α) :
    ∀ (docs : List Json) (out : List α), decodeElems zero dec [] docs = Except.ok out →
      ∀ (i : Nat) (hi : i < docs.length) (ho : i < out.length),
        dec zero (docs.get ⟨i, hi⟩) = Except.ok (out.get ⟨i, ho⟩) := by
  intro docs
  induction docs with
  | nil => intro out _ i hi; simp at hi
  | cons x xs ih =>
    intro out h i hi ho
    unfold decodeElems at h
    cases hx : dec zero x with
    | error e => simp [hx] at h
    | ok a =>
      cases hr : decodeElems zero dec [] xs with
      | error e => simp [hx, hr] at h
      | ok as =>
        simp only [hx, hr, Except.ok.injEq] at h
        subst h
        cases i with
        | zero => simpa using hx
        | succ j =>
          simp only [List.length_cons, Nat.add_lt_add_iff_right] at hi ho
          simpa using ih as hr j hi ho

/-! ## The text layer: the parser reads back what the encoder writes -/

namespace Json

theorem hexVal_hexDigit : ∀ d, d < 16 → hexVal (hexDigit d) = some d := by decide

theorem hex4Val_hex4 (n : Nat) (h : n < 65536) :
    hex4Val (hexDigit (n / 4096 % 16)) (hexDigit (n / 256 % 16)) (hexDigit (n / 16 % 16))
      (hexDigit (n % 16)) = some n := by
  simp only [hex4Val, hexVal_hexDigit _ (Nat.mod_lt _ (by decide : 0 < 16))]
  congr 1
  omega

theorem parseStringBody_escapeChar (c : Char) (tail s r : List Char) (f : Nat)
    (ht : parseStringBody f tail = some (s, r)) :
    parseStringBody (f + 1) (escapeChar c ++ tail) = some (c :: s, r) := by
  unfold escapeChar
  split_ifs with h1 h2 h3 h4 h5 h6
  · subst h1
    simp [parseStringBody, unescape, ht, consChar]
  · subst h2
    simp [parseStringBody, unescape, ht, consChar]
  · subst h3
    simp [parseStringBody, unescape, ht, consChar]
  · subst h4
    simp [parseStringBody, unescape, ht, consChar]
  · subst h5
    simp [parseStringBody, unescape, ht, consChar]
  · have hn : c.toNat < 65536 ∧ ¬ (55296 ≤ c.toNat ∧ c.toNat < 56320) ∧
        ¬ (56320 ≤ c.toNat ∧ c.toNat < 57344) := by
      rcases h6 with h | h | h | h | h | h
      · omega
      · subst h; decide
      · subst h; decide
      · subst h; decide
      · omega
      · omega
    simp only [hex4, List.cons_append, List.nil_append]
    simp only [parseStringBody, show ¬ ('\\' = '"') by decide, if_false, if_true,
      hex4Val_hex4 _ hn.1, if_neg hn.2.1, if_neg hn.2.2, ht, consChar, Char.ofNat_toNat]
  · have h7 : ¬ c.toNat < 32 := fun h => h6 (Or.inl h)
    simp only [List.cons_append, List.nil_append]
    simp only [parseStringBody, h1, h2, h7, if_false, ht, consChar]

theorem parseStringBody_escapeGo (g : GoChar) (tail s r : List Char) (f : Nat)
    (ht : parseStringBody f tail = some (s, r)) :
    parseStringBody (f + 1) (escapeGo g ++ tail) = some (g.decoded :: s, r) := by
  cases g with
  | rune c => exact parseStringBody_escapeChar c tail s r f ht
  | byte b =>
    have hv : hex4Val 'f' 'f' 'f' 'd' = some 65533 := by decide
    simp only [escapeGo, List.cons_append, List.nil_append]
    simp only [parseStringBody, show ¬ ('\\' = '"') by decide, if_false, if_true, hv,
      show ¬ (55296 ≤ 65533 ∧ 65533 < 56320) by decide,
      show ¬ (56320 ≤ 65533 ∧ 65533 < 57344) by decide, ht, consChar, GoChar.decoded,
      replacementChar]

theorem parseStringBody_escaped (s : GoString) (rest : List Char) :
    ∀ fuel, s.length + 1 ≤ fuel →
      parseStringBody fuel (s.flatMap escapeGo ++ '"' :: rest) = some (GoString.text s, rest) := by
  induction s with
  | nil =>
    intro fuel hf
    obtain ⟨f, rfl⟩ : ∃ f, fuel = f + 1 := ⟨fuel - 1, by simp at hf; omega⟩
    simp [parseStringBody, GoString.text]
  | cons c cs ih =>
    intro fuel hf
    obtain ⟨f, rfl⟩ : ∃ f, fuel = f + 1 := ⟨fuel - 1, by simp at hf; omega⟩
    have hf2 : cs.length + 1 ≤ f := by simp at hf; omega
    simp only [List.flatMap_cons, List.append_assoc]
    exact parseStringBody_escapeGo c _ (GoString.text cs) rest f (ih f hf2)

end Json

theorem digitChar_spec : ∀ d, d < 10 →
    isDigit (digitChar d) = true ∧ (digitChar d).toNat - 48 = d := by decide

theorem spanDigits_append (ds rest : List Char) (hds : ∀ c ∈ ds, isDigit c = true)
    (hrest : ∀ c r, rest = c :: r → isDigit c = false) :
    spanDigits (ds ++ rest) = (ds, rest) := by
  induction ds with
  | nil =>
    cases rest with
    | nil => rfl
    | cons c r => simp [spanDigits, hrest c r rfl]
  | cons d ds ih =>
    have hd : isDigit d = true := hds d (List.mem_cons_self _ _)
    have ih2 := ih (fun c hc => hds c (List.mem_cons_of_mem _ hc))
    simp [spanDigits, hd, ih2]

theorem digitsVal_append_single (ds : List Char) (c : Char) :
    digitsVal (ds ++ [c]) = 10 * digitsVal ds + (c.toNat - 48) := by
  simp [digitsVal, List.foldl_append]

namespace Json

theorem natDigits_spec : ∀ fuel n acc, n < fuel →
    ∃ ds, natDigits fuel n acc = ds ++ acc ∧ ds ≠ [] ∧ (∀ c ∈ ds, isDigit c = true) ∧
      digitsVal ds = n ∧ (ds.head? = some '0' → ds.length = 1) := by
  intro fuel
  induction fuel with
  | zero => intro n acc h; omega
  | succ f ih =>
    intro n acc h
    unfold natDigits
    by_cases h0 : n / 10 = 0
    · have hn : n < 10 := by omega
      have hd := digitChar_spec (n % 10) (Nat.mod_lt _ (by decide))
      refine ⟨[digitChar (n % 10)], by simp [h0], by simp, ?_, ?_, by simp⟩
      · intro c hc
        simp only [List.mem_singleton] at hc
        subst hc
        exact hd.1
      · simp only [digitsVal, List.foldl_cons, List.foldl_nil, hd.2]
        omega
    · have hlt : n / 10 < f := by omega
      obtain ⟨ds, h1, h2, h3, h4, h5⟩ := ih (n / 10) (digitChar (n % 10) :: acc) hlt
      have hd := digitChar_spec (n % 10) (Nat.mod_lt _ (by decide))
      refine ⟨ds ++ [digitChar (n % 10)], by simp [h0, h1], by simp, ?_, ?_, ?_⟩
      · intro c hc
        rcases List.mem_append.mp hc with hc | hc
        · exact h3 c hc
        · simp only [List.mem_singleton] at hc
          subst hc
          exact hd.1
      · rw [digitsVal_append_single, h4, hd.2]
        omega
      · intro hh
        exfalso
        cases ds with
        | nil => exact h2 rfl
        | cons c cs =>
          simp only [List.cons_append, List.head?_cons, Option.some.injEq] at hh
          subst hh
          have hl := h5 rfl
          simp only [List.length_cons, Nat.add_left_eq_self, List.length_eq_zero] at hl
          subst hl
          simp [digitsVal] at h4
          omega

theorem renderNat_spec (n : Nat) :
    ∃ c ds, renderNat n = c :: ds ∧ (∀ x ∈ c :: ds, isDigit x = true) ∧
      digitsVal (c :: ds) = n ∧ (c = '0' → ds = []) := by
  obtain ⟨ds, h1, h2, h3, h4, h5⟩ := natDigits_spec (n + 1) n [] (Nat.lt_succ_self n)
  cases ds with
  | nil => exact absurd rfl h2
  | cons c cs =>
    refine ⟨c, cs, by simpa [renderNat] using h1, h3, h4, ?_⟩
    intro hc
    have := h5 (by simp [hc])
    simpa using this

theorem not_digit_of_numEnd (rest : List Char) (h : numEnd rest = true) :
    ∀ c r, rest = c :: r → isDigit c = false := by
  intro c r hr
  subst hr
  simp only [numEnd, Bool.not_eq_true', Bool.or_eq_false_iff] at h
  exact h.1.1.1

theorem parseExpDigits_render (neg : Bool) (n : Nat) (rest : List Char)
    (hrest : numEnd rest = true) :
    parseExpDigits neg (renderNat n ++ rest) =
      some (if neg then -(n : Int) else (n : Int), rest) := by
  obtain ⟨c, ds, h1, h2, h3, _⟩ := renderNat_spec n
  unfold parseExpDigits
  rw [h1, spanDigits_append (c :: ds) rest h2 (not_digit_of_numEnd rest hrest)]
  simp [h3]

theorem parseExp_render (e : Int) (rest : List Char) (hrest : numEnd rest = true) :
    parseExp ((if e = 0 then [] else 'e' :: renderInt e) ++ rest) = some (e, rest) := by
  by_cases he : e = 0
  · subst he
    simp only [if_true, List.nil_append]
    cases rest with
    | nil => rfl
    | cons c r =>
      simp only [numEnd, Bool.not_eq_true', Bool.or_eq_false_iff, decide_eq_false_iff_not] at hrest
      simp [parseExp, hrest.1.2, hrest.2]
  · simp only [he, if_false, List.cons_append]
    unfold parseExp
    simp only [true_or, if_true]
    cases e with
    | ofNat n =>
      obtain ⟨c, ds, h1, h2, _, _⟩ := renderNat_spec n
      have hc : isDigit c = true := h2 c (List.mem_cons_self _ _)
      have hm : c ≠ '-' := by intro h; subst h; exact absurd hc (by decide)
      have hp : c ≠ '+' := by intro h; subst h; exact absurd hc (by decide)
      have := parseExpDigits_render false n rest hrest
      simp only [renderInt, h1, List.cons_append, hm, hp, if_false] at this ⊢
      simpa using this
    | negSucc n =>
      have := parseExpDigits_render true (n + 1) rest hrest
      simp only [renderInt, List.cons_append, if_true]
      rw [this]
      simp [Int.negSucc_eq]

theorem parseUnsigned_render (neg : Bool) (n : Nat) (e : Int) (rest : List Char)
    (hrest : numEnd rest = true) :
    parseUnsigned neg (renderNat n ++ ((if e = 0 then [] else 'e' :: renderInt e) ++ rest)) =
      some (Json.num (if neg then -(n : Int) else (n : Int)) e, rest) := by
  obtain ⟨c, ds, h1, h2, h3, h4⟩ := renderNat_spec n
  have htail : ∀ x r, (if e = 0 then [] else 'e' :: renderInt e) ++ rest = x :: r →
      isDigit x = false ∧ x ≠ '.' := by
    intro x r hx
    by_cases he : e = 0
    · simp only [he, if_true, List.nil_append] at hx
      subst hx
      simp only [numEnd, Bool.not_eq_true', Bool.or_eq_false_iff, decide_eq_false_iff_not] at hrest
      exact ⟨hrest.1.1.1, hrest.1.1.2⟩
    · simp only [he, if_false, List.cons_append, List.cons.injEq] at hx
      rw [← hx.1]
      exact ⟨by decide, by decide⟩
  have hspan := spanDigits_append (c :: ds) _ h2 (fun x r hx => (htail x r hx).1)
  have hfrac : parseFrac ((if e = 0 then [] else 'e' :: renderInt e) ++ rest) =
      some ([], (if e = 0 then [] else 'e' :: renderInt e) ++ rest) := by
    cases hx : (if e = 0 then [] else 'e' :: renderInt e) ++ rest with
    | nil => rfl
    | cons x r => simp [parseFrac, (htail x r hx).2]
  have hzero : ¬ ((c :: ds).head? = some '0' ∧ 1 < (c :: ds).length) := by
    rintro ⟨hh, hl⟩
    simp only [List.head?_cons, Option.some.injEq] at hh
    have := h4 hh
    subst this
    simp at hl
  unfold parseUnsigned
  rw [h1, hspan]
  simp only [hzero, if_false, hfrac, parseExp_render e rest hrest, List.append_nil, h3]
  simp

theorem parseNumber_render (m e : Int) (rest : List Char) (hrest : numEnd rest = true) :
    parseNumber (renderNum m e ++ rest) = some (Json.num m e, rest) := by
  unfold renderNum
  rw [List.append_assoc]
  cases m with
  | ofNat n =>
    obtain ⟨c, ds, h1, h2, _, _⟩ := renderNat_spec n
    have hc : isDigit c = true := h2 c (List.mem_cons_self _ _)
    have hm : c ≠ '-' := by intro h; subst h; exact absurd hc (by decide)
    have := parseUnsigned_render false n e rest hrest
    simp only [renderInt, h1, List.cons_append] at this ⊢
    simp only [parseNumber, hm, if_false, this]
    simp
  | negSucc n =>
    have := parseUnsigned_render true (n + 1) e rest hrest
    have hr : renderInt (Int.negSucc n) = '-' :: renderNat (n + 1) := rfl
    rw [hr, List.cons_append]
    simp only [parseNumber, if_true, this]
    simp [Int.negSucc_eq]


theorem skipWs_append_white (ws l : List Char) (h : ∀ c ∈ ws, isWs c = true) :
    skipWs (ws ++ l) = skipWs l := by
  induction ws with
  | nil => rfl
  | cons c cs ih =>
    have hc : isWs c = true := h c (List.mem_cons_self _ _)
    simp only [List.cons_append, skipWs, hc, if_true]
    exact ih (fun x hx => h x (List.mem_cons_of_mem _ hx))

theorem white_indent (d : Nat) : ∀ c ∈ indent d, isWs c = true := by
  intro c hc
  simp only [indent, List.mem_cons, List.mem_replicate] at hc
  rcases hc with hc | ⟨_, hc⟩ <;> subst hc <;> decide

theorem size_pos (j : Json) : 1 ≤ size j := by
  cases j <;> simp [size]

theorem render_head (d : Nat) (j : Json) :
    ∃ c tl, render d j = c :: tl ∧ isWs c = false ∧ c ≠ ']' ∧ c ≠ '\x7d' := by
  cases j with
  | null => exact ⟨_, _, rfl, by decide, by decide, by decide⟩
  | bool b => cases b <;> exact ⟨_, _, rfl, by decide, by decide, by decide⟩
  | num m e =>
    cases m with
    | ofNat n =>
      obtain ⟨c, ds, h1, h2, _, _⟩ := renderNat_spec n
      have hc : isDigit c = true := h2 c (List.mem_cons_self _ _)
      refine ⟨c, ds ++ (if e = 0 then [] else 'e' :: renderInt e), ?_, ?_, ?_, ?_⟩
      · simp [render, renderNum, renderInt, h1]
      · cases hw : isWs c with
        | false => rfl
        | true =>
          simp only [isWs, Bool.or_eq_true, decide_eq_true_eq] at hw
          rcases hw with ((hw | hw) | hw) | hw <;> subst hw <;> exact absurd hc (by decide)
      · intro h; subst h; exact absurd hc (by decide)
      · intro h; subst h; exact absurd hc (by decide)
    | negSucc n =>
      exact ⟨'-', _, rfl, by decide, by decide, by decide⟩
  | str s => exact ⟨'"', _, rfl, by decide, by decide, by decide⟩
  | arr xs =>
    cases xs with
    | nil => exact ⟨_, _, rfl, by decide, by decide, by decide⟩
    | cons x xs => exact ⟨_, _, rfl, by decide, by decide, by decide⟩
  | obj ms =>
    cases ms with
    | nil => exact ⟨_, _, rfl, by decide, by decide, by decide⟩
    | cons m ms =>
      obtain ⟨k, v⟩ := m
      exact ⟨_, _, rfl, by decide, by decide, by decide⟩


theorem num_head (d : Nat) (m e : Int) :
    ∃ c tl, render d (Json.num m e) = c :: tl ∧ (isDigit c = true ∨ c = '-') := by
  cases m with
  | ofNat n =>
    obtain ⟨c, ds, h1, h2, _, _⟩ := renderNat_spec n
    refine ⟨c, ds ++ (if e = 0 then [] else 'e' :: renderInt e), ?_,
      Or.inl (h2 c (List.mem_cons_self _ _))⟩
    simp [render, renderNum, renderInt, h1]
  | negSucc n => exact ⟨'-', _, rfl, Or.inr rfl⟩

theorem parseValue_num (f depth : Nat) (c : Char) (tl : List Char)
    (h : isDigit c = true ∨ c = '-') :
    parseValue (f + 1) depth (c :: tl) = parseNumber (c :: tl) := by
  have hw : isWs c = false := by
    rcases h with h | h
    · cases hw : isWs c with
      | false => rfl
      | true =>
        simp only [isWs, Bool.or_eq_true, decide_eq_true_eq] at hw
        rcases hw with ((hw | hw) | hw) | hw <;> subst hw <;> exact absurd h (by decide)
    · subst h; decide
  have hne : c ≠ 'n' ∧ c ≠ 't' ∧ c ≠ 'f' ∧ c ≠ '"' ∧ c ≠ '[' ∧ c ≠ '\x7b' := by
    rcases h with h | h
    · refine ⟨?_, ?_, ?_, ?_, ?_, ?_⟩ <;> (intro hc; subst hc; exact absurd h (by decide))
    · subst h; decide
  unfold parseValue
  simp only [skipWs, hw, Bool.false_eq_true, if_false, hne.1, hne.2.1, hne.2.2.1, hne.2.2.2.1,
    hne.2.2.2.2.1, hne.2.2.2.2.2]

theorem numEnd_elems_tail (d d0 : Nat) (xs : List Json) (rest : List Char) :
    numEnd (renderElems d xs ++ (indent d0 ++ ']' :: rest)) = true := by
  cases xs with
  | nil => rfl
  | cons x xs => rfl

theorem numEnd_members_tail (d d0 : Nat) (ms : List (GoString × Json)) (rest : List Char) :
    numEnd (renderMembers d ms ++ (indent d0 ++ '\x7d' :: rest)) = true := by
  cases ms with
  | nil => rfl
  | cons m ms => obtain ⟨k, v⟩ := m; rfl

theorem skipWs_not_ws (c : Char) (l : List Char) (h : isWs c = false) :
    skipWs (c :: l) = c :: l := by
  simp [skipWs, h]

theorem parse_render_aux (fuel : Nat) :
    (∀ (j : Json) (d depth : Nat) (ws rest : List Char), (∀ c ∈ ws, isWs c = true) →
      numEnd rest = true → size j ≤ fuel → depth + Json.depth j ≤ maxNestingDepth →
      parseValue fuel depth (ws ++ (render d j ++ rest)) = some (readBack j, rest)) ∧
    (∀ (x : Json) (xs : List Json) (d d0 depth : Nat) (ws rest : List Char),
      (∀ c ∈ ws, isWs c = true) → sizeElems (x :: xs) ≤ fuel →
      depth + depthElems (x :: xs) ≤ maxNestingDepth →
      parseElems fuel depth
        (ws ++ (render d x ++ (renderElems d xs ++ (indent d0 ++ ']' :: rest)))) =
        some (readBackElems (x :: xs), rest)) ∧
    (∀ (k : GoString) (v : Json) (ms : List (GoString × Json)) (d d0 depth : Nat)
      (ws rest : List Char),
      (∀ c ∈ ws, isWs c = true) → sizeMembers ((k, v) :: ms) ≤ fuel →
      depth + depthMembers ((k, v) :: ms) ≤ maxNestingDepth →
      parseMembers fuel depth (ws ++ (renderString k ++ (':' :: ' ' :: (render d v ++
        (renderMembers d ms ++ (indent d0 ++ '\x7d' :: rest)))))) =
        some (readBackMembers ((k, v) :: ms), rest)) := by
  induction fuel with
  | zero =>
    refine ⟨?_, ?_, ?_⟩
    · intro j d depth ws rest _ _ hs
      have := size_pos j
      omega
    · intro x xs d d0 depth ws rest _ hs
      simp only [sizeElems] at hs
      omega
    · intro k v ms d d0 depth ws rest _ hs
      simp only [sizeMembers] at hs
      omega
  | succ f ih =>
    obtain ⟨ihV, ihE, ihM⟩ := ih
    refine ⟨?_, ?_, ?_⟩
    · intro j d depth ws rest hws hrest hs hdp
      cases j with
      | null =>
        unfold parseValue
        rw [skipWs_append_white _ _ hws]
        simp [render, skipWs, isWs, parseLiteral, readBack]
      | bool b =>
        unfold parseValue
        rw [skipWs_append_white _ _ hws]
        cases b <;> simp [render, skipWs, isWs, parseLiteral, readBack]
      | num m e =>
        obtain ⟨c, tl, hc, hd⟩ := num_head d m e
        have hp := parseNumber_render m e rest hrest
        have hr : render d (Json.num m e) = renderNum m e := rfl
        rw [← hr, hc] at hp
        unfold parseValue
        rw [skipWs_append_white _ _ hws, hc]
        have := parseValue_num f depth c (tl ++ rest) hd
        unfold parseValue at this
        rw [List.cons_append, this, ← List.cons_append, hp]
        simp [readBack]
      | str s =>
        unfold parseValue
        rw [skipWs_append_white _ _ hws]
        have hlen : s.length + 1 ≤ f := by simp only [size] at hs; omega
        have hb := parseStringBody_escaped s rest f hlen
        simp [render, renderString, skipWs, isWs, hb, mapFst, readBack, GoString.readBack]
      | arr xs =>
        unfold parseValue
        rw [skipWs_append_white _ _ hws]
        cases xs with
        | nil => simp [render, skipWs, isWs, readBack, readBackElems, maxNestingDepth,
            Json.depth, depthElems] at hdp ⊢; omega
        | cons x xs =>
          obtain ⟨c2, tl2, hx, hw2, hb2, _⟩ := render_head (d + 1) x
          have hsz : sizeElems (x :: xs) ≤ f := by simp only [size] at hs; omega
          have hnd : ¬ (maxNestingDepth ≤ depth) := by simp only [Json.depth] at hdp; omega
          have hdp2 : depth + 1 + depthElems (x :: xs) ≤ maxNestingDepth := by
            simp only [Json.depth] at hdp; omega
          have he := ihE x xs (d + 1) d (depth + 1) [] rest (by simp) hsz hdp2
          rw [List.nil_append, hx] at he
          simp only [List.cons_append] at he
          simp only [render, List.cons_append, List.append_assoc, List.nil_append,
            skipWs_not_ws '[' _ (by decide), skipWs_append_white _ _ (white_indent (d + 1)), hx,
            skipWs_not_ws c2 _ hw2, hb2, hnd, if_false, if_true, he, mapFst, readBack,
            show ¬ ('[' = 'n') by decide, show ¬ ('[' = 't') by decide,
            show ¬ ('[' = 'f') by decide, show ¬ ('[' = '"') by decide]
      | obj ms =>
        unfold parseValue
        rw [skipWs_append_white _ _ hws]
        cases ms with
        | nil => simp [render, skipWs, isWs, readBack, readBackMembers, maxNestingDepth,
            Json.depth, depthMembers] at hdp ⊢; omega
        | cons m ms =>
          obtain ⟨k, v⟩ := m
          have hsz : sizeMembers ((k, v) :: ms) ≤ f := by simp only [size] at hs; omega
          have hnd : ¬ (maxNestingDepth ≤ depth) := by simp only [Json.depth] at hdp; omega
          have hdp2 : depth + 1 + depthMembers ((k, v) :: ms) ≤ maxNestingDepth := by
            simp only [Json.depth] at hdp; omega
          have he := ihM k v ms (d + 1) d (depth + 1) [] rest (by simp) hsz hdp2
          simp only [List.nil_append, renderString, List.cons_append, List.append_assoc] at he
          simp only [render, renderString, List.cons_append, List.append_assoc, List.nil_append,
            skipWs_not_ws '\x7b' _ (by decide), skipWs_append_white _ _ (white_indent (d + 1)),
            skipWs_not_ws '"' _ (by decide), hnd, if_false, if_true, he, mapFst, readBack,
            show ¬ ('\x7b' = 'n') by decide, show ¬ ('\x7b' = 't') by decide,
            show ¬ ('\x7b' = 'f') by decide, show ¬ ('\x7b' = '"') by decide,
            show ¬ ('\x7b' = '[') by decide, show ¬ ('"' = '\x7d') by decide]
    · intro x xs d d0 depth ws rest hws hs hdp
      have hsx : size x ≤ f := by simp only [sizeElems] at hs; omega
      have hdx : depth + Json.depth x ≤ maxNestingDepth := by
        simp only [depthElems] at hdp; omega
      have hv := ihV x d depth ws (renderElems d xs ++ (indent d0 ++ ']' :: rest)) hws
        (numEnd_elems_tail d d0 xs rest) hsx hdx
      unfold parseElems
      rw [hv]
      cases xs with
      | nil =>
        simp only [renderElems, List.nil_append, skipWs_append_white _ _ (white_indent d0),
          skipWs_not_ws ']' _ (by decide), show ¬ (']' = ',') by decide, if_false, if_true,
          readBackElems]
      | cons y ys =>
        have hsy : sizeElems (y :: ys) ≤ f := by simp only [sizeElems] at hs ⊢; omega
        have hdy : depth + depthElems (y :: ys) ≤ maxNestingDepth := by
          simp only [depthElems] at hdp ⊢; omega
        have he := ihE y ys d d0 depth (indent d) rest (white_indent d) hsy hdy
        simp only [renderElems, List.cons_append, List.append_assoc,
          skipWs_not_ws ',' _ (by decide), if_true, he, mapFst, readBackElems]
    · intro k v ms d d0 depth ws rest hws hs hdp
      have hsk : k.length + 1 ≤ f := by simp only [sizeMembers] at hs; omega
      have hsv : size v ≤ f := by simp only [sizeMembers] at hs; omega
      have hdv : depth + Json.depth v ≤ maxNestingDepth := by
        simp only [depthMembers] at hdp; omega
      have hb := parseStringBody_escaped k
        (':' :: ' ' :: (render d v ++ (renderMembers d ms ++ (indent d0 ++ '\x7d' :: rest)))) f hsk
      have hv := ihV v d depth [' '] (renderMembers d ms ++ (indent d0 ++ '\x7d' :: rest))
        (by intro c hc; simp only [List.mem_singleton] at hc; subst hc; decide)
        (numEnd_members_tail d d0 ms rest) hsv hdv
      simp only [List.cons_append, List.nil_append] at hv
      unfold parseMembers
      rw [skipWs_append_white _ _ hws]
      simp only [renderString, List.cons_append, List.append_assoc, List.nil_append,
        skipWs_not_ws '"' _ (by decide), if_true, hb, skipWs_not_ws ':' _ (by decide), hv]
      cases ms with
      | nil =>
        simp only [renderMembers, List.nil_append, skipWs_append_white _ _ (white_indent d0),
          skipWs_not_ws '\x7d' _ (by decide), show ¬ ('\x7d' = ',') by decide, if_false, if_true,
          readBackMembers, GoString.readBack]
      | cons m2 ms2 =>
        obtain ⟨k2, v2⟩ := m2
        have hsm : sizeMembers ((k2, v2) :: ms2) ≤ f := by
          simp only [sizeMembers] at hs ⊢; omega
        have hdm : depth + depthMembers ((k2, v2) :: ms2) ≤ maxNestingDepth := by
          simp only [depthMembers] at hdp ⊢; omega
        have he := ihM k2 v2 ms2 d d0 depth (indent d) rest (white_indent d) hsm hdm
        simp only [renderString, List.cons_append, List.append_assoc, List.nil_append] at he
        simp only [renderMembers, renderString, List.cons_append, List.append_assoc,
          List.nil_append, skipWs_not_ws ',' _ (by decide), if_true, he, mapFst,
          readBackMembers, GoString.readBack]

theorem escapeGo_length (g : GoChar) : 1 ≤ (escapeGo g).length := by
  cases g with
  | rune c =>
    simp only [escapeGo]
    unfold escapeChar
    split_ifs <;> simp [hex4]
  | byte b => simp [escapeGo]

theorem renderString_length (s : GoString) : s.length + 2 ≤ (renderString s).length := by
  have h : ∀ l : GoString, l.length ≤ (l.flatMap escapeGo).length := by
    intro l
    induction l with
    | nil => simp
    | cons c cs ih =>
      have hc := escapeGo_length c
      simp only [List.flatMap_cons, List.length_append, List.length_cons]
      omega
  have := h s
  simp only [renderString, List.length_cons, List.length_append, List.length_nil]
  omega

theorem size_le_length (n : Nat) :
    (∀ (j : Json) (d : Nat), size j ≤ n → size j ≤ (render d j).length) ∧
    (∀ (xs : List Json) (d : Nat), sizeElems xs ≤ n → sizeElems xs ≤ (renderElems d xs).length) ∧
    (∀ (ms : List (GoString × Json)) (d : Nat), sizeMembers ms ≤ n →
      sizeMembers ms ≤ (renderMembers d ms).length) := by
  induction n with
  | zero =>
    refine ⟨?_, ?_, ?_⟩
    · intro j d h
      have := size_pos j
      omega
    · intro xs d h; omega
    · intro ms d h; omega
  | succ n ih =>
    obtain ⟨ihV, ihE, ihM⟩ := ih
    refine ⟨?_, ?_, ?_⟩
    · intro j d h
      cases j with
      | null => simp [size, render]
      | bool b => cases b <;> simp [size, render]
      | num m e =>
        obtain ⟨c, tl, hc, _⟩ := num_head d m e
        simp [size, hc]
      | str s =>
        have := renderString_length s
        simpa [size, render] using this
      | arr xs =>
        cases xs with
        | nil => simp [size, render, sizeElems]
        | cons x xs =>
          simp only [size, sizeElems] at h ⊢
          have h1 := ihV x (d + 1) (by omega)
          have h2 := ihE xs (d + 1) (by omega)
          simp only [render, List.length_cons, List.length_append, indent, List.length_nil,
            List.length_replicate]
          omega
      | obj ms =>
        cases ms with
        | nil => simp [size, render, sizeMembers]
        | cons m ms =>
          obtain ⟨k, v⟩ := m
          simp only [size, sizeMembers] at h ⊢
          have h1 := ihV v (d + 1) (by omega)
          have h2 := ihM ms (d + 1) (by omega)
          have h3 := renderString_length k
          simp only [render, List.length_cons, List.length_append, indent, List.length_nil,
            List.length_replicate]
          omega
    · intro xs d h
      cases xs with
      | nil => simp [sizeElems]
      | cons x xs =>
        simp only [sizeElems] at h ⊢
        have h1 := ihV x d (by omega)
        have h2 := ihE xs d (by omega)
        simp only [renderElems, List.length_cons, List.length_append, indent,
          List.length_replicate]
        omega
    · intro ms d h
      cases ms with
      | nil => simp [sizeMembers]
      | cons m ms =>
        obtain ⟨k, v⟩ := m
        simp only [sizeMembers] at h ⊢
        have h1 := ihV v d (by omega)
        have h2 := ihM ms d (by omega)
        have h3 := renderString_length k
        simp only [renderMembers, List.length_cons, List.length_append, indent,
          List.length_replicate]
        omega

end Json

theorem text_ofChars (cs : List Char) : GoString.text (GoString.ofChars cs) = cs := by
  induction cs with
  | nil => rfl
  | cons c cs ih =>
    simp only [GoString.text, GoString.ofChars, List.map_cons, GoChar.decoded] at ih ⊢
    rw [ih]

theorem readBack_of_valid (s : GoString) (h : GoString.valid s = true) :
    GoString.readBack s = s := by
  induction s with
  | nil => rfl
  | cons g gs ih =>
    simp only [GoString.valid, List.all_cons, Bool.and_eq_true] at h
    have ih2 := ih (by simpa [GoString.valid] using h.2)
    cases g with
    | rune c =>
      simp only [GoString.readBack, GoString.ofChars, GoString.text, List.map_cons,
        GoChar.decoded] at ih2 ⊢
      rw [ih2]
    | byte b => simp [GoChar.isRune] at h

theorem valid_ofChars (cs : List Char) : GoString.valid (GoString.ofChars cs) = true := by
  simp [GoString.valid, GoString.ofChars, GoChar.isRune]

theorem valid_readBack (s : GoString) : GoString.valid (GoString.readBack s) = true :=
  valid_ofChars _

theorem valid_go (s : String) : GoString.valid (go s) = true := valid_ofChars s.data

theorem readBack_go (s : String) : GoString.readBack (go s) = go s :=
  readBack_of_valid _ (valid_go s)

theorem readBack_eq_nil (s : GoString) : GoString.readBack s = [] ↔ s = [] := by
  cases s <;> simp [GoString.readBack, GoString.ofChars, GoString.text]

namespace Json

/-- The parser reads back every document that nests no deeper than the scanner admits from its
indented text, up to the invalid bytes of its strings. -/
theorem parse_render (j : Json) (hd : Json.depth j ≤ maxNestingDepth) :
    Json.parse (GoString.ofChars (render 0 j)) = some (readBack j) := by
  have hlen : size j ≤ (render 0 j).length + 1 :=
    Nat.le_succ_of_le ((size_le_length (size j)).1 j 0 (Nat.le_refl _))
  have := (parse_render_aux ((render 0 j).length + 1)).1 j 0 0 [] [] (by simp) rfl hlen
    (by omega)
  simp only [List.nil_append, List.append_nil] at this
  simp [Json.parse, text_ofChars, this, skipWs]

end Json

/-! ## Date-times: `time.Parse` reads back what `Time.MarshalJSON` writes -/

namespace Time

theorem num2_pad2 (n : Nat) (h : n < 100) :
    num2 (digitChar (n / 10 % 10)) (digitChar (n % 10)) = some n := by
  have h1 := digitChar_spec (n / 10 % 10) (Nat.mod_lt _ (by decide))
  have h2 := digitChar_spec (n % 10) (Nat.mod_lt _ (by decide))
  simp only [num2, h1.1, h2.1, and_self, if_true, h1.2, h2.2, Option.some.injEq]
  omega

theorem num4_pad4 (n : Nat) (h : n < 10000) :
    num4 (digitChar (n / 1000 % 10)) (digitChar (n / 100 % 10)) (digitChar (n / 10 % 10))
      (digitChar (n % 10)) = some n := by
  have h1 := digitChar_spec (n / 1000 % 10) (Nat.mod_lt _ (by decide))
  have h2 := digitChar_spec (n / 100 % 10) (Nat.mod_lt _ (by decide))
  have h3 := digitChar_spec (n / 10 % 10) (Nat.mod_lt _ (by decide))
  have h4 := digitChar_spec (n % 10) (Nat.mod_lt _ (by decide))
  simp only [num4, h1.1, h2.1, h3.1, h4.1, and_self, if_true, h1.2, h2.2, h3.2, h4.2,
    Option.some.injEq]
  omega

theorem appendInt_two (n : Nat) (h : n < 100) : appendInt (n : Int) 2 = pad2 n := by
  have hn : ¬ ((n : Int) < 0) := by omega
  simp [appendInt, hn, h]

theorem appendInt_year (y : Int) (h0 : 0 ≤ y) (h1 : y ≤ 9999) :
    appendInt y 4 = pad4 y.toNat := by
  have hn : ¬ (y < 0) := by omega
  have ha : y.natAbs = y.toNat := by omega
  have hl : y.toNat < 10000 := by omega
  simp [appendInt, hn, ha, hl]

theorem getnum_pad2 (fixed : Bool) (n : Nat) (rest : List Char) (h : n < 100) :
    getnum fixed (pad2 n ++ rest) = some (n, rest) := by
  have h1 := digitChar_spec (n / 10 % 10) (Nat.mod_lt _ (by decide))
  have h2 := digitChar_spec (n % 10) (Nat.mod_lt _ (by decide))
  simp only [pad2, List.cons_append, List.nil_append, getnum, h1.1, h2.1, if_true, h1.2, h2.2,
    Option.some.injEq, Prod.mk.injEq, and_true]
  omega

theorem expect_getnum (c : Char) (fixed : Bool) (n : Nat) (rest : List Char) (h : n < 100) :
    (expect c (c :: (pad2 n ++ rest))).bind (getnum fixed) = some (n, rest) := by
  simp only [expect, if_true, Option.some_bind, getnum_pad2 fixed n rest h]

theorem trimZeros_pad (l : List Char) :
    trimZeros l ++ List.replicate (l.length - (trimZeros l).length) '0' = l := by
  induction l with
  | nil => rfl
  | cons c cs ih =>
    unfold trimZeros
    by_cases h : trimZeros cs = [] ∧ c = '0'
    · obtain ⟨h1, h2⟩ := h
      rw [h1] at ih
      simp only [h1, h2, and_self, if_true, List.nil_append, List.length_nil, Nat.sub_zero,
        List.length_cons, List.replicate_succ] at ih ⊢
      rw [ih]
    · simp only [h, if_false, List.cons_append, List.length_cons, Nat.add_sub_add_right, ih]

theorem trimZeros_length_le (l : List Char) : (trimZeros l).length ≤ l.length := by
  have h := congrArg List.length (trimZeros_pad l)
  simp only [List.length_append, List.length_replicate] at h
  omega

theorem trimZeros_take (l : List Char) (h : l.length = 9) :
    (trimZeros l ++ List.replicate 9 '0').take 9 = l := by
  have hle := trimZeros_length_le l
  have hsplit : List.replicate 9 '0' =
      List.replicate (l.length - (trimZeros l).length) '0' ++
        List.replicate (9 - (l.length - (trimZeros l).length)) '0' := by
    rw [← List.replicate_add]
    congr 1
    omega
  rw [hsplit, ← List.append_assoc, trimZeros_pad l, ← h]
  exact List.take_left _ _

theorem pad9_spec (n : Nat) (h : n < 1000000000) :
    (pad9 n).length = 9 ∧ (∀ c ∈ pad9 n, isDigit c = true) ∧ digitsVal (pad9 n) = n := by
  have d := fun k => digitChar_spec (k % 10) (Nat.mod_lt _ (by decide))
  refine ⟨rfl, ?_, ?_⟩
  · intro c hc
    simp only [pad9, List.mem_cons, List.mem_singleton, List.not_mem_nil, or_false] at hc
    rcases hc with hc | hc | hc | hc | hc | hc | hc | hc | hc <;> subst hc <;> exact (d _).1
  · simp only [pad9, digitsVal, List.foldl_cons, List.foldl_nil, (d _).2]
    omega

/-- The text of a zone whose hour is below 24. -/
theorem formatZone_eq (offset : Int) (h0 : offset ≠ 0)
    (hz : (Int.tdiv offset 60).natAbs / 60 < 24) :
    formatZone offset = (if Int.tdiv offset 60 < 0 then '-' else '+') ::
      (pad2 ((Int.tdiv offset 60).natAbs / 60) ++
        (':' :: pad2 ((Int.tdiv offset 60).natAbs % 60))) := by
  unfold formatZone
  simp only [h0, if_false]
  rw [appendInt_two _ (by omega), appendInt_two _ (by omega)]

theorem zone_head (offset : Int) :
    ∃ c tl, formatZone offset = c :: tl ∧ isDigit c = false ∧ c ≠ '.' ∧ c ≠ ',' := by
  unfold formatZone
  by_cases h0 : offset = 0
  · simp only [h0, if_true]
    exact ⟨_, _, rfl, by decide, by decide, by decide⟩
  · simp only [h0, if_false]
    by_cases hn : Int.tdiv offset 60 < 0
    · simp only [hn, if_true]
      exact ⟨_, _, rfl, by decide, by decide, by decide⟩
    · simp only [hn, if_false]
      exact ⟨_, _, rfl, by decide, by decide, by decide⟩

theorem parseFrac_format (nano : Nat) (offset : Int) (h : nano < 1000000000) :
    parseFrac (formatFrac nano ++ formatZone offset) = (nano, formatZone offset) := by
  obtain ⟨c, tl, hz, hd, hp, hcm⟩ := zone_head offset
  unfold formatFrac
  by_cases h0 : nano = 0
  · simp only [h0, if_true, List.nil_append, hz]
    cases tl with
    | nil => rfl
    | cons d r => simp [parseFrac, hp, hcm]
  · obtain ⟨hlen, hdig, hval⟩ := pad9_spec nano h
    have hpad := trimZeros_pad (pad9 nano)
    have hmem : ∀ x ∈ trimZeros (pad9 nano), isDigit x = true := by
      intro x hx
      apply hdig
      rw [← hpad]
      exact List.mem_append_left _ hx
    have hne : trimZeros (pad9 nano) ≠ [] := by
      intro he
      rw [he, List.nil_append, List.length_nil, Nat.sub_zero, hlen] at hpad
      rw [← hpad] at hval
      exact h0 (by rw [← hval]; rfl)
    have hspan := spanDigits_append (trimZeros (pad9 nano)) (formatZone offset) hmem
      (by intro x r hx; rw [hz] at hx; cases hx; exact hd)
    obtain ⟨d, ds, hds⟩ : ∃ d ds, trimZeros (pad9 nano) = d :: ds := by
      cases ht : trimZeros (pad9 nano) with
      | nil => exact absurd ht hne
      | cons d ds => exact ⟨d, ds, rfl⟩
    have hdd : isDigit d = true := hmem d (by rw [hds]; exact List.mem_cons_self _ _)
    have htt := trimZeros_take _ hlen
    rw [hds] at hspan htt
    simp only [h0, if_false, List.cons_append, hds, parseFrac, true_or, hdd, and_self, if_true]
    simp only [List.cons_append] at hspan htt
    rw [hspan]
    simp only [List.cons_append, htt, hval]

theorem parseZone_format (offset : Int) (hz : offset = 0 ∨ (Int.tdiv offset 60).natAbs / 60 < 24) :
    parseZone (formatZone offset) = some (Int.tdiv offset 60 * 60, []) := by
  by_cases h0 : offset = 0
  · subst h0
    rfl
  · have hz2 : (Int.tdiv offset 60).natAbs / 60 < 24 := by
      rcases hz with hz | hz
      · exact absurd hz h0
      · exact hz
    rw [formatZone_eq offset h0 hz2]
    have hh := num2_pad2 ((Int.tdiv offset 60).natAbs / 60) (by omega)
    have hm := num2_pad2 ((Int.tdiv offset 60).natAbs % 60) (by omega)
    have hrange : (Int.tdiv offset 60).natAbs / 60 ≤ 24 ∧ (Int.tdiv offset 60).natAbs % 60 ≤ 60 :=
      ⟨by omega, by omega⟩
    by_cases hn : Int.tdiv offset 60 < 0
    · simp only [hn, if_true, pad2, List.cons_append, List.nil_append, parseZone,
        show ¬ ('-' = 'Z') by decide, if_false, hh, hm, hrange, or_true, and_self,
        Option.some.injEq, Prod.mk.injEq, and_true]
      omega
    · simp only [hn, if_false, pad2, List.cons_append, List.nil_append, parseZone,
        show ¬ ('+' = 'Z') by decide, show ¬ ('+' = '-') by decide, if_true, hh, hm, hrange,
        true_or, and_self, Option.some.injEq, Prod.mk.injEq, and_true]
      omega

/-- The parser reads back every date-time that `Time.MarshalJSON` accepts from the text it
writes, the seconds of the zone offset cut off. -/
theorem parse_formatNano (t : Time) (h : t.marshalErr = none) :
    Time.parse t.formatNano = some t.readBack := by
  obtain ⟨year, month, day, hour, minute, second, nano, offset, hv⟩ := t
  have hv2 := hv
  obtain ⟨_, hmo, _, hd, hh, hmi, hs, hn⟩ := hv2
  have hd2 : day < 100 := by
    have : daysIn year month ≤ 31 := by unfold daysIn; split_ifs <;> omega
    omega
  have hy : 0 ≤ year ∧ year ≤ 9999 := by
    unfold marshalErr at h
    by_contra hc
    have h1 : year < 0 ∨ 9999 < year := by omega
    rw [if_pos h1] at h
    cases h
  have hz : offset = 0 ∨ (Int.tdiv offset 60).natAbs / 60 < 24 := by
    unfold marshalErr at h
    by_contra hc
    have h1 : ¬ (year < 0 ∨ 9999 < year) := by omega
    have h2 : offset ≠ 0 ∧ 24 ≤ (Int.tdiv offset 60).natAbs / 60 := by
      constructor
      · intro h0; exact hc (Or.inl h0)
      · by_contra h3; exact hc (Or.inr (by omega))
    rw [if_neg h1, if_pos h2] at h
    cases h
  have hyn : ((year.toNat : Nat) : Int) = year := by omega
  have hvn : Time.Valid (year.toNat : Int) month day hour minute second nano := by
    rw [hyn]; exact hv
  simp only [Time.parse, formatNano, text_ofChars, formatDateTime, appendInt_year year hy.1 hy.2,
    appendInt_two month (by omega), appendInt_two day hd2, appendInt_two hour (by omega),
    appendInt_two minute (by omega), appendInt_two second (by omega)]
  simp only [pad4, List.cons_append, List.nil_append, List.append_assoc, parseChars,
    num4_pad4 year.toNat (by omega), hyn, dif_pos hv,
    expect_getnum _ _ _ _ (show month < 100 by omega), expect_getnum _ _ _ _ hd2,
    expect_getnum _ _ _ _ (show hour < 100 by omega),
    expect_getnum _ _ _ _ (show minute < 100 by omega),
    expect_getnum _ _ _ _ (show second < 100 by omega),
    parseFrac_format nano offset hn, parseZone_format offset hz, dif_pos hvn]
  simp only [readBack, Option.some.injEq, Time.mk.injEq, hyn, and_self]

theorem readBack_of_minutes (t : Time) (h : t.offset % 60 = 0) : t.readBack = t := by
  obtain ⟨year, month, day, hour, minute, second, nano, offset, hv⟩ := t
  simp only [readBack, Time.mk.injEq, true_and, and_true]
  simp only at h
  rcases Int.le_total 0 offset with hp | hp
  · rw [Int.tdiv_eq_ediv hp (by decide)]
    omega
  · have hneg : Int.tdiv offset 60 = -((-offset) / 60) := by
      rw [← Int.neg_neg offset, Int.neg_tdiv, Int.tdiv_eq_ediv (by omega) (by decide)]
      simp
    rw [hneg]
    omega

end Time

/-! ## Documents: what reading back keeps -/

namespace Json

mutual
theorem readBack_valid : ∀ j : Json, valid j = true → readBack j = j
  | .null, _ => rfl
  | .bool _, _ => rfl
  | .num _ _, _ => rfl
  | .str s, h => by
    simp only [valid] at h
    simp only [readBack, readBack_of_valid s h]
  | .arr xs, h => by
    simp only [valid] at h
    simp only [readBack, readBackElems_valid xs h]
  | .obj ms, h => by
    simp only [valid] at h
    simp only [readBack, readBackMembers_valid ms h]
theorem readBackElems_valid : ∀ xs : List Json, validElems xs = true → readBackElems xs = xs
  | [], _ => rfl
  | x :: xs, h => by
    simp only [validElems, Bool.and_eq_true] at h
    simp only [readBackElems, readBack_valid x h.1, readBackElems_valid xs h.2]
theorem readBackMembers_valid :
    ∀ ms : List (GoString × Json), validMembers ms = true → readBackMembers ms = ms
  | [], _ => rfl
  | (k, v) :: ms, h => by
    simp only [validMembers, Bool.and_eq_true] at h
    simp only [readBackMembers, readBack_of_valid k h.1, readBack_valid v h.2.1,
      readBackMembers_valid ms h.2.2]
end

mutual
theorem finite_readBack : ∀ j : Json, finite (readBack j) = finite j
  | .null => rfl
  | .bool _ => rfl
  | .num _ _ => rfl
  | .str _ => rfl
  | .arr xs => by simp only [readBack, finite, finiteElems_readBack xs]
  | .obj ms => by simp only [readBack, finite, finiteMembers_readBack ms]
theorem finiteElems_readBack : ∀ xs : List Json, finiteElems (readBackElems xs) = finiteElems xs
  | [] => rfl
  | x :: xs => by
    simp only [readBackElems, finiteElems, finite_readBack x, finiteElems_readBack xs]
theorem finiteMembers_readBack :
    ∀ ms : List (GoString × Json), finiteMembers (readBackMembers ms) = finiteMembers ms
  | [] => rfl
  | (k, v) :: ms => by
    simp only [readBackMembers, finiteMembers, finite_readBack v, finiteMembers_readBack ms]
end

mutual
theorem validDoc_readBack : ∀ j : Json, valid (readBack j) = true
  | .null => rfl
  | .bool _ => rfl
  | .num _ _ => rfl
  | .str s => by simp only [readBack, valid, Scenextras.valid_readBack]
  | .arr xs => by simp only [readBack, valid, validElems_readBack xs]
  | .obj ms => by simp only [readBack, valid, validMembers_readBack ms]
theorem validElems_readBack : ∀ xs : List Json, validElems (readBackElems xs) = true
  | [] => rfl
  | x :: xs => by
    simp only [readBackElems, validElems, validDoc_readBack x, validElems_readBack xs, Bool.and_self]
theorem validMembers_readBack :
    ∀ ms : List (GoString × Json), validMembers (readBackMembers ms) = true
  | [] => rfl
  | (k, v) :: ms => by
    simp only [readBackMembers, validMembers, Scenextras.valid_readBack, validDoc_readBack v,
      validMembers_readBack ms, Bool.and_self]
end

theorem readBackMembers_append (a b : List (GoString × Json)) :
    readBackMembers (a ++ b) = readBackMembers a ++ readBackMembers b := by
  induction a with
  | nil => rfl
  | cons m ms ih =>
    obtain ⟨k, v⟩ := m
    simp only [List.cons_append, readBackMembers, List.append_eq, ih]

theorem finiteMembers_append (a b : List (GoString × Json)) :
    finiteMembers (a ++ b) = (finiteMembers a && finiteMembers b) := by
  induction a with
  | nil => simp [finiteMembers]
  | cons m ms ih =>
    obtain ⟨k, v⟩ := m
    simp only [List.cons_append, finiteMembers, List.append_eq, ih, Bool.and_assoc]

theorem validMembers_append (a b : List (GoString × Json)) :
    validMembers (a ++ b) = (validMembers a && validMembers b) := by
  induction a with
  | nil => simp [validMembers]
  | cons m ms ih =>
    obtain ⟨k, v⟩ := m
    simp only [List.cons_append, validMembers, List.append_eq, ih, Bool.and_assoc]

end Json

/-! ## The codec of `models`: a report decodes from its encoding -/

theorem decodeMembers_append {σ : Type} (f : σ → GoString → Json → Except String σ)
    (cur mid : σ) (l1 l2 : List (GoString × Json)) (h : decodeMembers f cur l1 = Except.ok mid) :
    decodeMembers f cur (l1 ++ l2) = decodeMembers f mid l2 := by
  induction l1 generalizing cur with
  | nil =>
    simp only [decodeMembers, Except.ok.injEq] at h
    subst h
    rfl
  | cons m ms ih =>
    obtain ⟨k, v⟩ := m
    simp only [List.cons_append, decodeMembers] at h ⊢
    cases hf : f cur k v with
    | error e => simp [hf] at h
    | ok next =>
      simp only [hf] at h ⊢
      exact ih next h

theorem decodeMembers_cons {σ : Type} (f : σ → GoString → Json → Except String σ)
    (cur next : σ) (k : GoString) (v : Json) (rest : List (GoString × Json))
    (h : f cur k v = Except.ok next) :
    decodeMembers f cur ((k, v) :: rest) = decodeMembers f next rest := by
  simp only [decodeMembers, h]

theorem decodeMembers_omitEmpty {σ : Type} (f : σ → GoString → Json → Except String σ)
    (cur next : σ) (key : String) (value : GoString) (rest : List (GoString × Json))
    (hset : f cur (go key) (Json.str value) = Except.ok next) (hempty : value = [] → next = cur) :
    decodeMembers f cur (omitEmpty key value ++ rest) = decodeMembers f next rest := by
  unfold omitEmpty
  by_cases h : value = []
  · simp only [h, if_true, List.nil_append, hempty h]
  · simp only [h, if_false, List.cons_append, List.nil_append]
    exact decodeMembers_cons f cur next (go key) _ rest hset

theorem userInfo_decode_toJson (u : UserInfo) :
    UserInfo.decode UserInfo.zero u.toJson = Except.ok u := by
  obtain ⟨a, b, c⟩ := u
  show decodeMembers UserInfo.setField UserInfo.zero
    (omitEmpty "userId" a ++ (omitEmpty "username" b ++ omitEmpty "email" c)) = _
  rw [decodeMembers_omitEmpty UserInfo.setField UserInfo.zero ⟨a, [], []⟩ "userId" a _ (by rfl)
    (by intro h; subst h; rfl)]
  rw [decodeMembers_omitEmpty UserInfo.setField ⟨a, [], []⟩ ⟨a, b, []⟩ "username" b _ (by rfl)
    (by intro h; subst h; rfl)]
  have := decodeMembers_omitEmpty UserInfo.setField ⟨a, b, []⟩ ⟨a, b, c⟩ "email" c [] (by rfl)
    (by intro h; subst h; rfl)
  rw [List.append_nil] at this
  rw [this]
  rfl

theorem deviceInfo_decode_toJson (d : DeviceInfo) :
    DeviceInfo.decode DeviceInfo.zero d.toJson = Except.ok d := by
  obtain ⟨a, b, c, e, f, g, h⟩ := d
  show decodeMembers DeviceInfo.setField DeviceInfo.zero
    ([(go "platform", Json.str a), (go "os", Json.str b), (go "osVersion", Json.str c),
      (go "appVersion", Json.str e), (go "buildNumber", Json.str f)] ++
      (omitEmpty "deviceModel" g ++ omitEmpty "manufacturer" h)) = _
  rw [decodeMembers_append DeviceInfo.setField DeviceInfo.zero ⟨a, b, c, e, f, [], []⟩
    [(go "platform", Json.str a), (go "os", Json.str b), (go "osVersion", Json.str c),
      (go "appVersion", Json.str e), (go "buildNumber", Json.str f)] _ (by rfl)]
  rw [decodeMembers_omitEmpty DeviceInfo.setField ⟨a, b, c, e, f, [], []⟩ ⟨a, b, c, e, f, g, []⟩
    "deviceModel" g _ rfl (by intro h; subst h; rfl)]
  have := decodeMembers_omitEmpty DeviceInfo.setField ⟨a, b, c, e, f, g, []⟩
    ⟨a, b, c, e, f, g, h⟩ "manufacturer" h [] rfl (by intro h; subst h; rfl)
  rw [List.append_nil] at this
  rw [this]
  rfl

theorem logEntry_decode_toJson (l : LogEntry) (hfin : l.finite = true) :
    LogEntry.decode LogEntry.zero l.toJson = Except.ok l.stored := by
  obtain ⟨a, b, c, ctx⟩ := l
  show decodeMembers LogEntry.setField LogEntry.zero
    ([(go "level", Json.str a), (go "message", Json.str b), (go "timestamp", Json.str c)] ++
      omitEmptyMap "context" ctx) = _
  rw [decodeMembers_append LogEntry.setField LogEntry.zero ⟨a, b, c, none⟩
    [(go "level", Json.str a), (go "message", Json.str b), (go "timestamp", Json.str c)] _ (by rfl)]
  rcases ctx with _ | _ | ⟨m, ms⟩
  · rfl
  · rfl
  · have hf : Json.finiteMembers (m :: ms) = true := hfin
    show decodeMembers LogEntry.setField _ [(go "context", Json.obj (m :: ms))] = _
    rw [decodeMembers_cons LogEntry.setField ⟨a, b, c, none⟩ ⟨a, b, c, some (m :: ms)⟩
      (go "context") _ []
      (by show setWith (decodeMap none (Json.obj (m :: ms))) _ = _
          simp only [decodeMap, hf, if_true]; rfl)]
    rfl

theorem decodeElems_strings (xs : List GoString) :
    decodeElems [] decodeString [] (xs.map Json.str) = Except.ok xs := by
  induction xs with
  | nil => rfl
  | cons x xs ih => simp only [List.map_cons, decodeElems, decodeString, ih]

theorem decodeElems_logs (ls : List LogEntry) (hfin : ∀ l ∈ ls, l.finite = true) :
    decodeElems LogEntry.zero LogEntry.decode [] (ls.map LogEntry.toJson) =
      Except.ok (ls.map LogEntry.stored) := by
  induction ls with
  | nil => rfl
  | cons l ls ih =>
    simp only [List.map_cons, decodeElems,
      logEntry_decode_toJson l (hfin l (List.mem_cons_self _ _)),
      ih (fun x hx => hfin x (List.mem_cons_of_mem _ hx))]

theorem decodeSlice_strings (nh : Option (List GoString)) :
    decodeSlice [] decodeString none (sliceJson Json.str nh) = Except.ok nh := by
  cases nh with
  | none => rfl
  | some xs => simp only [sliceJson, decodeSlice, Option.getD, decodeElems_strings]

theorem decodeSlice_logs (logs : Option (List LogEntry))
    (hfin : ∀ l ∈ logs.getD [], l.finite = true) :
    decodeSlice LogEntry.zero LogEntry.decode none (sliceJson LogEntry.toJson logs) =
      Except.ok (logs.map (fun ls => ls.map LogEntry.stored)) := by
  cases logs with
  | none => rfl
  | some ls =>
    simp only [sliceJson, decodeSlice, Option.getD, decodeElems_logs ls hfin, Option.map]

theorem decodePtr_userInfo (u : UserInfo) :
    decodePtr UserInfo.zero UserInfo.decode none u.toJson = Except.ok (some u) := by
  have h := userInfo_decode_toJson u
  unfold UserInfo.toJson at h ⊢
  simp only [decodePtr, Option.getD, h]

/-- At the level of documents, a report whose floats are finite and whose timestamp
`Time.MarshalJSON` accepts decodes from its encoding as it was, but for the empty context maps of
its log entries and the seconds of its zone offset. -/
theorem bugReport_decode_toJson (r : BugReport)
    (hfin : ∀ l ∈ r.Logs.getD [], l.finite = true) (hts : r.Timestamp.marshalErr = none) :
    BugReport.decode BugReport.zero r.toJson = Except.ok r.stored := by
  obtain ⟨id, title, desc, steps, route, nh, logs, dev, user, ts, trace, shot⟩ := r
  show decodeMembers BugReport.setField BugReport.zero
    ([(go "id", Json.str id), (go "title", Json.str title), (go "description", Json.str desc)] ++
      (omitEmpty "stepsToReproduce" steps ++
      ([(go "currentRoute", Json.str route), (go "navigationHistory", sliceJson Json.str nh),
        (go "logs", sliceJson LogEntry.toJson logs), (go "deviceInfo", dev.toJson)] ++
      (omitNil "userInfo" UserInfo.toJson user ++
      ([(go "timestamp", Json.str ts.formatNano)] ++
      (omitEmpty "traceId" trace ++ omitEmpty "screenshotUrl" shot)))))) = _
  rw [decodeMembers_append BugReport.setField BugReport.zero
    (⟨id, title, desc, [], [], none, none, DeviceInfo.zero, none, Time.zero, [], []⟩ : BugReport)
    [(go "id", Json.str id), (go "title", Json.str title), (go "description", Json.str desc)] _ (by rfl)]
  rw [decodeMembers_omitEmpty BugReport.setField (⟨id, title, desc, [], [], none, none, DeviceInfo.zero, none, Time.zero, [], []⟩ : BugReport)
    (⟨id, title, desc, steps, [], none, none, DeviceInfo.zero, none, Time.zero, [], []⟩ : BugReport) "stepsToReproduce" steps _ (by rfl)
    (by intro h; subst h; rfl)]
  rw [List.cons_append, decodeMembers_cons BugReport.setField (⟨id, title, desc, steps, [], none, none, DeviceInfo.zero, none, Time.zero, [], []⟩ : BugReport)
    (⟨id, title, desc, steps, route, none, none, DeviceInfo.zero, none, Time.zero, [], []⟩ : BugReport) "currentRoute" (Json.str route) _ (by rfl)]
  rw [List.cons_append, decodeMembers_cons BugReport.setField (⟨id, title, desc, steps, route, none, none, DeviceInfo.zero, none, Time.zero, [], []⟩ : BugReport)
    (⟨id, title, desc, steps, route, nh, none, DeviceInfo.zero, none, Time.zero, [], []⟩ : BugReport) "navigationHistory" _ _
    (by show setWith (decodeSlice [] decodeString none (sliceJson Json.str nh)) _ = _
        rw [decodeSlice_strings]; rfl)]
  rw [List.cons_append, decodeMembers_cons BugReport.setField (⟨id, title, desc, steps, route, nh, none, DeviceInfo.zero, none, Time.zero, [], []⟩ : BugReport)
    (⟨id, title, desc, steps, route, nh, (Option.map (fun (ls : List LogEntry) => List.map LogEntry.stored ls) logs), DeviceInfo.zero, none, Time.zero, [], []⟩ : BugReport) "logs" _ _
    (by show setWith (decodeSlice LogEntry.zero LogEntry.decode none
          (sliceJson LogEntry.toJson logs)) _ = _
        rw [decodeSlice_logs logs hfin]; rfl)]
  rw [List.cons_append, decodeMembers_cons BugReport.setField (⟨id, title, desc, steps, route, nh, (Option.map (fun (ls : List LogEntry) => List.map LogEntry.stored ls) logs), DeviceInfo.zero, none, Time.zero, [], []⟩ : BugReport)
    (⟨id, title, desc, steps, route, nh, (Option.map (fun (ls : List LogEntry) => List.map LogEntry.stored ls) logs), dev, none, Time.zero, [], []⟩ : BugReport) "deviceInfo" _ _
    (by show setWith (DeviceInfo.decode DeviceInfo.zero dev.toJson) _ = _
        rw [deviceInfo_decode_toJson]; rfl)]
  rw [List.nil_append]
  have huser : decodeMembers BugReport.setField (⟨id, title, desc, steps, route, nh, (Option.map (fun (ls : List LogEntry) => List.map LogEntry.stored ls) logs), dev, none, Time.zero, [], []⟩ : BugReport)
      (omitNil "userInfo" UserInfo.toJson user) = Except.ok (⟨id, title, desc, steps, route, nh, (Option.map (fun (ls : List LogEntry) => List.map LogEntry.stored ls) logs), dev, user, Time.zero, [], []⟩ : BugReport) := by
    cases user with
    | none => rfl
    | some u =>
      show decodeMembers BugReport.setField _ [(go "userInfo", u.toJson)] = _
      rw [decodeMembers_cons BugReport.setField _ _ "userInfo" _ []
        (by show setWith (decodePtr UserInfo.zero UserInfo.decode none u.toJson) _ = _
            rw [decodePtr_userInfo]; rfl)]
      rfl
  rw [decodeMembers_append BugReport.setField _ _ _ _ huser]
  rw [List.cons_append, decodeMembers_cons BugReport.setField (⟨id, title, desc, steps, route, nh, (Option.map (fun (ls : List LogEntry) => List.map LogEntry.stored ls) logs), dev, user, Time.zero, [], []⟩ : BugReport)
    (⟨id, title, desc, steps, route, nh, (Option.map (fun (ls : List LogEntry) => List.map LogEntry.stored ls) logs), dev, user, ts.readBack, [], []⟩ : BugReport) "timestamp" _ _
    (by show setWith (decodeTime Time.zero (Json.str ts.formatNano)) _ = _
        simp only [decodeTime, Time.parse_formatNano ts hts]; rfl)]
  rw [List.nil_append]
  rw [decodeMembers_omitEmpty BugReport.setField (⟨id, title, desc, steps, route, nh, (Option.map (fun (ls : List LogEntry) => List.map LogEntry.stored ls) logs), dev, user, ts.readBack, [], []⟩ : BugReport)
    (⟨id, title, desc, steps, route, nh, (Option.map (fun (ls : List LogEntry) => List.map LogEntry.stored ls) logs), dev, user, ts.readBack, trace, []⟩ : BugReport) "traceId" trace _ (by rfl)
    (by intro h; subst h; rfl)]
  have hlast := decodeMembers_omitEmpty BugReport.setField (⟨id, title, desc, steps, route, nh, (Option.map (fun (ls : List LogEntry) => List.map LogEntry.stored ls) logs), dev, user, ts.readBack, trace, []⟩ : BugReport)
    (⟨id, title, desc, steps, route, nh, (Option.map (fun (ls : List LogEntry) => List.map LogEntry.stored ls) logs), dev, user, ts.readBack, trace, shot⟩ : BugReport) "screenshotUrl" shot [] (by rfl) (by intro h; subst h; rfl)
  rw [List.append_nil] at hlast
  rw [hlast]
  rfl

/-! ### What reading back does to the encoding of a report -/

theorem readBackMembers_omitEmpty (key : String) (value : GoString) :
    Json.readBackMembers (omitEmpty key value) = omitEmpty key (GoString.readBack value) := by
  unfold omitEmpty
  by_cases h : value = []
  · subst h
    rfl
  · have h2 : GoString.readBack value ≠ [] := fun hc => h ((readBack_eq_nil value).mp hc)
    simp only [h, h2, if_false, Json.readBackMembers, Json.readBack, readBack_go]

theorem readBackMembers_omitEmptyMap (key : String) (ctx : Option (List (GoString × Json))) :
    Json.readBackMembers (omitEmptyMap key ctx) =
      omitEmptyMap key (ctx.map Json.readBackMembers) := by
  rcases ctx with _ | _ | ⟨⟨k, v⟩, ms⟩
  · rfl
  · rfl
  · simp only [omitEmptyMap, Option.map_some', Json.readBackMembers, Json.readBack, readBack_go]

theorem readBackElems_strings (xs : List GoString) :
    Json.readBackElems (xs.map Json.str) = (xs.map GoString.readBack).map Json.str := by
  induction xs with
  | nil => rfl
  | cons x xs ih => simp only [List.map_cons, Json.readBackElems, Json.readBack, ih]

theorem logEntry_readBack_toJson (l : LogEntry) :
    Json.readBack l.toJson = l.readBack.toJson := by
  obtain ⟨a, b, c, ctx⟩ := l
  simp only [LogEntry.toJson, LogEntry.readBack, Json.readBack, Json.readBackMembers_append,
    Json.readBackMembers, readBackMembers_omitEmptyMap, readBack_go, List.append_eq,
    List.nil_append, List.cons_append]

theorem readBackElems_logs (ls : List LogEntry) :
    Json.readBackElems (ls.map LogEntry.toJson) = (ls.map LogEntry.readBack).map LogEntry.toJson := by
  induction ls with
  | nil => rfl
  | cons l ls ih =>
    simp only [List.map_cons, Json.readBackElems, logEntry_readBack_toJson, ih]

theorem deviceInfo_readBack_toJson (d : DeviceInfo) :
    Json.readBack d.toJson = d.readBack.toJson := by
  obtain ⟨a, b, c, e, f, g, h⟩ := d
  simp only [DeviceInfo.toJson, DeviceInfo.readBack, Json.readBack, Json.readBackMembers_append,
    Json.readBackMembers, readBackMembers_omitEmpty, readBack_go, List.append_eq,
    List.nil_append, List.cons_append]

theorem userInfo_readBack_toJson (u : UserInfo) :
    Json.readBack u.toJson = u.readBack.toJson := by
  obtain ⟨a, b, c⟩ := u
  simp only [UserInfo.toJson, UserInfo.readBack, Json.readBack, Json.readBackMembers_append,
    readBackMembers_omitEmpty]

theorem formatNano_readBack (t : Time) : GoString.readBack t.formatNano = t.formatNano :=
  readBack_of_valid _ (valid_ofChars _)

/-- The document read from the text of a report is the encoding of the report with its strings
read back. -/
theorem bugReport_readBack_toJson (r : BugReport) :
    Json.readBack r.toJson = r.readBack.toJson := by
  obtain ⟨id, title, desc, steps, route, nh, logs, dev, user, ts, trace, shot⟩ := r
  have hnh : Json.readBack (sliceJson Json.str nh) =
      sliceJson Json.str (nh.map (fun xs => xs.map GoString.readBack)) := by
    cases nh with
    | none => rfl
    | some xs => simp only [sliceJson, Json.readBack, readBackElems_strings, Option.map_some']
  have hlogs : Json.readBack (sliceJson LogEntry.toJson logs) =
      sliceJson LogEntry.toJson (logs.map (fun ls => ls.map LogEntry.readBack)) := by
    cases logs with
    | none => rfl
    | some ls => simp only [sliceJson, Json.readBack, readBackElems_logs, Option.map_some']
  have huser : Json.readBackMembers (omitNil "userInfo" UserInfo.toJson user) =
      omitNil "userInfo" UserInfo.toJson (user.map UserInfo.readBack) := by
    cases user with
    | none => rfl
    | some u =>
      simp only [omitNil, Option.map_some', Json.readBackMembers, userInfo_readBack_toJson,
        readBack_go]
  have hobj : ∀ ms, Json.readBack (Json.obj ms) = Json.obj (Json.readBackMembers ms) :=
    fun ms => by simp only [Json.readBack]
  have hstr : ∀ s, Json.readBack (Json.str s) = Json.str (GoString.readBack s) :=
    fun s => by simp only [Json.readBack]
  simp only [BugReport.toJson, BugReport.readBack, hobj, hstr, Json.readBackMembers_append,
    Json.readBackMembers, readBackMembers_omitEmpty, readBack_go, hnh, hlogs, huser,
    deviceInfo_readBack_toJson, formatNano_readBack, List.append_eq, List.nil_append,
    List.cons_append]

theorem logEntry_finite_readBack (l : LogEntry) : l.readBack.finite = l.finite := by
  obtain ⟨a, b, c, ctx⟩ := l
  cases ctx with
  | none => rfl
  | some ms =>
    simp only [LogEntry.finite, LogEntry.readBack, Option.map_some', Option.getD_some,
      Json.finiteMembers_readBack]

theorem marshalErr_none (r : BugReport) (h : r.marshalErr = none) :
    (∀ l ∈ r.Logs.getD [], l.finite = true) ∧ r.Timestamp.marshalErr = none := by
  unfold BugReport.marshalErr logsMarshalErr at h
  by_cases hf : (r.Logs.getD []).all LogEntry.finite = true
  · simp only [hf, if_true] at h
    refine ⟨by simpa using hf, ?_⟩
    cases ht : r.Timestamp.marshalErr with
    | none => rfl
    | some e => simp [ht] at h
  · simp [hf] at h

/-- What `GetReport` decodes from the bytes `SaveReport` writes for a report, when
`json.MarshalIndent` returns no error and the document nests no deeper than the decoder admits:
the report with its strings read back, as stored. -/
theorem unmarshal_marshalIndent (r : BugReport) (herr : r.marshalErr = none)
    (hdepth : Json.depth r.toJson ≤ Json.maxNestingDepth) :
    ∃ text, MarshalIndent r.marshalErr r.toJson = Except.ok text ∧
      Unmarshal BugReport.decode text BugReport.zero = Except.ok r.readBack.stored := by
  obtain ⟨hfin, hts⟩ := marshalErr_none r herr
  refine ⟨GoString.ofChars (Json.render 0 r.toJson), by simp only [MarshalIndent, herr], ?_⟩
  have hfin2 : ∀ l ∈ r.readBack.Logs.getD [], l.finite = true := by
    intro l hl
    cases hlogs : r.Logs with
    | none => simp [BugReport.readBack, hlogs] at hl
    | some ls =>
      simp only [BugReport.readBack, hlogs, Option.map_some', Option.getD_some,
        List.mem_map] at hl
      obtain ⟨l0, hl0, rfl⟩ := hl
      rw [logEntry_finite_readBack]
      exact hfin l0 (by simp [hlogs, hl0])
  simp only [Unmarshal, Json.parse_render r.toJson hdepth, bugReport_readBack_toJson]
  exact bugReport_decode_toJson r.readBack hfin2 hts

/-! ## The round trip through storage -/

theorem logEntry_stored_fields (l : LogEntry) :
    l.stored.Level = l.Level ∧ l.stored.Message = l.Message ∧
      l.stored.Timestamp = l.Timestamp ∧ (l.Context ≠ some [] → l.stored = l) := by
  obtain ⟨a, b, c, ctx⟩ := l
  rcases ctx with _ | _ | ⟨m, ms⟩
  · exact ⟨rfl, rfl, rfl, fun _ => rfl⟩
  · exact ⟨rfl, rfl, rfl, fun h => absurd rfl h⟩
  · exact ⟨rfl, rfl, rfl, fun _ => rfl⟩

theorem map_readBack_of_valid (xs : List GoString) (h : xs.all GoString.valid = true) :
    xs.map GoString.readBack = xs := by
  induction xs with
  | nil => rfl
  | cons x xs ih =>
    simp only [List.all_cons, Bool.and_eq_true] at h
    simp only [List.map_cons, readBack_of_valid x h.1, ih h.2]

theorem logEntry_readBack_of_valid (l : LogEntry) (h : l.valid = true) : l.readBack = l := by
  obtain ⟨a, b, c, ctx⟩ := l
  simp only [LogEntry.valid, Bool.and_eq_true] at h
  obtain ⟨⟨⟨h1, h2⟩, h3⟩, h4⟩ := h
  cases ctx with
  | none => simp only [LogEntry.readBack, readBack_of_valid _ h1, readBack_of_valid _ h2,
      readBack_of_valid _ h3, Option.map_none']
  | some ms =>
    simp only [Option.getD_some] at h4
    simp only [LogEntry.readBack, readBack_of_valid _ h1, readBack_of_valid _ h2,
      readBack_of_valid _ h3, Option.map_some', Json.readBackMembers_valid ms h4]

theorem map_logEntry_readBack (ls : List LogEntry) (h : ls.all LogEntry.valid = true) :
    ls.map LogEntry.readBack = ls := by
  induction ls with
  | nil => rfl
  | cons x xs ih =>
    simp only [List.all_cons, Bool.and_eq_true] at h
    simp only [List.map_cons, logEntry_readBack_of_valid x h.1, ih h.2]

theorem deviceInfo_readBack_of_valid (d : DeviceInfo) (h : d.valid = true) : d.readBack = d := by
  obtain ⟨a, b, c, e, f, g, i⟩ := d
  simp only [DeviceInfo.valid, Bool.and_eq_true] at h
  obtain ⟨⟨⟨⟨⟨⟨h1, h2⟩, h3⟩, h4⟩, h5⟩, h6⟩, h7⟩ := h
  simp only [DeviceInfo.readBack, readBack_of_valid _ h1, readBack_of_valid _ h2,
    readBack_of_valid _ h3, readBack_of_valid _ h4, readBack_of_valid _ h5,
    readBack_of_valid _ h6, readBack_of_valid _ h7]

theorem userInfo_readBack_of_valid (u : UserInfo) (h : u.valid = true) : u.readBack = u := by
  obtain ⟨a, b, c⟩ := u
  simp only [UserInfo.valid, Bool.and_eq_true] at h
  obtain ⟨⟨h1, h2⟩, h3⟩ := h
  simp only [UserInfo.readBack, readBack_of_valid _ h1, readBack_of_valid _ h2,
    readBack_of_valid _ h3]

/-- A report whose strings are valid UTF-8 keeps them through the round trip. -/
theorem bugReport_readBack_of_valid (r : BugReport) (h : r.valid = true) : r.readBack = r := by
  obtain ⟨id, title, desc, steps, route, nh, logs, dev, user, ts, trace, shot⟩ := r
  simp only [BugReport.valid, Bool.and_eq_true] at h
  obtain ⟨⟨⟨⟨⟨⟨⟨⟨⟨⟨h1, h2⟩, h3⟩, h4⟩, h5⟩, h6⟩, h7⟩, h8⟩, h9⟩, h10⟩, h11⟩ := h
  have hnh : nh.map (fun xs => xs.map GoString.readBack) = nh := by
    cases nh with
    | none => rfl
    | some xs => simp only [Option.map_some', map_readBack_of_valid xs h6]
  have hlogs : logs.map (fun ls => ls.map LogEntry.readBack) = logs := by
    cases logs with
    | none => rfl
    | some ls => simp only [Option.map_some', map_logEntry_readBack ls h7]
  have huser : user.map UserInfo.readBack = user := by
    cases user with
    | none => rfl
    | some u => simp only [Option.map_some', userInfo_readBack_of_valid u h9]
  simp only [BugReport.readBack, readBack_of_valid _ h1, readBack_of_valid _ h2,
    readBack_of_valid _ h3, readBack_of_valid _ h4, readBack_of_valid _ h5,
    readBack_of_valid _ h10, readBack_of_valid _ h11, hnh, hlogs, huser,
    deviceInfo_readBack_of_valid dev h8]

namespace Time

theorem marshalErr_of_range (t : Time) (hyear : 0 ≤ t.year ∧ t.year ≤ 9999)
    (hzone : -86400 < t.offset ∧ t.offset < 86400) : t.marshalErr = none := by
  have hn : (Int.tdiv t.offset 60).natAbs = t.offset.natAbs / 60 := Int.natAbs_tdiv t.offset 60
  have h1 : ¬ (t.year < 0 ∨ 9999 < t.year) := by omega
  have h2 : ¬ (t.offset ≠ 0 ∧ 24 ≤ (Int.tdiv t.offset 60).natAbs / 60) := by
    rw [hn]
    omega
  simp only [marshalErr, h1, h2, if_false]

end Time

theorem bugReport_marshalErr_none (r : BugReport)
    (hfinite : ∀ l ∈ r.Logs.getD [], l.finite = true) (hts : r.Timestamp.marshalErr = none) :
    r.marshalErr = none := by
  have hf : (r.Logs.getD []).all LogEntry.finite = true := by simpa using hfinite
  simp only [BugReport.marshalErr, logsMarshalErr, hf, if_true, hts]

/-- C5 (amended): for every report whose timestamp has a year from 0 to 9999 and a zone offset
of whole minutes under 24 hours, whose strings are valid UTF-8, whose context maps hold finite
numbers only, and whose JSON document nests no deeper than the decoder admits,
`json.MarshalIndent` (as `SaveReport` calls it for metadata.json) returns no error, decoding its
bytes as `GetReport` does succeeds, and the report read back has the id, title, description,
stepsToReproduce, currentRoute, navigationHistory, deviceInfo, userInfo, timestamp, traceId and
screenshotUrl of the original; its logs are those of the original, as many and in the same
order, each with the same level, message and timestamp, and the same context unless that was an
empty map; it is the original itself when no log entry has an empty context map. -/
theorem report_storage_roundtrip (r : BugReport)
    (hyear : 0 ≤ r.Timestamp.year ∧ r.Timestamp.year ≤ 9999)
    (hzone : -86400 < r.Timestamp.offset ∧ r.Timestamp.offset < 86400)
    (hminutes : r.Timestamp.offset % 60 = 0)
    (hutf8 : r.valid = true)
    (hfinite : ∀ l ∈ r.Logs.getD [], l.finite = true)
    (hdepth : Json.depth r.toJson ≤ Json.maxNestingDepth) :
    ∃ text back, MarshalIndent r.marshalErr r.toJson = Except.ok text ∧
      Unmarshal BugReport.decode text BugReport.zero = Except.ok back ∧
      back.ID = r.ID ∧ back.Title = r.Title ∧ back.Description = r.Description ∧
      back.StepsToReproduce = r.StepsToReproduce ∧ back.CurrentRoute = r.CurrentRoute ∧
      back.NavigationHistory = r.NavigationHistory ∧ back.DeviceInfo = r.DeviceInfo ∧
      back.UserInfo = r.UserInfo ∧ back.Timestamp = r.Timestamp ∧
      back.Timestamp.unixNano = r.Timestamp.unixNano ∧ back.TraceID = r.TraceID ∧
      back.ScreenshotURL = r.ScreenshotURL ∧
      back.Logs = r.Logs.map (fun ls => ls.map LogEntry.stored) ∧
      (back.Logs.getD []).length = (r.Logs.getD []).length ∧
      (∀ l : LogEntry, l.stored.Level = l.Level ∧ l.stored.Message = l.Message ∧
        l.stored.Timestamp = l.Timestamp ∧ (l.Context ≠ some [] → l.stored = l)) ∧
      ((∀ l ∈ r.Logs.getD [], l.Context ≠ some []) → back = r) := by
  have herr := bugReport_marshalErr_none r hfinite (Time.marshalErr_of_range _ hyear hzone)
  obtain ⟨text, hm, hu⟩ := unmarshal_marshalIndent r herr hdepth
  rw [bugReport_readBack_of_valid r hutf8] at hu
  have hts : r.Timestamp.readBack = r.Timestamp := Time.readBack_of_minutes _ hminutes
  refine ⟨text, r.stored, hm, hu, rfl, rfl, rfl, rfl, rfl, rfl, rfl, rfl, hts, by rw [← hts]; rfl,
    rfl, rfl, rfl, ?_, logEntry_stored_fields, ?_⟩
  · cases h : r.Logs with
    | none => simp [BugReport.stored, h]
    | some ls => simp [BugReport.stored, h]
  · intro hne
    obtain ⟨id, title, desc, steps, route, nh, logs, dev, user, ts, trace, shot⟩ := r
    simp only [BugReport.stored, BugReport.mk.injEq, true_and, and_true]
    refine ⟨?_, hts⟩
    cases logs with
    | none => rfl
    | some ls =>
      simp only [Option.map_some', Option.some.injEq]
      simp only [Option.getD_some] at hne
      conv => rhs; rw [← List.map_id ls]
      apply List.map_congr_left
      intro l hl
      exact (logEntry_stored_fields l).2.2.2 (hne l hl)

/-! ## What the decoders yield is valid UTF-8, and finite -/

namespace Json

theorem parseNumber_valid (cs : List Char) (j : Json) (r : List Char)
    (h : parseNumber cs = some (j, r)) : valid j = true := by
  have hu : ∀ neg cs, parseUnsigned neg cs = some (j, r) → valid j = true := by
    intro neg cs hu
    unfold parseUnsigned at hu
    split_ifs at hu <;>
    · split at hu
      · cases hu
      · split at hu
        · cases hu
        · simp only [Option.some.injEq, Prod.mk.injEq] at hu
          rw [← hu.1]
          rfl
  cases cs with
  | nil => simp [parseNumber] at h
  | cons c cs =>
    simp only [parseNumber] at h
    split_ifs at h
    · exact hu _ _ h
    · exact hu _ _ h

theorem mapFst_some {α β γ : Type} (f : α → γ) (o : Option (α × β)) (c : γ) (b : β)
    (h : mapFst f o = some (c, b)) : ∃ a, o = some (a, b) ∧ c = f a := by
  cases o with
  | none => simp [mapFst] at h
  | some p =>
    obtain ⟨a, b2⟩ := p
    simp only [mapFst, Option.some.injEq, Prod.mk.injEq] at h
    exact ⟨a, by rw [h.2], h.1.symm⟩

theorem parse_valid_aux (fuel : Nat) :
    (∀ (depth : Nat) (cs : List Char) (j : Json) (r : List Char),
      parseValue fuel depth cs = some (j, r) → valid j = true) ∧
    (∀ (depth : Nat) (cs : List Char) (js : List Json) (r : List Char),
      parseElems fuel depth cs = some (js, r) → validElems js = true) ∧
    (∀ (depth : Nat) (cs : List Char) (ms : List (GoString × Json)) (r : List Char),
      parseMembers fuel depth cs = some (ms, r) → validMembers ms = true) := by
  induction fuel with
  | zero =>
    refine ⟨?_, ?_, ?_⟩
    · intro depth cs j r h; simp [parseValue] at h
    · intro depth cs js r h; simp [parseElems] at h
    · intro depth cs ms r h; simp [parseMembers] at h
  | succ f ih =>
    obtain ⟨ihV, ihE, ihM⟩ := ih
    refine ⟨?_, ?_, ?_⟩
    · intro depth cs j r h
      unfold parseValue at h
      split at h
      · cases h
      · split_ifs at h with h1 h2 h3 h4 h5 h6 h7 h8
        · simp only [parseLiteral] at h
          split_ifs at h
          simp only [Option.some.injEq, Prod.mk.injEq] at h
          rw [← h.1]; rfl
        · simp only [parseLiteral] at h
          split_ifs at h
          simp only [Option.some.injEq, Prod.mk.injEq] at h
          rw [← h.1]; rfl
        · simp only [parseLiteral] at h
          split_ifs at h
          simp only [Option.some.injEq, Prod.mk.injEq] at h
          rw [← h.1]; rfl
        · obtain ⟨s, _, hj⟩ := mapFst_some _ _ _ _ h
          rw [hj]
          simp only [valid, valid_ofChars]
        · split at h
          · cases h
          · split_ifs at h
            · simp only [Option.some.injEq, Prod.mk.injEq] at h
              rw [← h.1]; rfl
            · obtain ⟨js, hjs, hj⟩ := mapFst_some _ _ _ _ h
              rw [hj]
              simp only [valid]
              exact ihE _ _ _ _ hjs
        · split at h
          · cases h
          · split_ifs at h
            · simp only [Option.some.injEq, Prod.mk.injEq] at h
              rw [← h.1]; rfl
            · obtain ⟨ms, hms, hj⟩ := mapFst_some _ _ _ _ h
              rw [hj]
              simp only [valid]
              exact ihM _ _ _ _ hms
        · exact parseNumber_valid _ _ _ h
    · intro depth cs js r h
      unfold parseElems at h
      split at h
      · cases h
      · rename_i v r1 hv
        split at h
        · cases h
        · split_ifs at h
          · obtain ⟨vs, hvs, hj⟩ := mapFst_some _ _ _ _ h
            rw [hj]
            simp only [validElems, ihV _ _ _ _ hv, ihE _ _ _ _ hvs, Bool.and_self]
          · simp only [Option.some.injEq, Prod.mk.injEq] at h
            rw [← h.1]
            simp only [validElems, ihV _ _ _ _ hv, Bool.and_self]
    · intro depth cs ms r h
      unfold parseMembers at h
      split at h
      · cases h
      · split_ifs at h
        split at h
        · cases h
        · split at h
          · cases h
          · split_ifs at h
            split at h
            · cases h
            · rename_i v r4 hv
              split at h
              · cases h
              · split_ifs at h
                · obtain ⟨ms2, hms, hj⟩ := mapFst_some _ _ _ _ h
                  rw [hj]
                  simp only [validMembers, valid_ofChars, ihV _ _ _ _ hv, ihM _ _ _ _ hms,
                    Bool.and_self]
                · simp only [Option.some.injEq, Prod.mk.injEq] at h
                  rw [← h.1]
                  simp only [validMembers, valid_ofChars, ihV _ _ _ _ hv, Bool.and_self]

/-- Every string of a parsed document is valid UTF-8. -/
theorem parse_valid (data : GoString) (j : Json) (h : Json.parse data = some j) :
    valid j = true := by
  unfold Json.parse at h
  split at h
  · rename_i v r hv
    split_ifs at h
    simp only [Option.some.injEq] at h
    rw [← h]
    exact (parse_valid_aux _).1 _ _ _ _ hv
  · cases h

end Json

theorem validMembers_values (ms : List (GoString × Json)) (h : Json.validMembers ms = true) :
    ∀ m ∈ ms, Json.valid m.2 = true := by
  induction ms with
  | nil => intro m hm; simp at hm
  | cons x xs ih =>
    obtain ⟨k, v⟩ := x
    simp only [Json.validMembers, Bool.and_eq_true] at h
    intro m hm
    rcases List.mem_cons.mp hm with hm | hm
    · rw [hm]; exact h.2.1
    · exact ih h.2.2 m hm

theorem decodeMembers_invariant {σ : Type} (f : σ → GoString → Json → Except String σ)
    (P : σ → Prop) (Q : Json → Prop)
    (hstep : ∀ cur k v next, f cur k v = Except.ok next → P cur → Q v → P next) :
    ∀ (ms : List (GoString × Json)) (cur out : σ), decodeMembers f cur ms = Except.ok out →
      P cur → (∀ m ∈ ms, Q m.2) → P out := by
  intro ms
  induction ms with
  | nil =>
    intro cur out h hc _
    simp only [decodeMembers, Except.ok.injEq] at h
    rw [← h]; exact hc
  | cons m ms ih =>
    obtain ⟨k, v⟩ := m
    intro cur out h hc hq
    simp only [decodeMembers] at h
    cases hf : f cur k v with
    | error e => simp [hf] at h
    | ok next =>
      simp only [hf] at h
      exact ih next out h (hstep cur k v next hf hc (hq (k, v) (List.mem_cons_self _ _)))
        (fun m hm => hq m (List.mem_cons_of_mem _ hm))

theorem decodeStruct_invariant {σ : Type} (f : σ → GoString → Json → Except String σ)
    (P : σ → Prop) (Q : Json → Prop)
    (hstep : ∀ cur k v next, f cur k v = Except.ok next → P cur → Q v → P next)
    (cur out : σ) (j : Json) (h : decodeStruct f cur j = Except.ok out) (hc : P cur)
    (hq : ∀ ms, j = Json.obj ms → ∀ m ∈ ms, Q m.2) : P out := by
  cases j with
  | null =>
    simp only [decodeStruct, Except.ok.injEq] at h
    rw [← h]; exact hc
  | obj ms => exact decodeMembers_invariant f P Q hstep ms cur out h hc (hq ms rfl)
  | bool b => simp [decodeStruct] at h
  | num m e => simp [decodeStruct] at h
  | str s => simp [decodeStruct] at h
  | arr xs => simp [decodeStruct] at h

theorem decodeString_valid (cur s : GoString) (v : Json)
    (h : decodeString cur v = Except.ok s) (hc : GoString.valid cur = true)
    (hv : Json.valid v = true) : GoString.valid s = true := by
  cases v with
  | null =>
    simp only [decodeString, Except.ok.injEq] at h
    rw [← h]; exact hc
  | str t =>
    simp only [decodeString, Except.ok.injEq] at h
    rw [← h]; exact hv
  | bool b => simp [decodeString] at h
  | num m e => simp [decodeString] at h
  | arr xs => simp [decodeString] at h
  | obj ms => simp [decodeString] at h

theorem setWith_ok {σ α : Type} (r : Except String α) (put : α → σ) (out : σ)
    (h : setWith r put = Except.ok out) : ∃ a, r = Except.ok a ∧ out = put a := by
  cases r with
  | error e => simp [setWith] at h
  | ok a =>
    simp only [setWith, Except.ok.injEq] at h
    exact ⟨a, rfl, h.symm⟩

theorem deviceInfo_setField_valid (d : DeviceInfo) (k : GoString) (v : Json) (next : DeviceInfo)
    (h : DeviceInfo.setField d k v = Except.ok next) (hd : d.valid = true)
    (hv : Json.valid v = true) : next.valid = true := by
  obtain ⟨a, b, c, e, f, g, i⟩ := d
  simp only [DeviceInfo.valid, Bool.and_eq_true] at hd
  obtain ⟨⟨⟨⟨⟨⟨h1, h2⟩, h3⟩, h4⟩, h5⟩, h6⟩, h7⟩ := hd
  unfold DeviceInfo.setField at h
  split_ifs at h
  all_goals first
    | (obtain ⟨s, hs, rfl⟩ := setWith_ok _ _ _ h
       have hsv := decodeString_valid _ _ _ hs (by assumption) hv
       simp only [DeviceInfo.valid, Bool.and_eq_true]
       exact ⟨⟨⟨⟨⟨⟨by assumption, by assumption⟩, by assumption⟩, by assumption⟩,
         by assumption⟩, by assumption⟩, by assumption⟩)
    | (simp only [Except.ok.injEq] at h
       rw [← h]
       simp only [DeviceInfo.valid, Bool.and_eq_true]
       exact ⟨⟨⟨⟨⟨⟨h1, h2⟩, h3⟩, h4⟩, h5⟩, h6⟩, h7⟩)

/-- A `DeviceInfo` decoded from a JSON text has valid UTF-8 in every string. -/
theorem unmarshal_deviceInfo_valid (data : GoString) (dev : DeviceInfo)
    (h : Unmarshal DeviceInfo.decode data DeviceInfo.zero = Except.ok dev) :
    dev.valid = true := by
  unfold Unmarshal at h
  cases hp : Json.parse data with
  | none => simp [hp] at h
  | some j =>
    simp only [hp] at h
    have hj := Json.parse_valid data j hp
    refine decodeStruct_invariant DeviceInfo.setField (fun d => d.valid = true)
      (fun v => Json.valid v = true) deviceInfo_setField_valid DeviceInfo.zero dev j h rfl ?_
    intro ms hms
    rw [hms] at hj
    exact validMembers_values ms (by simpa [Json.valid] using hj)

theorem logEntry_setField_finite (l : LogEntry) (k : GoString) (v : Json) (next : LogEntry)
    (h : LogEntry.setField l k v = Except.ok next) (hl : l.finite = true) :
    next.finite = true := by
  obtain ⟨a, b, c, ctx⟩ := l
  unfold LogEntry.setField at h
  split_ifs at h
  · obtain ⟨s, _, rfl⟩ := setWith_ok _ _ _ h
    exact hl
  · obtain ⟨s, _, rfl⟩ := setWith_ok _ _ _ h
    exact hl
  · obtain ⟨s, _, rfl⟩ := setWith_ok _ _ _ h
    exact hl
  · obtain ⟨m, hm, rfl⟩ := setWith_ok _ _ _ h
    cases v with
    | null =>
      simp only [decodeMap, Except.ok.injEq] at hm
      rw [← hm]; rfl
    | obj ms =>
      simp only [decodeMap] at hm
      split_ifs at hm with hf
      simp only [Except.ok.injEq] at hm
      rw [← hm]
      simp only [LogEntry.finite, Option.getD_some, Json.finiteMembers_append, Bool.and_eq_true]
      exact ⟨hl, hf⟩
    | bool b => simp [decodeMap] at hm
    | num m e => simp [decodeMap] at hm
    | str s => simp [decodeMap] at hm
    | arr xs => simp [decodeMap] at hm
  · simp only [Except.ok.injEq] at h
    rw [← h]; exact hl

theorem logEntry_decode_finite (cur out : LogEntry) (j : Json)
    (h : LogEntry.decode cur j = Except.ok out) (hc : cur.finite = true) :
    out.finite = true :=
  decodeStruct_invariant LogEntry.setField (fun l => l.finite = true) (fun _ => True)
    (fun cur k v next hs hc _ => logEntry_setField_finite cur k v next hs hc) cur out j h hc
    (fun _ _ _ _ => trivial)

theorem decodeElems_invariant {α : Type} (zero : α) (dec : Decoder α) (P : α → Prop)
    (hzero : P zero) (hdec : ∀ c x a, dec c x = Except.ok a → P c → P a) :
    ∀ (docs : List Json) (cur out : List α), decodeElems zero dec cur docs = Except.ok out →
      (∀ c ∈ cur, P c) → ∀ a ∈ out, P a := by
  intro docs
  induction docs with
  | nil =>
    intro cur out h _ a ha
    cases cur <;> simp [decodeElems] at h <;> subst h <;> simp at ha
  | cons x xs ih =>
    intro cur out h hcur a ha
    cases cur with
    | nil =>
      unfold decodeElems at h
      cases hx : dec zero x with
      | error e => simp [hx] at h
      | ok a0 =>
        cases hr : decodeElems zero dec [] xs with
        | error e => simp [hx, hr] at h
        | ok as =>
          simp only [hx, hr, Except.ok.injEq] at h
          subst h
          rcases List.mem_cons.mp ha with ha | ha
          · rw [ha]; exact hdec zero x a0 hx hzero
          · exact ih [] as hr (by simp) a ha
    | cons c cs =>
      unfold decodeElems at h
      cases hx : dec c x with
      | error e => simp [hx] at h
      | ok a0 =>
        cases hr : decodeElems zero dec cs xs with
        | error e => simp [hx, hr] at h
        | ok as =>
          simp only [hx, hr, Except.ok.injEq] at h
          subst h
          rcases List.mem_cons.mp ha with ha | ha
          · rw [ha]; exact hdec c x a0 hx (hcur c (List.mem_cons_self _ _))
          · exact ih cs as hr (fun y hy => hcur y (List.mem_cons_of_mem _ hy)) a ha

/-- The floats of the logs of a submission are finite. -/
theorem parseLogs_finite (env : Env) (logsJSON : GoString) :
    ∀ l ∈ (ReportHandler.parseLogs env logsJSON).getD [], l.finite = true := by
  unfold ReportHandler.parseLogs
  split_ifs
  · split
    · intro l hl
      simp only [Option.getD_some, List.mem_singleton] at hl
      rw [hl]; rfl
    · rename_i logs hu
      unfold Unmarshal at hu
      cases hp : Json.parse logsJSON with
      | none => simp [hp] at hu
      | some j =>
        simp only [hp] at hu
        cases j with
        | null =>
          simp only [decodeSlice, Except.ok.injEq] at hu
          rw [← hu]; simp
        | arr xs =>
          simp only [decodeSlice, Option.getD_none] at hu
          cases hd : decodeElems LogEntry.zero LogEntry.decode [] xs with
          | error e => simp [hd] at hu
          | ok as =>
            simp only [hd, Except.ok.injEq] at hu
            rw [← hu]
            simp only [Option.getD_some]
            exact decodeElems_invariant LogEntry.zero LogEntry.decode
              (fun l => l.finite = true) rfl
              (fun c x a hx hc => logEntry_decode_finite c a x hx hc) xs [] as hd (by simp)
        | bool b => simp [decodeSlice] at hu
        | num m e => simp [decodeSlice] at hu
        | str s => simp [decodeSlice] at hu
        | obj ms => simp [decodeSlice] at hu
  · intro l hl
    simp at hl

/-! ## The scanner's nesting limit: a document that nests deeper is refused -/

namespace Json

theorem depth_le_depthElems (x : Json) (xs : List Json) (h : x ∈ xs) :
    Json.depth x ≤ depthElems xs := by
  induction xs with
  | nil => simp at h
  | cons y ys ih =>
    simp only [depthElems]
    rcases List.mem_cons.mp h with h | h
    · subst h; omega
    · have := ih h; omega

theorem depth_le_depthMembers (m : GoString × Json) (ms : List (GoString × Json)) (h : m ∈ ms) :
    Json.depth m.2 ≤ depthMembers ms := by
  induction ms with
  | nil => simp at h
  | cons y ys ih =>
    obtain ⟨k, v⟩ := y
    simp only [depthMembers]
    rcases List.mem_cons.mp h with h | h
    · subst h; simp only; omega
    · have := ih h; omega

theorem parse_deep_aux (fuel : Nat) :
    (∀ (j : Json) (d depth : Nat) (ws rest : List Char), (∀ c ∈ ws, isWs c = true) →
      numEnd rest = true → size j ≤ fuel → depth ≤ maxNestingDepth →
      maxNestingDepth < depth + Json.depth j →
      parseValue fuel depth (ws ++ (render d j ++ rest)) = none) ∧
    (∀ (x : Json) (xs : List Json) (d d0 depth : Nat) (ws rest : List Char),
      (∀ c ∈ ws, isWs c = true) → sizeElems (x :: xs) ≤ fuel → depth ≤ maxNestingDepth →
      maxNestingDepth < depth + depthElems (x :: xs) →
      parseElems fuel depth
        (ws ++ (render d x ++ (renderElems d xs ++ (indent d0 ++ ']' :: rest)))) = none) ∧
    (∀ (k : GoString) (v : Json) (ms : List (GoString × Json)) (d d0 depth : Nat)
      (ws rest : List Char),
      (∀ c ∈ ws, isWs c = true) → sizeMembers ((k, v) :: ms) ≤ fuel →
      depth ≤ maxNestingDepth → maxNestingDepth < depth + depthMembers ((k, v) :: ms) →
      parseMembers fuel depth (ws ++ (renderString k ++ (':' :: ' ' :: (render d v ++
        (renderMembers d ms ++ (indent d0 ++ '\x7d' :: rest)))))) = none) := by
  induction fuel with
  | zero =>
    refine ⟨?_, ?_, ?_⟩
    · intro j d depth ws rest _ _ hs
      have := size_pos j
      omega
    · intro x xs d d0 depth ws rest _ hs
      simp only [sizeElems] at hs
      omega
    · intro k v ms d d0 depth ws rest _ hs
      simp only [sizeMembers] at hs
      omega
  | succ f ih =>
    obtain ⟨ihV, ihE, ihM⟩ := ih
    obtain ⟨okV, okE, okM⟩ := parse_render_aux f
    refine ⟨?_, ?_, ?_⟩
    · intro j d depth ws rest hws hrest hs hle hdp
      cases j with
      | null => simp only [Json.depth] at hdp; omega
      | bool b => simp only [Json.depth] at hdp; omega
      | num m e => simp only [Json.depth] at hdp; omega
      | str s => simp only [Json.depth] at hdp; omega
      | arr xs =>
        unfold parseValue
        rw [skipWs_append_white _ _ hws]
        by_cases hmax : maxNestingDepth ≤ depth
        · cases xs with
          | nil => simp [render, skipWs, isWs, hmax]
          | cons x xs => simp [render, skipWs, isWs, hmax]
        · cases xs with
          | nil => simp only [Json.depth, depthElems] at hdp; omega
          | cons x xs =>
            obtain ⟨c2, tl2, hx, hw2, hb2, _⟩ := render_head (d + 1) x
            have hsz : sizeElems (x :: xs) ≤ f := by simp only [size] at hs; omega
            have hdp2 : maxNestingDepth < depth + 1 + depthElems (x :: xs) := by
              simp only [Json.depth] at hdp; omega
            have he := ihE x xs (d + 1) d (depth + 1) [] rest (by simp) hsz (by omega) hdp2
            rw [List.nil_append, hx] at he
            simp only [List.cons_append] at he
            simp only [render, List.cons_append, List.append_assoc, List.nil_append,
              skipWs_not_ws '[' _ (by decide), skipWs_append_white _ _ (white_indent (d + 1)),
              hx, skipWs_not_ws c2 _ hw2, hb2, hmax, if_false, if_true, he, mapFst,
              show ¬ ('[' = 'n') by decide, show ¬ ('[' = 't') by decide,
              show ¬ ('[' = 'f') by decide, show ¬ ('[' = '"') by decide]
      | obj ms =>
        unfold parseValue
        rw [skipWs_append_white _ _ hws]
        by_cases hmax : maxNestingDepth ≤ depth
        · cases ms with
          | nil => simp [render, skipWs, isWs, hmax]
          | cons m ms => obtain ⟨k, v⟩ := m; simp [render, skipWs, isWs, hmax]
        · cases ms with
          | nil => simp only [Json.depth, depthMembers] at hdp; omega
          | cons m ms =>
            obtain ⟨k, v⟩ := m
            have hsz : sizeMembers ((k, v) :: ms) ≤ f := by simp only [size] at hs; omega
            have hdp2 : maxNestingDepth < depth + 1 + depthMembers ((k, v) :: ms) := by
              simp only [Json.depth] at hdp; omega
            have he := ihM k v ms (d + 1) d (depth + 1) [] rest (by simp) hsz (by omega) hdp2
            simp only [List.nil_append, renderString, List.cons_append, List.append_assoc] at he
            simp only [render, renderString, List.cons_append, List.append_assoc,
              List.nil_append, skipWs_not_ws '\x7b' _ (by decide),
              skipWs_append_white _ _ (white_indent (d + 1)),
              skipWs_not_ws '"' _ (by decide), hmax, if_false, if_true, he, mapFst,
              show ¬ ('\x7b' = 'n') by decide, show ¬ ('\x7b' = 't') by decide,
              show ¬ ('\x7b' = 'f') by decide, show ¬ ('\x7b' = '"') by decide,
              show ¬ ('\x7b' = '[') by decide, show ¬ ('"' = '\x7d') by decide]
    · intro x xs d d0 depth ws rest hws hs hle hdp
      have hsx : size x ≤ f := by simp only [sizeElems] at hs; omega
      unfold parseElems
      by_cases hx : maxNestingDepth < depth + Json.depth x
      · rw [ihV x d depth ws (renderElems d xs ++ (indent d0 ++ ']' :: rest)) hws
          (numEnd_elems_tail d d0 xs rest) hsx hle hx]
      · rw [okV x d depth ws (renderElems d xs ++ (indent d0 ++ ']' :: rest)) hws
          (numEnd_elems_tail d d0 xs rest) hsx (by omega)]
        cases xs with
        | nil => simp only [depthElems] at hdp; omega
        | cons y ys =>
          have hsy : sizeElems (y :: ys) ≤ f := by simp only [sizeElems] at hs ⊢; omega
          have hdy : maxNestingDepth < depth + depthElems (y :: ys) := by
            simp only [depthElems] at hdp ⊢; omega
          have he := ihE y ys d d0 depth (indent d) rest (white_indent d) hsy hle hdy
          simp only [renderElems, List.cons_append, List.append_assoc,
            skipWs_not_ws ',' _ (by decide), if_true, he, mapFst]
    · intro k v ms d d0 depth ws rest hws hs hle hdp
      have hsk : k.length + 1 ≤ f := by simp only [sizeMembers] at hs; omega
      have hsv : size v ≤ f := by simp only [sizeMembers] at hs; omega
      have hb := parseStringBody_escaped k
        (':' :: ' ' :: (render d v ++ (renderMembers d ms ++ (indent d0 ++ '\x7d' :: rest)))) f hsk
      unfold parseMembers
      rw [skipWs_append_white _ _ hws]
      by_cases hv : maxNestingDepth < depth + Json.depth v
      · have hn := ihV v d depth [' '] (renderMembers d ms ++ (indent d0 ++ '\x7d' :: rest))
          (by intro c hc; simp only [List.mem_singleton] at hc; subst hc; decide)
          (numEnd_members_tail d d0 ms rest) hsv hle hv
        simp only [List.cons_append, List.nil_append] at hn
        simp only [renderString, List.cons_append, List.append_assoc, List.nil_append,
          skipWs_not_ws '"' _ (by decide), if_true, hb, skipWs_not_ws ':' _ (by decide), hn]
      · have hok := okV v d depth [' '] (renderMembers d ms ++ (indent d0 ++ '\x7d' :: rest))
          (by intro c hc; simp only [List.mem_singleton] at hc; subst hc; decide)
          (numEnd_members_tail d d0 ms rest) hsv (by omega)
        simp only [List.cons_append, List.nil_append] at hok
        simp only [renderString, List.cons_append, List.append_assoc, List.nil_append,
          skipWs_not_ws '"' _ (by decide), if_true, hb, skipWs_not_ws ':' _ (by decide), hok]
        cases ms with
        | nil => simp only [depthMembers] at hdp; omega
        | cons m2 ms2 =>
          obtain ⟨k2, v2⟩ := m2
          have hsm : sizeMembers ((k2, v2) :: ms2) ≤ f := by
            simp only [sizeMembers] at hs ⊢; omega
          have hdm : maxNestingDepth < depth + depthMembers ((k2, v2) :: ms2) := by
            simp only [depthMembers] at hdp ⊢; omega
          have he := ihM k2 v2 ms2 d d0 depth (indent d) rest (white_indent d) hsm hle hdm
          simp only [renderString, List.cons_append, List.append_assoc, List.nil_append] at he
          simp only [renderMembers, renderString, List.cons_append, List.append_assoc,
            List.nil_append, skipWs_not_ws ',' _ (by decide), if_true, he, mapFst]

/-- The parser refuses the indented text of a document that nests deeper than the scanner
admits. -/
theorem parse_render_deep (j : Json) (hd : maxNestingDepth < Json.depth j) :
    Json.parse (GoString.ofChars (render 0 j)) = none := by
  have hlen : size j ≤ (render 0 j).length + 1 :=
    Nat.le_succ_of_le ((size_le_length (size j)).1 j 0 (Nat.le_refl _))
  have := (parse_deep_aux ((render 0 j).length + 1)).1 j 0 0 [] [] (by simp) rfl hlen
    (Nat.zero_le _) (by omega)
  simp only [List.nil_append, List.append_nil] at this
  simp [Json.parse, text_ofChars, this]

end Json

/-! ## How deep the document of a submitted report nests -/

theorem depthMembers_append (a b : List (GoString × Json)) :
    Json.depthMembers (a ++ b) = max (Json.depthMembers a) (Json.depthMembers b) := by
  induction a with
  | nil => simp [Json.depthMembers]
  | cons m ms ih =>
    obtain ⟨k, v⟩ := m
    simp only [List.cons_append, Json.depthMembers, List.append_eq, ih, Nat.max_assoc]

theorem depthMembers_omitEmpty (key : String) (value : GoString) :
    Json.depthMembers (omitEmpty key value) = 0 := by
  unfold omitEmpty
  split_ifs <;> simp [Json.depthMembers, Json.depth]

theorem depth_obj (ms : List (GoString × Json)) :
    Json.depth (Json.obj ms) = Json.depthMembers ms + 1 := rfl

theorem depth_str (s : GoString) : Json.depth (Json.str s) = 0 := rfl

theorem depth_arr (xs : List Json) : Json.depth (Json.arr xs) = Json.depthElems xs + 1 := rfl

theorem depthMembers_omitEmptyMap_le (key : String) (ctx : Option (List (GoString × Json))) :
    Json.depthMembers (omitEmptyMap key ctx) ≤ Json.depthMembers (ctx.getD []) + 1 := by
  rcases ctx with _ | _ | ⟨m, ms⟩
  · simp [omitEmptyMap, Json.depthMembers]
  · simp [omitEmptyMap, Json.depthMembers]
  · simp only [omitEmptyMap, Json.depthMembers, Json.depth, Option.getD_some]
    omega

theorem depthMembers_omitEmptyMap_cons (key : String) (ctx : Option (List (GoString × Json)))
    (m : GoString × Json) (ms : List (GoString × Json)) (h : ctx.getD [] = m :: ms) :
    Json.depthMembers (omitEmptyMap key ctx) = Json.depthMembers (m :: ms) + 1 := by
  rcases ctx with _ | _ | ⟨m2, ms2⟩
  · simp at h
  · simp at h
  · simp only [Option.getD_some] at h
    rw [h]
    simp only [omitEmptyMap, Json.depthMembers, Json.depth]
    omega

theorem depth_logEntry_toJson (l : LogEntry) :
    Json.depth l.toJson = Json.depthMembers (omitEmptyMap "context" l.Context) + 1 := by
  simp only [LogEntry.toJson, Json.depth, depthMembers_append, Json.depthMembers,
    List.append_eq, List.nil_append, List.cons_append]
  omega

theorem depth_deviceInfo_toJson (d : DeviceInfo) : Json.depth d.toJson = 1 := by
  simp only [DeviceInfo.toJson, Json.depth, depthMembers_append, Json.depthMembers,
    depthMembers_omitEmpty, List.append_eq, List.nil_append, List.cons_append]
  omega

theorem depth_userInfo_toJson (u : UserInfo) : Json.depth u.toJson = 1 := by
  simp only [UserInfo.toJson, Json.depth, depthMembers_append, depthMembers_omitEmpty]
  omega

theorem depth_strings (nh : Option (List GoString)) :
    Json.depth (sliceJson Json.str nh) ≤ 1 := by
  cases nh with
  | none => simp [sliceJson, Json.depth]
  | some xs =>
    have h : Json.depthElems (xs.map Json.str) = 0 := by
      induction xs with
      | nil => rfl
      | cons x xs ih => simp only [List.map_cons, Json.depthElems, Json.depth, ih]; omega
    simp only [sliceJson, Json.depth, h]
    omega

/-- The document of a report nests one level deeper than that of its logs, or two levels when
there are no logs to speak of. -/
theorem depth_toJson_of_logs (r : BugReport)
    (h : Json.depth (sliceJson LogEntry.toJson r.Logs) < Json.maxNestingDepth) :
    Json.depth r.toJson ≤ Json.maxNestingDepth := by
  have h1 := depth_strings r.NavigationHistory
  have h2 := depth_deviceInfo_toJson r.DeviceInfo
  have h3 : Json.depthMembers (omitNil "userInfo" UserInfo.toJson r.UserInfo) ≤ 1 := by
    cases r.UserInfo with
    | none => simp [omitNil, Json.depthMembers]
    | some u => simp only [omitNil, Json.depthMembers, depth_userInfo_toJson]; omega
  simp only [BugReport.toJson, depth_obj, depth_str, depthMembers_append, Json.depthMembers,
    depthMembers_omitEmpty, List.append_eq, List.nil_append, List.cons_append, h2]
  simp only [Json.maxNestingDepth] at h ⊢
  omega

theorem logEntry_setField_depth (D : Nat) (l : LogEntry) (k : GoString) (v : Json)
    (next : LogEntry) (h : LogEntry.setField l k v = Except.ok next)
    (hl : Json.depthMembers (omitEmptyMap "context" l.Context) ≤ D) (hv : Json.depth v ≤ D) :
    Json.depthMembers (omitEmptyMap "context" next.Context) ≤ D := by
  obtain ⟨a, b, c, ctx⟩ := l
  unfold LogEntry.setField at h
  split_ifs at h
  · obtain ⟨s, _, rfl⟩ := setWith_ok _ _ _ h
    exact hl
  · obtain ⟨s, _, rfl⟩ := setWith_ok _ _ _ h
    exact hl
  · obtain ⟨s, _, rfl⟩ := setWith_ok _ _ _ h
    exact hl
  · obtain ⟨m, hm, rfl⟩ := setWith_ok _ _ _ h
    cases v with
    | null =>
      simp only [decodeMap, Except.ok.injEq] at hm
      rw [← hm]
      simp [omitEmptyMap, Json.depthMembers]
    | obj ms =>
      simp only [decodeMap] at hm
      split_ifs at hm with hf
      simp only [Except.ok.injEq] at hm
      rw [← hm]
      show Json.depthMembers (omitEmptyMap "context" (some (ctx.getD [] ++ ms))) ≤ D
      have hl2 : Json.depthMembers (omitEmptyMap "context" ctx) ≤ D := hl
      have h1 := depthMembers_omitEmptyMap_le "context" (some (ctx.getD [] ++ ms))
      simp only [Option.getD_some, depthMembers_append] at h1
      simp only [Json.depth] at hv
      refine Nat.le_trans h1 ?_
      rcases hc : ctx.getD [] with _ | ⟨x, xs⟩
      · simp only [Json.depthMembers]
        omega
      · have h2 := depthMembers_omitEmptyMap_cons "context" ctx x xs hc
        omega
    | bool b => simp [decodeMap] at hm
    | num m e => simp [decodeMap] at hm
    | str s => simp [decodeMap] at hm
    | arr xs => simp [decodeMap] at hm
  · simp only [Except.ok.injEq] at h
    rw [← h]; exact hl

theorem logEntry_decode_depth (doc : Json) (out : LogEntry)
    (h : LogEntry.decode LogEntry.zero doc = Except.ok out) :
    Json.depth out.toJson ≤ max 1 (Json.depth doc) := by
  rw [depth_logEntry_toJson]
  cases doc with
  | null =>
    simp only [LogEntry.decode, decodeStruct, Except.ok.injEq] at h
    rw [← h]
    simp [LogEntry.zero, omitEmptyMap, Json.depthMembers, Json.depth]
  | obj ms =>
    have hp := decodeMembers_invariant LogEntry.setField
      (fun l => Json.depthMembers (omitEmptyMap "context" l.Context) ≤ Json.depthMembers ms)
      (fun v => Json.depth v ≤ Json.depthMembers ms)
      (fun cur k v next hs hc hq => logEntry_setField_depth _ cur k v next hs hc hq)
      ms LogEntry.zero out h (by simp [LogEntry.zero, omitEmptyMap, Json.depthMembers])
      (fun m hm => Json.depth_le_depthMembers m ms hm)
    simp only [Json.depth]
    simp only at hp
    omega
  | bool b => simp [LogEntry.decode, decodeStruct] at h
  | num m e => simp [LogEntry.decode, decodeStruct] at h
  | str s => simp [LogEntry.decode, decodeStruct] at h
  | arr xs => simp [LogEntry.decode, decodeStruct] at h

theorem decodeElems_depth :
    ∀ (docs : List Json) (out : List LogEntry),
      decodeElems LogEntry.zero LogEntry.decode [] docs = Except.ok out →
      Json.depthElems (out.map LogEntry.toJson) ≤ max 1 (Json.depthElems docs) := by
  intro docs
  induction docs with
  | nil =>
    intro out h
    simp only [decodeElems, Except.ok.injEq] at h
    rw [← h]
    simp [Json.depthElems]
  | cons x xs ih =>
    intro out h
    unfold decodeElems at h
    cases hx : LogEntry.decode LogEntry.zero x with
    | error e => simp [hx] at h
    | ok a =>
      cases hr : decodeElems LogEntry.zero LogEntry.decode [] xs with
      | error e => simp [hx, hr] at h
      | ok as =>
        simp only [hx, hr, Except.ok.injEq] at h
        subst h
        have h1 := logEntry_decode_depth x a hx
        have h2 := ih as hr
        simp only [List.map_cons, Json.depthElems]
        omega

/-- The logs of a submission, as a document, nest less deep than the scanner's limit when the
logs field, if it is a JSON text, does. -/
theorem parseLogs_depth (env : Env) (logsJSON : GoString)
    (hdepth : ∀ j, Json.parse logsJSON = some j → Json.depth j < Json.maxNestingDepth) :
    Json.depth (sliceJson LogEntry.toJson (ReportHandler.parseLogs env logsJSON)) <
      Json.maxNestingDepth := by
  unfold ReportHandler.parseLogs
  split_ifs
  · split
    · simp only [sliceJson, List.map_cons, List.map_nil, depth_arr, Json.depthElems,
        depth_logEntry_toJson, omitEmptyMap, Json.depthMembers, Json.maxNestingDepth]
      omega
    · rename_i logs hu
      unfold Unmarshal at hu
      cases hp : Json.parse logsJSON with
      | none => simp [hp] at hu
      | some j =>
        simp only [hp] at hu
        have hj := hdepth j hp
        cases j with
        | null =>
          simp only [decodeSlice, Except.ok.injEq] at hu
          rw [← hu]
          simp [sliceJson, Json.depth, Json.maxNestingDepth]
        | arr xs =>
          simp only [decodeSlice, Option.getD_none] at hu
          cases hd : decodeElems LogEntry.zero LogEntry.decode [] xs with
          | error e => simp [hd] at hu
          | ok as =>
            simp only [hd, Except.ok.injEq] at hu
            rw [← hu]
            have := decodeElems_depth xs as hd
            simp only [Json.depth, Json.maxNestingDepth] at hj
            simp only [sliceJson, Json.depth, Json.maxNestingDepth]
            omega
        | bool b => simp [decodeSlice] at hu
        | num m e => simp [decodeSlice] at hu
        | str s => simp [decodeSlice] at hu
        | obj ms => simp [decodeSlice] at hu
  · simp [sliceJson, Json.depth, Json.maxNestingDepth]

/-! ## Submission, then retrieval -/

theorem buildReport_valid (env : Env) (form : List (GoString × GoString))
    (nav : Option (List GoString)) (dev : DeviceInfo)
    (hreq : requiredPresent form)
    (hnav : Unmarshal (decodeSlice [] decodeString) (PostForm form "navigationHistory") none =
      Except.ok nav)
    (hdev : Unmarshal DeviceInfo.decode (PostForm form "deviceInfo") DeviceInfo.zero =
      Except.ok dev)
    (huser : userInfoAccepted form) :
    ∃ built, ReportHandler.buildReport env form = Except.ok built ∧
      built.ID = go ("br_" ++ env.uuid) ∧ built.Title = PostForm form "title" ∧
      built.Description = PostForm form "description" ∧
      built.CurrentRoute = PostForm form "currentRoute" ∧ built.DeviceInfo = dev ∧
      built.Logs = ReportHandler.parseLogs env (PostForm form "logs") ∧
      built.Timestamp = timestampOf env form := by
  obtain ⟨h1, h2, h3⟩ := hreq
  unfold ReportHandler.buildReport
  simp only [h1, h2, h3, or_self, if_false, hnav, hdev]
  rcases huser with hu | ⟨u, hu⟩
  · simp only [hu, bne_self_eq_false, Bool.false_eq_true, if_false]
    exact ⟨_, rfl, rfl, rfl, rfl, rfl, rfl, rfl, rfl⟩
  · by_cases he : PostForm form "userInfo" = []
    · simp only [he, bne_self_eq_false, Bool.false_eq_true, if_false]
      exact ⟨_, rfl, rfl, rfl, rfl, rfl, rfl, rfl, rfl⟩
    · have hb : (PostForm form "userInfo" != []) = true := by simpa using he
      simp only [hb, if_true, hu]
      exact ⟨_, rfl, rfl, rfl, rfl, rfl, rfl, rfl, rfl⟩

/-- The screenshot URL of a report adds nothing to the nesting of its document. -/
theorem depth_toJson_screenshot (r : BugReport) (url : GoString) :
    Json.depth ({ r with ScreenshotURL := url } : BugReport).toJson = Json.depth r.toJson := by
  simp only [BugReport.toJson, Json.depth, depthMembers_append, depthMembers_omitEmpty]

theorem uploadScreenshot_configured (s : AzureStorage) (req : Request) (built : BugReport) :
    ∃ report effects s1 url,
      ReportHandler.uploadScreenshot (some s) req built = (report, effects, some s1) ∧
      report = { built with ScreenshotURL := url } ∧
      s1.client.uploadErr = s.client.uploadErr ∧
      s1.client.downloadErr = s.client.downloadErr := by
  unfold ReportHandler.uploadScreenshot
  rcases req.screenshot with _ | _ | data
  · exact ⟨_, _, _, built.ScreenshotURL, rfl, rfl, rfl, rfl⟩
  · exact ⟨_, _, _, built.ScreenshotURL, rfl, rfl, rfl, rfl⟩
  · simp only [AzureStorage.SaveScreenshot, AzureStorage.uploadBlob]
    cases hu : s.client.uploadErr (built.ID ++ go "/screenshot.png") with
    | some e => exact ⟨_, _, _, built.ScreenshotURL, rfl, rfl, rfl, rfl⟩
    | none => exact ⟨_, _, _, _, rfl, rfl, rfl, rfl⟩

theorem metadata_ne_logs (id : GoString) : id ++ go "/metadata.json" ≠ id ++ go "/logs.json" := by
  intro h
  have h2 := List.append_cancel_left h
  exact absurd h2 (by decide)

/-- A report saved by `SaveReport`, when `json.MarshalIndent` returns no error and both uploads
succeed, is got back by `GetReport` with its strings read back, as stored, unless the download
fails or the document nests deeper than the decoder admits. -/
theorem getReport_after_saveReport (s : AzureStorage) (report : BugReport)
    (herr : report.marshalErr = none)
    (hdepth : Json.depth report.toJson ≤ Json.maxNestingDepth)
    (hwrite : ∀ path, s.client.uploadErr path = none)
    (hread : s.client.downloadErr (report.ID ++ go "/metadata.json") = none) :
    ∃ s2, s.SaveReport report = (none, s2) ∧
      s2.GetReport report.ID = Except.ok report.readBack.stored := by
  have hne : ((report.ID ++ go "/metadata.json") == (report.ID ++ go "/logs.json")) = false := by
    simpa using metadata_ne_logs report.ID
  have hne2 : ((report.ID ++ go "/metadata.json") != (report.ID ++ go "/logs.json")) = true := by
    simpa using metadata_ne_logs report.ID
  obtain ⟨text, hm, hu⟩ := unmarshal_marshalIndent report herr hdepth
  have hlogs : MarshalIndent (logsMarshalErr report.Logs)
      (sliceJson LogEntry.toJson report.Logs) =
      Except.ok (GoString.ofChars (Json.render 0 (sliceJson LogEntry.toJson report.Logs))) := by
    have hf : (report.Logs.getD []).all LogEntry.finite = true := by
      simpa using (marshalErr_none report herr).1
    simp only [logsMarshalErr, hf, if_true, MarshalIndent]
  refine ⟨(s.SaveReport report).2, ?_, ?_⟩
  · simp only [AzureStorage.SaveReport, hm, AzureStorage.uploadBlob, hwrite, hlogs]
  · simp only [AzureStorage.SaveReport, hm, AzureStorage.uploadBlob, hwrite, hlogs,
      AzureStorage.GetReport, AzureStorage.downloadBlob, hread, AzureStorage.putBlob,
      List.lookup_cons, hne, List.filter_cons, hne2, if_true, beq_self_eq_true, hu]

/-- C2 (amended): for a submission with non-empty title, description and currentRoute that are
valid UTF-8, a navigationHistory and a deviceInfo that decode, a userInfo that is empty or
decodes, a timestamp (the client's if `time.Parse` takes it, else the clock's) with a year from
0 to 9999 and a zone offset under 24 hours, and logs that, if they are a JSON text, nest less
than 10000 levels deep, made against a configured store whose uploads succeed, `SubmitReport`
answers 200 with `success: true` and the reportId `br_` followed by the generated token; and on
the storage it leaves, `GetReport` of that id, when the download of the metadata does not fail,
returns a report whose id, title, description, currentRoute and deviceInfo are the submitted
ones. -/
theorem submit_then_get_report (h : ReportHandler) (env : Env) (req : Request)
    (form : List (GoString × GoString)) (s : AzureStorage) (nav : Option (List GoString))
    (dev : DeviceInfo)
    (hstore : h.storage = some s) (hform : req.form = some form)
    (hreq : requiredPresent form)
    (hutf8 : GoString.valid (PostForm form "title") = true ∧
      GoString.valid (PostForm form "description") = true ∧
      GoString.valid (PostForm form "currentRoute") = true)
    (hnav : Unmarshal (decodeSlice [] decodeString) (PostForm form "navigationHistory") none =
      Except.ok nav)
    (hdev : Unmarshal DeviceInfo.decode (PostForm form "deviceInfo") DeviceInfo.zero =
      Except.ok dev)
    (huser : userInfoAccepted form)
    (hyear : 0 ≤ (timestampOf env form).year ∧ (timestampOf env form).year ≤ 9999)
    (hzone : -86400 < (timestampOf env form).offset ∧ (timestampOf env form).offset < 86400)
    (hdepth : ∀ j, Json.parse (PostForm form "logs") = some j →
      Json.depth j < Json.maxNestingDepth)
    (hwrite : ∀ path, s.client.uploadErr path = none)
    (hread : s.client.downloadErr (go ("br_" ++ env.uuid) ++ go "/metadata.json") = none) :
    ∃ s2 got,
      (ReportHandler.SubmitReport h env req).response = Response.JSON 200
        [("success", Field.bool true), ("reportId", Field.str (go ("br_" ++ env.uuid)))] ∧
      (ReportHandler.SubmitReport h env req).storage = some s2 ∧
      s2.GetReport (go ("br_" ++ env.uuid)) = Except.ok got ∧
      got.ID = go ("br_" ++ env.uuid) ∧ got.Title = PostForm form "title" ∧
      got.Description = PostForm form "description" ∧
      got.CurrentRoute = PostForm form "currentRoute" ∧ got.DeviceInfo = dev := by
  obtain ⟨built, hb, b1, b2, b3, b4, b5, b6, b7⟩ :=
    buildReport_valid env form nav dev hreq hnav hdev huser
  obtain ⟨report, effects, s1, url, hu, hr, u1, u2⟩ := uploadScreenshot_configured s req built
  have hid : report.ID = go ("br_" ++ env.uuid) := by rw [hr]; exact b1
  have herr : report.marshalErr = none := by
    apply bugReport_marshalErr_none
    · rw [hr]
      show ∀ l ∈ built.Logs.getD [], l.finite = true
      rw [b6]
      exact parseLogs_finite env _
    · rw [hr]
      show built.Timestamp.marshalErr = none
      rw [b7]
      exact Time.marshalErr_of_range _ hyear hzone
  have hdp : Json.depth report.toJson ≤ Json.maxNestingDepth := by
    rw [hr, depth_toJson_screenshot]
    apply depth_toJson_of_logs
    rw [b6]
    exact parseLogs_depth env _ hdepth
  obtain ⟨s2, hs, hg⟩ := getReport_after_saveReport s1 report herr hdp
    (by intro path; rw [u1]; exact hwrite path) (by rw [u2, hid]; exact hread)
  have hdv := deviceInfo_readBack_of_valid dev (unmarshal_deviceInfo_valid _ dev hdev)
  refine ⟨s2, report.readBack.stored, ?_, ?_, ?_, ?_, ?_, ?_, ?_, ?_⟩
  · simp only [ReportHandler.SubmitReport, hform, hb, hstore, hu, hs, hid]
  · simp only [ReportHandler.SubmitReport, hform, hb, hstore, hu, hs]
  · rw [← hid]; exact hg
  · show GoString.readBack report.ID = _
    rw [hid, readBack_go]
  · show GoString.readBack report.Title = _
    rw [hr]
    show GoString.readBack built.Title = _
    rw [b2, readBack_of_valid _ hutf8.1]
  · show GoString.readBack report.Description = _
    rw [hr]
    show GoString.readBack built.Description = _
    rw [b3, readBack_of_valid _ hutf8.2.1]
  · show GoString.readBack report.CurrentRoute = _
    rw [hr]
    show GoString.readBack built.CurrentRoute = _
    rw [b4, readBack_of_valid _ hutf8.2.2]
  · show report.DeviceInfo.readBack = _
    rw [hr]
    show built.DeviceInfo.readBack = _
    rw [b5, hdv]

theorem depth_nest (n : Nat) : Json.depth (nest n) = n := by
  induction n with
  | zero => rfl
  | succ n ih => simp only [nest, Json.depth, Json.depthElems, ih]; omega

theorem finite_nest (n : Nat) : Json.finite (nest n) = true := by
  induction n with
  | zero => rfl
  | succ n ih => simp only [nest, Json.finite, Json.finiteElems, ih, Bool.and_self]

theorem depth_logs_lt (r : BugReport) :
    Json.depth (sliceJson LogEntry.toJson r.Logs) < Json.depth r.toJson := by
  simp only [BugReport.toJson, Json.depth, depthMembers_append, Json.depthMembers,
    List.append_eq, List.nil_append, List.cons_append]
  omega

theorem depth_context_lt (a b c k : GoString) (v : Json) :
    Json.depth v + 3 ≤
      Json.depth (sliceJson LogEntry.toJson (some [⟨a, b, c, some [(k, v)]⟩])) := by
  simp only [sliceJson, List.map_cons, List.map_nil, LogEntry.toJson, omitEmptyMap, Json.depth,
    Json.depthElems, depthMembers_append, Json.depthMembers, List.append_eq, List.nil_append,
    List.cons_append]
  omega

theorem depth_reportWith (v : Json) : Json.depth (reportWith v).toJson = Json.depth v + 4 := by
  have h3 : (reportWith v).Logs = some [⟨go "error", go "Test error",
      go "2024-01-20T10:00:00Z", some [(go "k", v)]⟩] := rfl
  have h1 := depth_strings (reportWith v).NavigationHistory
  have h2 := depth_deviceInfo_toJson (reportWith v).DeviceInfo
  have h4 : Json.depthMembers (omitNil "userInfo" UserInfo.toJson (reportWith v).UserInfo) ≤ 1 := by
    cases (reportWith v).UserInfo with
    | none => simp [omitNil, Json.depthMembers]
    | some u => simp only [omitNil, Json.depthMembers, depth_userInfo_toJson]; omega
  have h5 : Json.depth (sliceJson LogEntry.toJson (reportWith v).Logs) = Json.depth v + 3 := by
    rw [h3]
    simp only [sliceJson, List.map_cons, List.map_nil, depth_arr, Json.depthElems,
      depth_logEntry_toJson, omitEmptyMap, Json.depthMembers, depth_obj]
    omega
  simp only [BugReport.toJson, depth_obj, depth_str, depthMembers_append, Json.depthMembers,
    depthMembers_omitEmpty, List.append_eq, List.nil_append, List.cons_append, h2, h5,
    depth_userInfo_toJson]
  omega

theorem depth_deepReport : Json.depth deepReport.toJson = 10001 := by
  show Json.depth (reportWith (nest 9997)).toJson = 10001
  rw [depth_reportWith, depth_nest]

/-- A report with a finite value nested deeper than 9996 in a context is written by
`json.MarshalIndent`, and its text is refused by `json.Unmarshal`. -/
theorem reportWith_refused (v : Json) (hf : Json.finite v = true) (hd : 9996 < Json.depth v) :
    ∃ text, MarshalIndent (reportWith v).marshalErr (reportWith v).toJson = Except.ok text ∧
      Unmarshal BugReport.decode text BugReport.zero = Except.error "invalid JSON" := by
  have herr : (reportWith v).marshalErr = none := by
    apply bugReport_marshalErr_none
    · intro l hl
      simp only [reportWith, Option.getD_some, List.mem_singleton] at hl
      rw [hl]
      simp only [LogEntry.finite, Option.getD_some, Json.finiteMembers, hf, Bool.and_self]
    · show fullReport.Timestamp.marshalErr = none
      exact Time.marshalErr_of_range _ (by decide) (by decide)
  have hdeep : Json.maxNestingDepth < Json.depth (reportWith v).toJson := by
    have h1 := depth_logs_lt (reportWith v)
    have h2 := depth_context_lt (go "error") (go "Test error") (go "2024-01-20T10:00:00Z")
      (go "k") v
    have h3 : (reportWith v).Logs = some [⟨go "error", go "Test error",
        go "2024-01-20T10:00:00Z", some [(go "k", v)]⟩] := rfl
    rw [h3] at h1
    simp only [Json.maxNestingDepth]
    omega
  refine ⟨GoString.ofChars (Json.render 0 (reportWith v).toJson), by
    simp only [MarshalIndent, herr], ?_⟩
  simp only [Unmarshal, Json.parse_render_deep _ hdeep]

set_option maxRecDepth 1000000 in
theorem report_storage_roundtrip_witness :
    (∃ text back, MarshalIndent fullReport.marshalErr fullReport.toJson = Except.ok text ∧
      Unmarshal BugReport.decode text BugReport.zero = Except.ok back ∧
      back.ID = fullReport.ID ∧ back.Title = fullReport.Title ∧
      back.Description = fullReport.Description ∧
      back.StepsToReproduce = fullReport.StepsToReproduce ∧
      back.CurrentRoute = fullReport.CurrentRoute ∧
      back.NavigationHistory = fullReport.NavigationHistory ∧
      back.DeviceInfo = fullReport.DeviceInfo ∧
      back.UserInfo = fullReport.UserInfo ∧ back.Timestamp = fullReport.Timestamp ∧
      back.Timestamp.unixNano = fullReport.Timestamp.unixNano ∧
      back.TraceID = fullReport.TraceID ∧
      back.ScreenshotURL = fullReport.ScreenshotURL ∧
      back.Logs = fullReport.Logs.map (fun ls => ls.map LogEntry.stored) ∧
      (back.Logs.getD []).length = (fullReport.Logs.getD []).length ∧
      (∀ l : LogEntry, l.stored.Level = l.Level ∧ l.stored.Message = l.Message ∧
        l.stored.Timestamp = l.Timestamp ∧ (l.Context ≠ some [] → l.stored = l)) ∧
      ((∀ l ∈ fullReport.Logs.getD [], l.Context ≠ some []) → back = fullReport)) ∧
    (∃ text, MarshalIndent fullReport.marshalErr fullReport.toJson = Except.ok text ∧
      Unmarshal BugReport.decode text BugReport.zero = Except.ok fullReport) :=
  ⟨report_storage_roundtrip fullReport (by decide) (by decide) (by decide) (by rfl)
    (by decide) (by decide), _, rfl, rfl⟩

set_option maxRecDepth 1000000 in
set_option exponentiation.threshold 1000 in
/-- C5 (the claim as stated fails): for the report whose timestamp lies in a zone 24 hours east,
which `time.Parse` yields from `2024-01-20T10:00:00+24:00`, and for the report with an infinite
float in a context map, `json.MarshalIndent` returns an error; the report whose title ends in a
byte that is not UTF-8 reads back with U+FFFD in its place; the report in a zone with seconds
in its offset reads back at another instant; and the report with a context value nested 9997
arrays deep, whose document nests 10001 levels, is written by `json.MarshalIndent` and refused
by `json.Unmarshal`. -/
theorem report_storage_roundtrip_counterexample :
    (Time.parse "2024-01-20T10:00:00+24:00" = some zoneReport.Timestamp ∧
      MarshalIndent zoneReport.marshalErr zoneReport.toJson = Except.error
        ("json: error calling MarshalJSON for type time.Time: " ++
          "Time.MarshalJSON: timezone hour outside of range [0,23]")) ∧
    MarshalIndent infiniteReport.marshalErr infiniteReport.toJson =
      Except.error "json: unsupported value" ∧
    (∃ text back, MarshalIndent latin1Report.marshalErr latin1Report.toJson = Except.ok text ∧
      Unmarshal BugReport.decode text BugReport.zero = Except.ok back ∧
      back.Title = go "Caf\uFFFD" ∧ back.Title ≠ latin1Report.Title) ∧
    (∃ text back,
      MarshalIndent secondsZoneReport.marshalErr secondsZoneReport.toJson = Except.ok text ∧
      Unmarshal BugReport.decode text BugReport.zero = Except.ok back ∧
      back.Timestamp.unixNano ≠ secondsZoneReport.Timestamp.unixNano) ∧
    (Json.depth deepReport.toJson = 10001 ∧
      ∃ text, MarshalIndent deepReport.marshalErr deepReport.toJson = Except.ok text ∧
        Unmarshal BugReport.decode text BugReport.zero = Except.error "invalid JSON") :=
  ⟨⟨rfl, rfl⟩, rfl, ⟨_, _, rfl, rfl, rfl, by decide⟩, ⟨_, _, rfl, rfl, by decide⟩,
    depth_deepReport,
    reportWith_refused (nest 9997) (finite_nest 9997) (by rw [depth_nest]; decide)⟩

set_option maxRecDepth 100000 in
theorem submit_then_get_report_witness :
    ∃ s2 got,
      (ReportHandler.SubmitReport sampleHandler sampleEnv
        ⟨some arrayForm, some (some "PNG")⟩).response = Response.JSON 200
          [("success", Field.bool true), ("reportId", Field.str (go ("br_" ++ sampleEnv.uuid)))] ∧
      (ReportHandler.SubmitReport sampleHandler sampleEnv
        ⟨some arrayForm, some (some "PNG")⟩).storage = some s2 ∧
      s2.GetReport (go ("br_" ++ sampleEnv.uuid)) = Except.ok got ∧
      got.ID = go ("br_" ++ sampleEnv.uuid) ∧ got.Title = PostForm arrayForm "title" ∧
      got.Description = PostForm arrayForm "description" ∧
      got.CurrentRoute = PostForm arrayForm "currentRoute" ∧
      got.DeviceInfo = ⟨"iOS", "", "", "1.0", "", "", ""⟩ :=
  submit_then_get_report sampleHandler sampleEnv ⟨some arrayForm, some (some "PNG")⟩ arrayForm
    sampleStorage (some ["/a", "/r"]) ⟨"iOS", "", "", "1.0", "", "", ""⟩ rfl rfl (by decide)
    (by decide) rfl rfl (Or.inl rfl) (by decide) (by decide)
    (fun j hj => by
      have h0 : Json.parse (PostForm arrayForm "logs") = some (Json.arr arrayDocs) := rfl
      rw [h0] at hj
      cases hj
      decide)
    (fun _ => rfl) rfl

set_option maxRecDepth 100000 in
/-- C2 (the claim as stated fails): a submission with the required fields, a navigationHistory
and a deviceInfo that decode, but a userInfo that is not JSON, is answered 400 although the
store's writes succeed; one whose timestamp lies in a zone 24 hours east, which `time.Parse`
takes, is answered 500, because `json.MarshalIndent` refuses the report; one whose title ends in
a byte that is not UTF-8 is answered 200, and `GetReport` of the id returns a report with another
title; and a complete submission to a store whose writes succeed and whose downloads fail is
answered 200, yet `GetReport` of the id then returns an error. -/
theorem submit_then_get_report_counterexample :
    (requiredPresent badUserForm ∧
      Unmarshal (decodeSlice [] decodeString) (PostForm badUserForm "navigationHistory") none =
        Except.ok (some []) ∧
      Unmarshal DeviceInfo.decode (PostForm badUserForm "deviceInfo") DeviceInfo.zero =
        Except.ok ⟨"iOS", "", "", "", "", "", ""⟩ ∧
      (ReportHandler.SubmitReport sampleHandler sampleEnv ⟨some badUserForm, none⟩).response =
        Response.JSON 400 [("success", Field.bool false),
          ("error", Field.str "Invalid userInfo JSON")]) ∧
    (requiredPresent zoneForm ∧
      Unmarshal (decodeSlice [] decodeString) (PostForm zoneForm "navigationHistory") none =
        Except.ok (some [go "/a", go "/r"]) ∧
      Unmarshal DeviceInfo.decode (PostForm zoneForm "deviceInfo") DeviceInfo.zero =
        Except.ok ⟨"iOS", "", "", "1.0", "", "", ""⟩ ∧
      ReportHandler.SubmitReport sampleHandler sampleEnv ⟨some zoneForm, none⟩ =
        ⟨Response.JSON 500 [("success", Field.bool false),
            ("error", Field.str "Failed to save report")],
          [Effect.SaveReport { sampleBuilt with
            Timestamp := ⟨2024, 1, 20, 10, 0, 0, 0, 86400, by decide⟩ }],
          some sampleStorage⟩) ∧
    (requiredPresent latin1Form ∧
      (ReportHandler.SubmitReport sampleHandler sampleEnv ⟨some latin1Form, none⟩).response =
        Response.JSON 200 [("success", Field.bool true), ("reportId", Field.str "br_0b5c")] ∧
      ∃ s2 got, (ReportHandler.SubmitReport sampleHandler sampleEnv
          ⟨some latin1Form, none⟩).storage = some s2 ∧
        s2.GetReport "br_0b5c" = Except.ok got ∧ got.Title = go "Caf\uFFFD" ∧
        got.Title ≠ PostForm latin1Form "title") ∧
    ((ReportHandler.SubmitReport ⟨some unreadableStorage, ""⟩ sampleEnv sampleRequest).response.code
        = 200 ∧
      ∃ s2, (ReportHandler.SubmitReport ⟨some unreadableStorage, ""⟩ sampleEnv
          sampleRequest).storage = some s2 ∧
        s2.GetReport "br_0b5c" = Except.error "failed to download metadata: timeout") :=
  ⟨⟨by decide, rfl, rfl, rfl⟩, ⟨by decide, rfl, rfl, rfl⟩,
    ⟨by decide, rfl, _, _, rfl, rfl, rfl, by decide⟩, rfl, _, rfl, rfl⟩

theorem uploadScreenshot_logs (storage : Option AzureStorage) (req : Request)
    (built : BugReport) :
    (ReportHandler.uploadScreenshot storage req built).1.Logs = built.Logs ∧
      ∀ x ∈ (ReportHandler.uploadScreenshot storage req built).2.1, x.report? = none := by
  unfold ReportHandler.uploadScreenshot
  rcases req.screenshot with _ | _ | data
  · simp
  · simp
  · cases storage with
    | none => simp
    | some s =>
      simp only
      rcases hs : s.SaveScreenshot built.ID data with ⟨_ | url, s1⟩ <;>
        simp [Effect.report?]

/-- Every report that `SubmitReport` saves, forwards or prints is the one `buildReport` made of
the form, as far as its logs go. -/
theorem submit_effect_reports (h : ReportHandler) (env : Env) (req : Request)
    (form : List (GoString × GoString)) (hform : req.form = some form) :
    ∀ x ∈ (ReportHandler.SubmitReport h env req).effects, ∀ r, x.report? = some r →
      ∃ built, ReportHandler.buildReport env form = Except.ok built ∧ r.Logs = built.Logs := by
  intro x hx r hr
  unfold ReportHandler.SubmitReport at hx
  simp only [hform] at hx
  cases hb : ReportHandler.buildReport env form with
  | error e => simp [hb] at hx
  | ok built =>
    refine ⟨built, rfl, ?_⟩
    obtain ⟨hl, hfx⟩ := uploadScreenshot_logs h.storage req built
    simp only [hb] at hx
    rcases hu : ReportHandler.uploadScreenshot h.storage req built with ⟨report, effects, st⟩
    rw [hu] at hl hfx
    simp only at hl hfx
    have hfwd : ∀ y ∈ ReportHandler.forwardToLogWard h report, y.report? = none := by
      intro y hy
      unfold ReportHandler.forwardToLogWard at hy
      split_ifs at hy
      · simp at hy
      · simp only [List.mem_singleton] at hy
        subst hy
        rfl
    have hsome : ∀ y, (y ∈ effects ∨ y ∈ ReportHandler.forwardToLogWard h report) →
        y.report? ≠ some r := by
      intro y hy
      rcases hy with hy | hy
      · rw [hfx y hy]; simp
      · rw [hfwd y hy]; simp
    rw [hu] at hx
    cases st with
    | none =>
      simp only [List.mem_append, List.mem_cons] at hx
      rcases hx with hx | hx | hx | hx
      · exact absurd hr (hsome x (Or.inl hx))
      · subst hx; simp only [Effect.report?, Option.some.injEq] at hr; subst hr; exact hl
      · subst hx; simp only [Effect.report?, Option.some.injEq] at hr; subst hr; exact hl
      · exact absurd hr (hsome x (Or.inr hx))
    | some s =>
      simp only at hx
      rcases hsv : s.SaveReport report with ⟨_ | e, s1⟩
      · rw [hsv] at hx
        simp only [List.mem_append, List.mem_cons] at hx
        rcases hx with hx | hx | hx | hx
        · exact absurd hr (hsome x (Or.inl hx))
        · subst hx; simp only [Effect.report?, Option.some.injEq] at hr; subst hr; exact hl
        · subst hx; simp only [Effect.report?, Option.some.injEq] at hr; subst hr; exact hl
        · exact absurd hr (hsome x (Or.inr hx))
      · rw [hsv] at hx
        simp only [List.mem_append, List.mem_singleton] at hx
        rcases hx with hx | hx
        · exact absurd hr (hsome x (Or.inl hx))
        · subst hx; simp only [Effect.report?, Option.some.injEq] at hr; subst hr; exact hl

theorem logs_of_built (env : Env) (form : List (GoString × GoString)) (built : BugReport)
    (logs : Option (List LogEntry))
    (heq : ReportHandler.buildReport env form =
      (ReportHandler.buildReport env (dropField "logs" form)).map
        (fun r => { r with Logs := logs }))
    (hb : ReportHandler.buildReport env form = Except.ok built) : built.Logs = logs := by
  rw [hb] at heq
  cases hd : ReportHandler.buildReport env (dropField "logs" form) with
  | error e => simp [hd, Except.map] at heq
  | ok b =>
    simp only [hd, Except.map, Except.ok.injEq] at heq
    rw [heq]

/-- A submission whose report is built is answered 200 with the generated id, or 500 when the
report cannot be saved, and what the handler does then carries the report, with the logs it was
built with. -/
theorem submit_of_built (h : ReportHandler) (env : Env) (req : Request)
    (form : List (GoString × GoString)) (built : BugReport) (hform : req.form = some form)
    (hb : ReportHandler.buildReport env form = Except.ok built) :
    ((ReportHandler.SubmitReport h env req).response = Response.JSON 200
        [("success", Field.bool true), ("reportId", Field.str (go ("br_" ++ env.uuid)))] ∨
      (ReportHandler.SubmitReport h env req).response = Response.JSON 500
        [("success", Field.bool false), ("error", Field.str "Failed to save report")]) ∧
    ∃ x ∈ (ReportHandler.SubmitReport h env req).effects, ∃ r, x.report? = some r ∧
      r.Logs = built.Logs := by
  have hid : built.ID = go ("br_" ++ env.uuid) := by
    unfold ReportHandler.buildReport at hb
    simp only at hb
    split at hb
    · simp at hb
    · split at hb
      · simp at hb
      · split at hb
        · simp at hb
        · split at hb
          · simp at hb
          · simp only [Except.ok.injEq] at hb
            subst hb
            rfl
  obtain ⟨hl, _⟩ := uploadScreenshot_logs h.storage req built
  have hid2 : (ReportHandler.uploadScreenshot h.storage req built).1.ID = built.ID := by
    unfold ReportHandler.uploadScreenshot
    rcases req.screenshot with _ | _ | data
    · rfl
    · rfl
    · cases h.storage with
      | none => rfl
      | some s =>
        simp only
        rcases hs : s.SaveScreenshot built.ID data with ⟨_ | url, s1⟩ <;> rfl
  unfold ReportHandler.SubmitReport
  simp only [hform, hb]
  rcases hu : ReportHandler.uploadScreenshot h.storage req built with ⟨report, effects, st⟩
  rw [hu] at hl hid2
  simp only at hl hid2
  cases st with
  | none =>
    simp only
    refine ⟨Or.inl (by rw [hid2, hid]),
      Effect.printReport "Bug report received (no storage): " report, ?_, report, rfl, hl⟩
    simp
  | some s =>
    simp only
    rcases hsv : s.SaveReport report with ⟨_ | e, s1⟩
    · simp only
      refine ⟨Or.inl (by rw [hid2, hid]), Effect.SaveReport report, ?_, report, rfl, hl⟩
      simp
    · simp only
      refine ⟨Or.inr rfl, Effect.SaveReport report, ?_, report, rfl, hl⟩
      simp

theorem logEntry_decode_canonical (l x : LogEntry)
    (h : LogEntry.decode LogEntry.zero l.toJson = Except.ok x) : x = l.stored := by
  by_cases hf : l.finite = true
  · rw [logEntry_decode_toJson l hf] at h
    simp only [Except.ok.injEq] at h
    exact h.symm
  · exfalso
    obtain ⟨a, b, c, ctx⟩ := l
    rcases ctx with _ | _ | ⟨m, ms⟩
    · exact hf rfl
    · exact hf rfl
    · have hf2 : Json.finiteMembers (m :: ms) = false := by
        simpa [LogEntry.finite] using hf
      change decodeMembers LogEntry.setField LogEntry.zero
        ([(go "level", Json.str a), (go "message", Json.str b), (go "timestamp", Json.str c)] ++
          [(go "context", Json.obj (m :: ms))]) = _ at h
      rw [decodeMembers_append LogEntry.setField LogEntry.zero ⟨a, b, c, none⟩
        [(go "level", Json.str a), (go "message", Json.str b), (go "timestamp", Json.str c)] _
        (by rfl)] at h
      have hs : LogEntry.setField ⟨a, b, c, none⟩ (go "context") (Json.obj (m :: ms)) =
          Except.error "json: cannot unmarshal number into Go value of type float64" := by
        show setWith (decodeMap none (Json.obj (m :: ms))) _ = _
        simp only [decodeMap, hf2, Bool.false_eq_true, if_false]
        rfl
      simp only [decodeMembers, hs] at h
      cases h

/-- C3: when the logs field is non-empty and `json.Unmarshal` into `[]LogEntry` returns an
error for it, the logs of the report are exactly one entry, with level "info", the whole raw
string as message and no context; the submission is accepted or rejected as it would be
without the logs field, the report differing in its logs only; every report `SubmitReport`
saves, forwards or prints for the submission has these logs; and when the other fields are in
order (the required ones present, navigationHistory and deviceInfo decoding, userInfo empty or
decoding) the report is built with these logs, `SubmitReport` answers 200 with the generated id
or, when the report cannot be saved, 500 (never a rejection), and saves or prints a report with
these logs. -/
theorem raw_logs_become_one_entry (env : Env) (form : List (GoString × GoString)) (e : String)
    (hne : PostForm form "logs" ≠ [])
    (hbad : Unmarshal (decodeSlice LogEntry.zero LogEntry.decode) (PostForm form "logs") none =
      Except.error e) :
    ReportHandler.parseLogs env (PostForm form "logs") =
        some [⟨go "info", PostForm form "logs", env.logNow.format, none⟩] ∧
      ReportHandler.buildReport env form =
        (ReportHandler.buildReport env (dropField "logs" form)).map
          (fun r => { r with Logs := some [rawEntry env (PostForm form "logs")] }) ∧
      (∀ (h : ReportHandler) (req : Request), req.form = some form →
        ∀ x ∈ (ReportHandler.SubmitReport h env req).effects, ∀ r, x.report? = some r →
          r.Logs = some [⟨go "info", PostForm form "logs", env.logNow.format, none⟩]) ∧
      (requiredPresent form →
        (∃ nav, Unmarshal (decodeSlice [] decodeString) (PostForm form "navigationHistory")
          none = Except.ok nav) →
        (∃ dev, Unmarshal DeviceInfo.decode (PostForm form "deviceInfo") DeviceInfo.zero =
          Except.ok dev) →
        userInfoAccepted form →
        ∃ built, ReportHandler.buildReport env form = Except.ok built ∧
          built.Logs = some [⟨go "info", PostForm form "logs", env.logNow.format, none⟩] ∧
          ∀ (h : ReportHandler) (req : Request), req.form = some form →
            ((ReportHandler.SubmitReport h env req).response = Response.JSON 200
                [("success", Field.bool true),
                  ("reportId", Field.str (go ("br_" ++ env.uuid)))] ∨
              (ReportHandler.SubmitReport h env req).response = Response.JSON 500
                [("success", Field.bool false),
                  ("error", Field.str "Failed to save report")]) ∧
            ∃ x ∈ (ReportHandler.SubmitReport h env req).effects, ∃ r, x.report? = some r ∧
              r.Logs = some [⟨go "info", PostForm form "logs", env.logNow.format, none⟩]) := by
  have h1 : ReportHandler.parseLogs env (PostForm form "logs") =
      some [rawEntry env (PostForm form "logs")] := by
    unfold ReportHandler.parseLogs rawEntry
    have hne2 : (PostForm form "logs" != []) = true := by simpa using hne
    simp only [hne2, if_true, hbad]
  have h2 : ReportHandler.buildReport env form =
      (ReportHandler.buildReport env (dropField "logs" form)).map
        (fun r => { r with Logs := some [rawEntry env (PostForm form "logs")] }) := by
    rw [buildReport_logs_independent, h1]
  refine ⟨h1, h2, ?_, ?_⟩
  · intro h req hform x hx r hr
    obtain ⟨built, hb, hl⟩ := submit_effect_reports h env req form hform x hx r hr
    rw [hl]
    exact logs_of_built env form built _ h2 hb
  · rintro hreq ⟨nav, hnav⟩ ⟨dev, hdev⟩ huser
    obtain ⟨built, hb, _, _, _, _, _, b6, _⟩ :=
      buildReport_valid env form nav dev hreq hnav hdev huser
    have hlogs : built.Logs = some [rawEntry env (PostForm form "logs")] := by rw [b6, h1]
    refine ⟨built, hb, hlogs, ?_⟩
    intro h req hform
    obtain ⟨hresp, x, hx, r, hr, hrl⟩ := submit_of_built h env req form built hform hb
    exact ⟨hresp, x, hx, r, hr, hrl.trans hlogs⟩

set_option maxRecDepth 100000 in
set_option exponentiation.threshold 1000 in
theorem raw_logs_become_one_entry_witness :
    (ReportHandler.parseLogs sampleEnv (PostForm sampleForm "logs") =
        some [⟨go "info", PostForm sampleForm "logs", sampleEnv.logNow.format, none⟩] ∧
      ReportHandler.buildReport sampleEnv sampleForm =
        (ReportHandler.buildReport sampleEnv (dropField "logs" sampleForm)).map
          (fun r => { r with Logs := some [rawEntry sampleEnv (PostForm sampleForm "logs")] }) ∧
      (∀ (h : ReportHandler) (req : Request), req.form = some sampleForm →
        ∀ x ∈ (ReportHandler.SubmitReport h sampleEnv req).effects, ∀ r, x.report? = some r →
          r.Logs = some [⟨go "info", PostForm sampleForm "logs", sampleEnv.logNow.format,
            none⟩]) ∧
      ∃ built, ReportHandler.buildReport sampleEnv sampleForm = Except.ok built ∧
        built.Logs = some [⟨go "info", PostForm sampleForm "logs", sampleEnv.logNow.format,
          none⟩] ∧
        ∀ (h : ReportHandler) (req : Request), req.form = some sampleForm →
          ((ReportHandler.SubmitReport h sampleEnv req).response = Response.JSON 200
              [("success", Field.bool true),
                ("reportId", Field.str (go ("br_" ++ sampleEnv.uuid)))] ∨
            (ReportHandler.SubmitReport h sampleEnv req).response = Response.JSON 500
              [("success", Field.bool false),
                ("error", Field.str "Failed to save report")]) ∧
          ∃ x ∈ (ReportHandler.SubmitReport h sampleEnv req).effects, ∃ r,
            x.report? = some r ∧
            r.Logs = some [⟨go "info", PostForm sampleForm "logs", sampleEnv.logNow.format,
              none⟩]) ∧
      PostForm sampleForm "logs" = "this is not json" ∧
      ReportHandler.buildReport sampleEnv sampleForm = Except.ok sampleBuilt ∧
      ReportHandler.SubmitReport sampleHandler sampleEnv ⟨some sampleForm, none⟩ =
        ⟨Response.JSON 200 [("success", Field.bool true), ("reportId", Field.str "br_0b5c")],
          Effect.SaveReport sampleBuilt :: Effect.forwardToLogWard sampleBuilt ::
            ReportHandler.forwardToLogWard sampleHandler sampleBuilt,
          (ReportHandler.SubmitReport sampleHandler sampleEnv ⟨some sampleForm, none⟩).storage⟩ ∧
      ReportHandler.parseLogs sampleEnv (PostForm objectLogsForm "logs") =
        some [⟨"info", "\x7b\"level\":\"error\"\x7d", "0001-01-01T00:00:00Z", none⟩] ∧
      ReportHandler.parseLogs sampleEnv (PostForm hugeNumberForm "logs") =
        some [⟨"info", PostForm hugeNumberForm "logs", "0001-01-01T00:00:00Z", none⟩] ∧
      ReportHandler.parseLogs sampleEnv "[1,2,3]" =
        some [⟨"info", "[1,2,3]", "0001-01-01T00:00:00Z", none⟩] :=
  have hw := raw_logs_become_one_entry sampleEnv sampleForm "invalid JSON" (by decide) rfl
  ⟨⟨hw.1, hw.2.1, hw.2.2.1, hw.2.2.2 (by decide) ⟨_, rfl⟩ ⟨_, rfl⟩ (Or.inl rfl)⟩,
    rfl, rfl, rfl, rfl, rfl, rfl⟩

/-- C4: when the logs field is the text of a JSON array of N documents each of which decodes as
a `LogEntry`, the logs of the report are exactly N entries, the i-th being the decoding of the
i-th document (its level, message, timestamp and context: where the document is the object
`json.Marshal` writes for an entry, that entry, an empty context map become nil), in the order
of the array; the rest of the report is as it would be without the logs field; every report
`SubmitReport` saves, forwards or prints for the submission has these logs; and when the other
fields are in order the report is built with these logs, `SubmitReport` answers 200 with the
generated id or, when the report cannot be saved, 500, and saves or prints a report with these
logs. -/
theorem array_logs_kept_in_order (env : Env) (form : List (GoString × GoString))
    (docs : List Json) (entries : List LogEntry)
    (hparse : Json.parse (PostForm form "logs") = some (Json.arr docs))
    (hdec : decodeElems LogEntry.zero LogEntry.decode [] docs = Except.ok entries) :
    ReportHandler.parseLogs env (PostForm form "logs") = some entries ∧
      entries.length = docs.length ∧
      (∀ (i : Nat) (hi : i < docs.length) (ho : i < entries.length),
        LogEntry.decode LogEntry.zero (docs.get ⟨i, hi⟩) = Except.ok (entries.get ⟨i, ho⟩)) ∧
      (∀ (i : Nat) (hi : i < docs.length) (ho : i < entries.length) (l : LogEntry),
        docs.get ⟨i, hi⟩ = l.toJson → entries.get ⟨i, ho⟩ = l.stored) ∧
      ReportHandler.buildReport env form =
        (ReportHandler.buildReport env (dropField "logs" form)).map
          (fun r => { r with Logs := some entries }) ∧
      (∀ (h : ReportHandler) (req : Request), req.form = some form →
        ∀ x ∈ (ReportHandler.SubmitReport h env req).effects, ∀ r, x.report? = some r →
          r.Logs = some entries) ∧
      (requiredPresent form →
        (∃ nav, Unmarshal (decodeSlice [] decodeString) (PostForm form "navigationHistory")
          none = Except.ok nav) →
        (∃ dev, Unmarshal DeviceInfo.decode (PostForm form "deviceInfo") DeviceInfo.zero =
          Except.ok dev) →
        userInfoAccepted form →
        ∃ built, ReportHandler.buildReport env form = Except.ok built ∧
          built.Logs = some entries ∧
          ∀ (h : ReportHandler) (req : Request), req.form = some form →
            ((ReportHandler.SubmitReport h env req).response = Response.JSON 200
                [("success", Field.bool true),
                  ("reportId", Field.str (go ("br_" ++ env.uuid)))] ∨
              (ReportHandler.SubmitReport h env req).response = Response.JSON 500
                [("success", Field.bool false),
                  ("error", Field.str "Failed to save report")]) ∧
            ∃ x ∈ (ReportHandler.SubmitReport h env req).effects, ∃ r, x.report? = some r ∧
              r.Logs = some entries) := by
  have hne : (PostForm form "logs" != []) = true := by
    have : PostForm form "logs" ≠ [] := by
      intro h0
      rw [h0] at hparse
      exact absurd hparse (by simp [show Json.parse [] = none from rfl])
    simpa using this
  have h1 : ReportHandler.parseLogs env (PostForm form "logs") = some entries := by
    unfold ReportHandler.parseLogs
    simp only [hne, if_true, Unmarshal, hparse, decodeSlice, Option.getD, hdec]
  have h2 : ReportHandler.buildReport env form =
      (ReportHandler.buildReport env (dropField "logs" form)).map
        (fun r => { r with Logs := some entries }) := by
    rw [buildReport_logs_independent, h1]
  have hget := decodeElems_get _ _ _ _ hdec
  refine ⟨h1, decodeElems_length _ _ _ _ _ hdec, hget, ?_, h2, ?_, ?_⟩
  · intro i hi ho l hl
    have := hget i hi ho
    rw [hl] at this
    exact logEntry_decode_canonical l _ this
  · intro h req hform x hx r hr
    obtain ⟨built, hb, hl⟩ := submit_effect_reports h env req form hform x hx r hr
    rw [hl]
    exact logs_of_built env form built _ h2 hb
  · rintro hreq ⟨nav, hnav⟩ ⟨dev, hdev⟩ huser
    obtain ⟨built, hb, _, _, _, _, _, b6, _⟩ :=
      buildReport_valid env form nav dev hreq hnav hdev huser
    have hlogs : built.Logs = some entries := by rw [b6, h1]
    refine ⟨built, hb, hlogs, ?_⟩
    intro h req hform
    obtain ⟨hresp, x, hx, r, hr, hrl⟩ := submit_of_built h env req form built hform hb
    exact ⟨hresp, x, hx, r, hr, hrl.trans hlogs⟩

set_option maxRecDepth 100000 in
theorem array_logs_kept_in_order_witness :
    (ReportHandler.parseLogs sampleEnv (PostForm arrayForm "logs") = some arrayEntries ∧
      arrayEntries.length = arrayDocs.length ∧
      (∀ (i : Nat) (hi : i < arrayDocs.length) (ho : i < arrayEntries.length),
        LogEntry.decode LogEntry.zero (arrayDocs.get ⟨i, hi⟩) =
          Except.ok (arrayEntries.get ⟨i, ho⟩)) ∧
      (∀ (i : Nat) (hi : i < arrayDocs.length) (ho : i < arrayEntries.length) (l : LogEntry),
        arrayDocs.get ⟨i, hi⟩ = l.toJson → arrayEntries.get ⟨i, ho⟩ = l.stored) ∧
      ReportHandler.buildReport sampleEnv arrayForm =
        (ReportHandler.buildReport sampleEnv (dropField "logs" arrayForm)).map
          (fun r => { r with Logs := some arrayEntries }) ∧
      (∀ (h : ReportHandler) (req : Request), req.form = some arrayForm →
        ∀ x ∈ (ReportHandler.SubmitReport h sampleEnv req).effects, ∀ r, x.report? = some r →
          r.Logs = some arrayEntries) ∧
      ∃ built, ReportHandler.buildReport sampleEnv arrayForm = Except.ok built ∧
        built.Logs = some arrayEntries ∧
        ∀ (h : ReportHandler) (req : Request), req.form = some arrayForm →
          ((ReportHandler.SubmitReport h sampleEnv req).response = Response.JSON 200
              [("success", Field.bool true),
                ("reportId", Field.str (go ("br_" ++ sampleEnv.uuid)))] ∨
            (ReportHandler.SubmitReport h sampleEnv req).response = Response.JSON 500
              [("success", Field.bool false),
                ("error", Field.str "Failed to save report")]) ∧
          ∃ x ∈ (ReportHandler.SubmitReport h sampleEnv req).effects, ∃ r,
            x.report? = some r ∧ r.Logs = some arrayEntries) ∧
      arrayEntries = [⟨"error", "boom", "t1", some [("code", Json.num 500 0)]⟩,
        ⟨"warn", "slow", "t2", none⟩] ∧
      arrayDocs = [LogEntry.toJson ⟨"error", "boom", "t1", some [("code", Json.num 500 0)]⟩,
        LogEntry.toJson ⟨"warn", "slow", "t2", none⟩] ∧
      ReportHandler.buildReport sampleEnv arrayForm =
        Except.ok { sampleBuilt with Logs := some arrayEntries } ∧
      ReportHandler.parseLogs sampleEnv "[]" = some [] :=
  have hw := array_logs_kept_in_order sampleEnv arrayForm arrayDocs arrayEntries rfl rfl
  ⟨⟨hw.1, hw.2.1, hw.2.2.1, hw.2.2.2.1, hw.2.2.2.2.1, hw.2.2.2.2.2.1,
    hw.2.2.2.2.2.2 (by decide) ⟨_, rfl⟩ ⟨_, rfl⟩ (Or.inl rfl)⟩, rfl, rfl, rfl, rfl⟩

theorem buildReport_fresh (env : Env) (form : List (GoString × GoString)) (built : BugReport)
    (hb : ReportHandler.buildReport env form = Except.ok built) :
    built.ID = go ("br_" ++ env.uuid) ∧ built.ScreenshotURL = "" := by
  unfold ReportHandler.buildReport at hb
  simp only at hb
  split at hb
  · simp at hb
  · split at hb
    · simp at hb
    · split at hb
      · simp at hb
      · split at hb
        · simp at hb
        · simp only [Except.ok.injEq] at hb
          subst hb
          exact ⟨rfl, rfl⟩

/-- C11: when no store is configured and the submission passes validation (`buildReport`
gives a report), `SubmitReport` answers 200 with `success: true` and the generated reportId
`br_` followed by the token; what it does besides is to print the report and to forward it,
nothing of it a store operation, also when a screenshot part is present; the report keeps an
empty `ScreenshotURL`, and the storage stays absent. -/
theorem submit_without_store_succeeds (h : ReportHandler) (env : Env) (req : Request)
    (form : List (GoString × GoString)) (built : BugReport)
    (hstore : h.storage = none) (hform : req.form = some form)
    (hbuilt : ReportHandler.buildReport env form = Except.ok built) :
    ReportHandler.SubmitReport h env req =
        ⟨Response.JSON 200
          [("success", Field.bool true), ("reportId", Field.str (go ("br_" ++ env.uuid)))],
          Effect.printReport "Bug report received (no storage): " built ::
            Effect.forwardToLogWard built :: ReportHandler.forwardToLogWard h built,
          none⟩ ∧
      built.ScreenshotURL = "" ∧
      (∀ x ∈ (ReportHandler.SubmitReport h env req).effects, x.isStoreOp = false) ∧
      ∀ x ∈ (ReportHandler.SubmitReport h env req).effects, ∀ r, x.report? = some r →
        r.ScreenshotURL = "" := by
  obtain ⟨hid, hshot⟩ := buildReport_fresh env form built hbuilt
  have hup : ReportHandler.uploadScreenshot none req built = (built, [], none) := by
    unfold ReportHandler.uploadScreenshot
    rcases req.screenshot with _ | _ | data <;> rfl
  have hrun : ReportHandler.SubmitReport h env req =
      ⟨Response.JSON 200
        [("success", Field.bool true), ("reportId", Field.str (go ("br_" ++ env.uuid)))],
        Effect.printReport "Bug report received (no storage): " built ::
          Effect.forwardToLogWard built :: ReportHandler.forwardToLogWard h built,
        none⟩ := by
    unfold ReportHandler.SubmitReport
    simp only [hform, hbuilt, hstore, hup, List.nil_append, hid]
  have hfwd : ∀ y ∈ ReportHandler.forwardToLogWard h built,
      y.isStoreOp = false ∧ y.report? = none := by
    intro y hy
    unfold ReportHandler.forwardToLogWard at hy
    split_ifs at hy
    · simp at hy
    · simp only [List.mem_singleton] at hy
      subst hy
      exact ⟨rfl, rfl⟩
  refine ⟨hrun, hshot, ?_, ?_⟩
  · intro x hx
    rw [hrun] at hx
    simp only [List.mem_cons] at hx
    rcases hx with hx | hx | hx
    · subst hx; rfl
    · subst hx; rfl
    · exact (hfwd x hx).1
  · intro x hx r hr
    rw [hrun] at hx
    simp only [List.mem_cons] at hx
    rcases hx with hx | hx | hx
    · subst hx; simp only [Effect.report?, Option.some.injEq] at hr; subst hr; exact hshot
    · subst hx; simp only [Effect.report?, Option.some.injEq] at hr; subst hr; exact hshot
    · rw [(hfwd x hx).2] at hr; simp at hr

theorem submit_without_store_succeeds_witness :
    ReportHandler.SubmitReport unconfiguredHandler sampleEnv sampleRequest =
        ⟨Response.JSON 200
          [("success", Field.bool true), ("reportId", Field.str (go ("br_" ++ sampleEnv.uuid)))],
          Effect.printReport "Bug report received (no storage): " sampleBuilt ::
            Effect.forwardToLogWard sampleBuilt ::
            ReportHandler.forwardToLogWard unconfiguredHandler sampleBuilt,
          none⟩ ∧
      sampleBuilt.ScreenshotURL = "" ∧
      (∀ x ∈ (ReportHandler.SubmitReport unconfiguredHandler sampleEnv sampleRequest).effects,
        x.isStoreOp = false) ∧
      ∀ x ∈ (ReportHandler.SubmitReport unconfiguredHandler sampleEnv sampleRequest).effects,
        ∀ r, x.report? = some r → r.ScreenshotURL = "" :=
  submit_without_store_succeeds unconfiguredHandler sampleEnv sampleRequest sampleForm
    sampleBuilt rfl rfl rfl

/-- C12 (the code without a store): each read handler constructed over a nil storage, whatever
the request, ends in a panic on the nil pointer, where the claim wants the failure response of
the handler: `h.storage.GetReport` and `h.storage.ListReports` are called without the nil check
that `SubmitReport` makes, and read `s.client` of the nil receiver. -/
theorem read_handlers_panic_without_store (key : String) (reportID : GoString)
    (mapRange : List GoString → List GoString) :
    ReportHandler.GetReport ⟨none, key⟩ reportID =
        Outcome.panic "invalid memory address or nil pointer dereference" ∧
      ReportHandler.ListReports ⟨none, key⟩ mapRange =
        Outcome.panic "invalid memory address or nil pointer dereference" ∧
      InspectorHandler.Index ⟨none⟩ mapRange =
        Outcome.panic "invalid memory address or nil pointer dereference" ∧
      InspectorHandler.Detail ⟨none⟩ reportID =
        Outcome.panic "invalid memory address or nil pointer dereference" :=
  ⟨rfl, rfl, rfl, rfl⟩

end Scenextras
